import Mathlib

/-!
# Battleship board (`Ocean`): a shallow embedding of `ocean.h` / `ocean.cpp`

The C++ class `HLP2::WarBoats::Ocean` owns a flat `int` grid, an array of `Boat`
records and four shot counters.  The embedding keeps that representation:

* `int` is modelled by `Int`.  The counters `hits`, `misses`, `sunk` and the hit
  counter of a vessel grow at most once per grid cell, so from a constructed
  board they stay far below the 32-bit limit and their arithmetic is the
  mathematical one.  The counter `duplicates` has no such bound (the same cell
  can be shot again and again), so `stats.duplicates++` is modelled with the
  32-bit wrap-around of the compiled code, `wrapInt32`;
* the two heap arrays are lists, and every subscript goes through `load` /
  `store`, which report a `Fault` when the index is outside the allocation
  (the C++ behaviour is undefined there);
* member functions take the object state and return the result together with
  the new state.

The private members `num_boats`, `x_size`, `y_size` of the class are never
initialised nor read by any member function and are left out.
-/

namespace HLP2.WarBoats

/-- Length of a boat (`ocean.h`, line 32). -/
def BOAT_LENGTH : Int := 4

/-- Value added to the boat ID when a cell is hit (`ocean.h`, line 37). -/
def HIT_OFFSET : Int := 100

/-- Unscoped enumeration `Orientation`, carried as its integer value so that the
defensive third branch of `PlaceBoat` stays reachable. -/
structure Orientation where
  val : Int
deriving DecidableEq, Repr

def oHORIZONTAL : Orientation := ⟨0⟩

def oVERTICAL : Orientation := ⟨1⟩

inductive ShotResult where
  | srHIT
  | srMISS
  | srDUPLICATE
  | srSUNK
  | srILLEGAL
deriving DecidableEq, Repr

/-- Enumerator `dtOK = 0` of `DamageType`. -/
def dtOK : Int := 0

/-- Enumerator `dtBLOWNUP = -1` of `DamageType`. -/
def dtBLOWNUP : Int := -1

inductive BoatPlacement where
  | bpACCEPTED
  | bpREJECTED
deriving DecidableEq, Repr

structure Point where
  x : Int
  y : Int
deriving DecidableEq, Repr

structure Boat where
  hits : Int
  ID : Int
  orientation : Orientation
  position : Point
deriving DecidableEq, Repr

structure ShotStats where
  hits : Int
  misses : Int
  duplicates : Int
  sunk : Int
deriving DecidableEq, Repr

/-- Data members of `class Ocean` that the member functions use. -/
structure Ocean where
  grid : List Int
  boats : List Boat
  location : Point
  stats : ShotStats
deriving DecidableEq, Repr

/-- Ways in which a call fails to return: a subscript outside the `grid` or the
`boats` allocation (undefined behaviour in C++), or a negative array length
given to `new` (which throws). -/
inductive Fault where
  | gridOutOfRange
  | boatOutOfRange
  | badArrayLength
deriving DecidableEq, Repr

deriving instance DecidableEq for Except

/-- Content of slot `i` of an array, when `i` lies inside the allocation. -/
def peek {α : Type} (mem : List α) (i : Int) : Option α :=
  if 0 ≤ i then mem[i.toNat]? else none

/-- Array read `mem[i]`. -/
def load {α : Type} (mem : List α) (i : Int) (f : Fault) : Except Fault α :=
  match peek mem i with
  | some v => .ok v
  | none => .error f

/-- Array write `mem[i] = v`. -/
def store {α : Type} (mem : List α) (i : Int) (v : α) (f : Fault) : Except Fault (List α) :=
  if 0 ≤ i ∧ i.toNat < mem.length then .ok (mem.set i.toNat v) else .error f

/-- Value-initialised `Boat{}`. -/
def Boat.zero : Boat := ⟨0, 0, oHORIZONTAL, ⟨0, 0⟩⟩

/-- Constructor `Ocean::Ocean(num_boats, x_size, y_size)` (`ocean.cpp`, line 27):
both arrays are value-initialised; a negative array length makes `new` throw. -/
def Ocean.construct (num_boats x_size y_size : Int) : Except Fault Ocean :=
  if x_size * y_size < 0 ∨ num_boats < 0 then .error .badArrayLength
  else .ok
    { grid := List.replicate (x_size * y_size).toNat 0
      boats := List.replicate num_boats.toNat Boat.zero
      location := ⟨x_size, y_size⟩
      stats := ⟨0, 0, 0, 0⟩ }

/-- Member `Ocean::IsValidCoordinate` (`ocean.cpp`, lines 187-190). -/
def Ocean.IsValidCoordinate (o : Ocean) (coordinate : Point) : Bool :=
  decide (coordinate.x ≥ 0) && decide (coordinate.x < o.location.x)
    && decide (coordinate.y ≥ 0) && decide (coordinate.y < o.location.y)

/-- Flat index of the cell `(x, y)`: `x + y * location.x`. -/
def Ocean.flat (o : Ocean) (p : Point) : Int :=
  p.x + p.y * o.location.x

/-- The expression `gridIndex` of both loops of `PlaceBoat` (lines 66 and 73). -/
def gridIndex (o : Ocean) (boat : Boat) (i : Int) : Int :=
  if boat.orientation = oHORIZONTAL then i + boat.position.y * o.location.x
  else boat.position.x + i * o.location.x

/-- Scan loop of `PlaceBoat` (lines 64-68), `n` iterations starting at `i`:
`false` as soon as a cell is not `dtOK`, `true` when the loop runs to its end. -/
def scanLoop (o : Ocean) (boat : Boat) (i : Int) : Nat → Except Fault Bool
  | 0 => .ok true
  | n + 1 =>
    match load o.grid (gridIndex o boat i) .gridOutOfRange with
    | .error f => .error f
    | .ok v => if v ≠ dtOK then .ok false else scanLoop o boat (i + 1) n

/-- Write loop of `PlaceBoat` (lines 71-75), `n` iterations starting at `i`. -/
def fillLoop (o : Ocean) (boat : Boat) (grid : List Int) (i : Int) : Nat → Except Fault (List Int)
  | 0 => .ok grid
  | n + 1 =>
    match store grid (gridIndex o boat i) boat.ID .gridOutOfRange with
    | .error f => .error f
    | .ok grid' => fillLoop o boat grid' (i + 1) n

/-- Lines 77-80 of `PlaceBoat`: `boats[boat.ID - 1] = boat; boats[boat.ID - 1].hits = 0;`. -/
def recordBoat (boats : List Boat) (boat : Boat) : Except Fault (List Boat) :=
  match store boats (boat.ID - 1) boat .boatOutOfRange with
  | .error f => .error f
  | .ok boats' =>
    match load boats' (boat.ID - 1) .boatOutOfRange with
    | .error f => .error f
    | .ok cur => store boats' (boat.ID - 1) { cur with hits := 0 } .boatOutOfRange

/-- Lines 63-82 of `PlaceBoat`: the part after `start` and `end` are known. -/
def placeSpan (o : Ocean) (boat : Boat) (start end_ : Int) :
    Except Fault (BoatPlacement × Ocean) :=
  match scanLoop o boat start (end_ - start).toNat with
  | .error f => .error f
  | .ok false => .ok (.bpREJECTED, o)
  | .ok true =>
    match fillLoop o boat o.grid start (end_ - start).toNat with
    | .error f => .error f
    | .ok grid' =>
      match recordBoat o.boats boat with
      | .error f => .error f
      | .ok boats' => .ok (.bpACCEPTED, { o with grid := grid', boats := boats' })

/-- Member `Ocean::PlaceBoat` (`ocean.cpp`, lines 30-83). -/
def Ocean.PlaceBoat (o : Ocean) (boat : Boat) : Except Fault (BoatPlacement × Ocean) :=
  if !o.IsValidCoordinate boat.position then .ok (.bpREJECTED, o)
  else if boat.orientation = oHORIZONTAL then
    let start := boat.position.x
    let end_ := boat.position.x + BOAT_LENGTH
    if end_ > o.location.x then .ok (.bpREJECTED, o)
    else placeSpan o boat start end_
  else if boat.orientation = oVERTICAL then
    let start := boat.position.y
    let end_ := boat.position.y + BOAT_LENGTH
    if end_ > o.location.y then .ok (.bpREJECTED, o)
    else placeSpan o boat start end_
  else .ok (.bpREJECTED, o)

/-- Value held by a 32-bit `int` when the arithmetic result is `n`: two's
complement wrap-around into `[-2147483648, 2147483647]`. -/
def wrapInt32 (n : Int) : Int := (n + 2147483648) % 4294967296 - 2147483648

/-- Member `Ocean::TakeShot` (`ocean.cpp`, lines 86-135).  The reference
`position` is the grid slot at `coordinate.x + coordinate.y * location.x`. -/
def Ocean.TakeShot (o : Ocean) (coordinate : Point) : Except Fault (ShotResult × Ocean) :=
  if !o.IsValidCoordinate coordinate then .ok (.srILLEGAL, o)
  else
    match load o.grid (o.flat coordinate) .gridOutOfRange with
    | .error f => .error f
    | .ok position =>
      if position = dtOK then
        match store o.grid (o.flat coordinate) dtBLOWNUP .gridOutOfRange with
        | .error f => .error f
        | .ok grid' =>
          .ok (.srMISS,
            { o with grid := grid', stats := { o.stats with misses := o.stats.misses + 1 } })
      else if position > 0 ∧ position < HIT_OFFSET then
        let boatIndex := position - 1
        -- boats[boatIndex].hits++;
        match load o.boats boatIndex .boatOutOfRange with
        | .error f => .error f
        | .ok cur =>
          match store o.boats boatIndex { cur with hits := cur.hits + 1 } .boatOutOfRange with
          | .error f => .error f
          | .ok boats' =>
            if cur.hits + 1 ≥ BOAT_LENGTH then
              -- stats.sunk++; position += HIT_OFFSET; stats.hits++;
              match store o.grid (o.flat coordinate) (position + HIT_OFFSET) .gridOutOfRange with
              | .error f => .error f
              | .ok grid' =>
                .ok (.srSUNK,
                  { o with
                    grid := grid', boats := boats',
                    stats := { o.stats with sunk := o.stats.sunk + 1, hits := o.stats.hits + 1 } })
            else
              -- position += HIT_OFFSET; stats.hits++;
              match store o.grid (o.flat coordinate) (position + HIT_OFFSET) .gridOutOfRange with
              | .error f => .error f
              | .ok grid' =>
                .ok (.srHIT,
                  { o with
                    grid := grid', boats := boats',
                    stats := { o.stats with hits := o.stats.hits + 1 } })
      else
        -- stats.duplicates++;
        .ok (.srDUPLICATE,
          { o with stats := { o.stats with duplicates := wrapInt32 (o.stats.duplicates + 1) } })

/-- Member `Ocean::GetShotStats` (`ocean.cpp`, lines 138-141). -/
def Ocean.GetShotStats (o : Ocean) : ShotStats := o.stats

/-- Member `Ocean::GetDimensions` (`ocean.cpp`, lines 175-178). -/
def Ocean.GetDimensions (o : Ocean) : Point := o.location

/-- Member `Ocean::GetGrid` (`ocean.cpp`, lines 181-184). -/
def Ocean.GetGrid (o : Ocean) : List Int := o.grid

/-- Value of the cell at a coordinate, when its flat index is inside the grid. -/
def Ocean.cell (o : Ocean) (p : Point) : Option Int := peek o.grid (o.flat p)

/-- Content of the vessel-list slot of identifier `id` (slot `id - 1`). -/
def Ocean.slot (o : Ocean) (id : Int) : Option Boat := peek o.boats (id - 1)

/-- The `i`-th cell of the span of a boat: `(x + i, y)` or `(x, y + i)`. -/
def Boat.spanCell (boat : Boat) (i : Int) : Point :=
  if boat.orientation = oHORIZONTAL then ⟨boat.position.x + i, boat.position.y⟩
  else ⟨boat.position.x, boat.position.y + i⟩

/-- Loop variable value at the first iteration of the `PlaceBoat` loops. -/
def Boat.spanStart (boat : Boat) : Int :=
  if boat.orientation = oHORIZONTAL then boat.position.x else boat.position.y

/-- Class invariant set up by the constructor: the grid has `width * height` cells. -/
def Ocean.WellFormed (o : Ocean) : Prop :=
  o.grid.length = (o.location.x * o.location.y).toNat

instance (o : Ocean) : Decidable o.WellFormed := by
  unfold Ocean.WellFormed
  infer_instance

/-- A 4 x 2 board with one vessel slot, as the constructor leaves it. -/
def emptyBoard : Ocean :=
  ⟨[0, 0, 0, 0, 0, 0, 0, 0], [Boat.zero], ⟨4, 2⟩, ⟨0, 0, 0, 0⟩⟩

/-- The board `emptyBoard` after vessel 1 was placed horizontally at `(0, 0)`. -/
def demoBoard : Ocean :=
  ⟨[1, 1, 1, 1, 0, 0, 0, 0], [⟨0, 1, oHORIZONTAL, ⟨0, 0⟩⟩], ⟨4, 2⟩, ⟨0, 0, 0, 0⟩⟩

/-- State after a shot that hits an unhit cell of value `v` whose vessel record is `bt`. -/
def hitState (o : Ocean) (c : Point) (v : Int) (bt : Boat) : Ocean :=
  { o with
    grid := o.grid.set (o.flat c).toNat (v + HIT_OFFSET)
    boats := o.boats.set (v - 1).toNat { bt with hits := bt.hits + 1 }
    stats :=
      if bt.hits + 1 ≥ BOAT_LENGTH then
        { o.stats with sunk := o.stats.sunk + 1, hits := o.stats.hits + 1 }
      else { o.stats with hits := o.stats.hits + 1 } }

/-- State after a shot that misses at coordinate `c`. -/
def missState (o : Ocean) (c : Point) : Ocean :=
  { o with
    grid := o.grid.set (o.flat c).toNat dtBLOWNUP
    stats := { o.stats with misses := o.stats.misses + 1 } }

/-- State after a duplicate shot. -/
def dupState (o : Ocean) : Ocean :=
  { o with stats := { o.stats with duplicates := wrapInt32 (o.stats.duplicates + 1) } }

/-- State after an accepted placement whose write loop produced `grid'`. -/
def placedState (o : Ocean) (boat : Boat) (grid' : List Int) : Ocean :=
  { o with grid := grid', boats := o.boats.set (boat.ID - 1).toNat { boat with hits := 0 } }

/-- Conditions (1) and (2) of placement: valid anchor, and the span ends inside
the grid along the axis of a horizontal or vertical vessel. -/
def Ocean.spanFits (o : Ocean) (boat : Boat) : Prop :=
  ((0 ≤ boat.position.x ∧ boat.position.x < o.location.x) ∧
    (0 ≤ boat.position.y ∧ boat.position.y < o.location.y)) ∧
  ((boat.orientation = oHORIZONTAL ∧ boat.position.x + 4 ≤ o.location.x) ∨
    (boat.orientation = oVERTICAL ∧ boat.position.y + 4 ≤ o.location.y))

instance (o : Ocean) (boat : Boat) : Decidable (o.spanFits boat) := by
  unfold Ocean.spanFits
  infer_instance

/-- Condition (3) of placement: each of the four cells of the span holds 0. -/
def Ocean.spanClear (o : Ocean) (boat : Boat) : Prop :=
  ∀ i : Fin 4, o.cell (boat.spanCell (i.val : Int)) = some 0

instance (o : Ocean) (boat : Boat) : Decidable (o.spanClear boat) := by
  unfold Ocean.spanClear
  infer_instance

/-- Properties of the grid `g'` left by the write loop of an accepted placement. -/
def Ocean.Filled (o : Ocean) (boat : Boat) (g' : List Int) : Prop :=
  g'.length = o.grid.length ∧
  (∀ j : Nat, j < 4 → peek g' (o.flat (boat.spanCell j)) = some boat.ID) ∧
  (∀ k : Int, (∀ j : Nat, j < 4 → k ≠ o.flat (boat.spanCell j)) → peek g' k = peek o.grid k)

/-- Acceptance condition of a placement in the words of the specification:
(1) the anchor is a valid coordinate, (2) the vessel is horizontal with
`anchor.x + 4 ≤ width` or vertical with `anchor.y + 4 ≤ height`, (3) each of the
four cells of the span holds 0. -/
def Ocean.Placeable (o : Ocean) (boat : Boat) : Prop :=
  o.IsValidCoordinate boat.position = true ∧
  ((boat.orientation = oHORIZONTAL ∧ boat.position.x + 4 ≤ o.location.x) ∨
    (boat.orientation = oVERTICAL ∧ boat.position.y + 4 ≤ o.location.y)) ∧
  (∀ i : Int, 0 ≤ i → i < 4 → o.cell (boat.spanCell i) = some 0)

/-- The identifier of the vessel names a slot of the vessel list: `1 ≤ ID ≤ capacity`. -/
def Ocean.HasSlot (o : Ocean) (boat : Boat) : Prop :=
  1 ≤ boat.ID ∧ boat.ID ≤ o.boats.length

instance (o : Ocean) (boat : Boat) : Decidable (o.HasSlot boat) := by
  unfold Ocean.HasSlot
  infer_instance

/-- A caller firing the shots of a list one after the other: the results in
order and the final state. -/
def shootAll (o : Ocean) : List Point → Except Fault (List ShotResult × Ocean)
  | [] => .ok ([], o)
  | c :: cs =>
    match o.TakeShot c with
    | .error f => .error f
    | .ok (r, o1) =>
      match shootAll o1 cs with
      | .error f => .error f
      | .ok (rs, o2) => .ok (r :: rs, o2)

/-- Results of `n` successive hits on a vessel whose hit counter starts at `h`. -/
def outcomes : Int → Nat → List ShotResult
  | _, 0 => []
  | h, n + 1 => (if h + 1 ≥ BOAT_LENGTH then .srSUNK else .srHIT) :: outcomes (h + 1) n

/-- A 4 x 1 board with one hundred vessel slots, as the constructor leaves it. -/
def bigFleet : Ocean :=
  ⟨[0, 0, 0, 0], List.replicate 100 Boat.zero, ⟨4, 1⟩, ⟨0, 0, 0, 0⟩⟩

/-- The 10 x 10 board with one vessel slot, as the constructor leaves it. -/
def ocean10 : Ocean :=
  ⟨List.replicate 100 0, [Boat.zero], ⟨10, 10⟩, ⟨0, 0, 0, 0⟩⟩

/-- The board `ocean10` after vessel 1 was placed horizontally at `(0, 0)`. -/
def ocean10Placed : Ocean :=
  ⟨[1, 1, 1, 1] ++ List.replicate 96 0, [⟨0, 1, oHORIZONTAL, ⟨0, 0⟩⟩], ⟨10, 10⟩, ⟨0, 0, 0, 0⟩⟩

/-- The board `ocean10Placed` after the shots `(0,0)`, `(1,0)`, `(2,0)`, `(3,0)`. -/
def ocean10Sunk : Ocean :=
  ⟨[101, 101, 101, 101] ++ List.replicate 96 0, [⟨4, 1, oHORIZONTAL, ⟨0, 0⟩⟩], ⟨10, 10⟩,
    ⟨4, 0, 0, 1⟩⟩

/-- A call made by a user of the board. -/
inductive Op where
  | place (boat : Boat)
  | shoot (coordinate : Point)
deriving DecidableEq, Repr

/-- A call together with what it returned. -/
inductive Event where
  | placed (boat : Boat) (result : BoatPlacement)
  | shot (coordinate : Point) (result : ShotResult)
deriving DecidableEq, Repr

/-- One call on the board: `PlaceBoat` or `TakeShot`. -/
def step (o : Ocean) : Op → Except Fault (Event × Ocean)
  | .place boat =>
    match o.PlaceBoat boat with
    | .error f => .error f
    | .ok (r, o') => .ok (.placed boat r, o')
  | .shoot c =>
    match o.TakeShot c with
    | .error f => .error f
    | .ok (r, o') => .ok (.shot c r, o')

/-- A caller making the calls of a list one after the other: the log of the calls
with their results, and the final state. -/
def runOps (o : Ocean) : List Op → Except Fault (List Event × Ocean)
  | [] => .ok ([], o)
  | op :: ops =>
    match step o op with
    | .error f => .error f
    | .ok (e, o1) =>
      match runOps o1 ops with
      | .error f => .error f
      | .ok (es, o2) => .ok (e :: es, o2)

/-- The vessel of an event that is an accepted placement. -/
def Event.accepted? : Event → Option Boat
  | .placed boat .bpACCEPTED => some boat
  | _ => none

/-- The vessels whose placement was accepted, in the order of the log. -/
def accepted (log : List Event) : List Boat := log.filterMap Event.accepted?

/-- Whether an event is a shot that returned `r`. -/
def Event.isShot (r : ShotResult) : Event → Bool
  | .shot _ r' => decide (r' = r)
  | .placed _ _ => false

/-- Number of shots of the log that returned `r`. -/
def shotCount (r : ShotResult) (log : List Event) : Nat := log.countP (Event.isShot r)

/-- Cell encoding of a board with `N` vessel slots: the grid has `width * height`
cells, the vessel list has `N` slots, and every grid slot holds 0, -1, a value
in `[1, N]` or a value in `[101, 100 + N]`. -/
structure Encoded (N : Int) (o : Ocean) : Prop where
  wf : o.WellFormed
  cap : (o.boats.length : Int) = N
  enc : ∀ (k : Int) (v : Int), peek o.grid k = some v →
    v = 0 ∨ v = -1 ∨ (1 ≤ v ∧ v ≤ N) ∨ (101 ≤ v ∧ v ≤ 100 + N)

/-- Whether an event is a shot that did not return Illegal. -/
def Event.isLegalShot : Event → Bool
  | .shot _ r => decide (r ≠ .srILLEGAL)
  | .placed _ _ => false

/-- Number of shots of the log that did not return Illegal. -/
def legalShots (log : List Event) : Nat := log.countP Event.isLegalShot

/-- The four counters agree with the log of calls: `misses`, `hits` and `sunk` are
the numbers of shots with the matching results, `duplicates` is the number of
Duplicate shots as a 32-bit `int` holds it, and the shots that were not Illegal
are the Miss, Duplicate, Hit and Sunk shots. -/
def Ocean.StatsMatch (o : Ocean) (log : List Event) : Prop :=
  o.GetShotStats.misses = shotCount .srMISS log ∧
  o.GetShotStats.duplicates = wrapInt32 (shotCount .srDUPLICATE log) ∧
  o.GetShotStats.hits = shotCount .srHIT log + shotCount .srSUNK log ∧
  o.GetShotStats.sunk = shotCount .srSUNK log ∧
  legalShots log = shotCount .srMISS log + shotCount .srDUPLICATE log
    + shotCount .srHIT log + shotCount .srSUNK log

/-- What `Dump` sends to the output stream: a number under `std::setw(field_width)`,
or the string `"\n"`. -/
inductive Printed where
  | number (field_width : Int) (value : Int)
  | newline
deriving DecidableEq, Repr

/-- Line 165 of `Dump`: the value shown for a cell value. -/
def shown (showboats : Bool) (value : Int) : Int :=
  if value > 0 ∧ value < HIT_OFFSET ∧ (!showboats) = true then 0 else value

/-- Inner loop of `Dump` (lines 161-167) for row `y`: `n` iterations starting at `x`. -/
def dumpRow (o : Ocean) (field_width : Int) (showboats : Bool) (y : Int) (x : Int) :
    Nat → Except Fault (List Printed)
  | 0 => .ok []
  | n + 1 =>
    match load o.grid (y * o.location.x + x) .gridOutOfRange with
    | .error f => .error f
    | .ok value =>
      match dumpRow o field_width showboats y (x + 1) n with
      | .error f => .error f
      | .ok rest => .ok (.number field_width (shown showboats value) :: rest)

/-- Outer loop of `Dump` (lines 159-171): `n` iterations starting at row `y`. -/
def dumpRows (o : Ocean) (field_width : Int) (extraline showboats : Bool) (y : Int) :
    Nat → Except Fault (List Printed)
  | 0 => .ok []
  | n + 1 =>
    match dumpRow o field_width showboats y 0 o.location.x.toNat with
    | .error f => .error f
    | .ok row =>
      match dumpRows o field_width extraline showboats (y + 1) n with
      | .error f => .error f
      | .ok rest =>
        .ok (row ++ (Printed.newline :: (if extraline then [Printed.newline] else [])) ++ rest)

/-- Member `Ocean::Dump` (`ocean.cpp`, lines 153-172): the sequence of insertions
into `std::cout`. -/
def Ocean.Dump (o : Ocean) (field_width : Int) (extraline showboats : Bool) :
    Except Fault (List Printed) :=
  dumpRows o field_width extraline showboats 0 o.location.y.toNat

/-- The number of a printed item, if it is one. -/
def Printed.value? : Printed → Option Int
  | .number _ v => some v
  | .newline => none

/-- The numbers of an output, in the order they were printed. -/
def printedValues (out : List Printed) : List Int := out.filterMap Printed.value?

/-- What the specification says `Dump` shows: one number per cell, rows
`y = 0 .. height - 1`, within a row `x = 0 .. width - 1`; a cell holding `v`
shows 0 when `showboats` is false and `0 < v < 100`, and `v` otherwise. -/
def Ocean.dumpSpec (o : Ocean) (showboats : Bool) : List (Option Int) :=
  (List.range o.location.y.toNat).flatMap fun (y : Nat) =>
    (List.range o.location.x.toNat).map fun (x : Nat) =>
      (o.cell ⟨(x : Int), (y : Int)⟩).map fun v =>
        if showboats = false ∧ 0 < v ∧ v < 100 then 0 else v

/-- Number of cells of the span of a vessel that hold its identifier plus 100. -/
def Ocean.hitCount (o : Ocean) (b : Boat) : Nat :=
  (List.range 4).countP fun (i : Nat) => decide (o.cell (b.spanCell (i : Int)) = some (b.ID + 100))

/-- All four cells of the span of a vessel are hit: the count of hit cells is 4. -/
def Ocean.fullyHit (o : Ocean) (b : Boat) : Bool := decide (o.hitCount b = 4)

/-- The call of an event. -/
def Event.op : Event → Op
  | .placed boat _ => .place boat
  | .shot c _ => .shoot c

/-- Bookkeeping of the accepted vessels `acc` on a board with at most 99 slots:
each accepted vessel fits the grid, has a slot, its span cells hold its
identifier unhit or hit, its slot holds it with the number of its hit cells as
hit counter; every grid value other than 0 and -1 lies in the span of an
accepted vessel; `sunk` counts the accepted vessels that are fully hit. -/
structure Tracked (acc : List Boat) (o : Ocean) : Prop where
  cap : o.boats.length ≤ 99
  fits : ∀ b ∈ acc, o.spanFits b
  ids : ∀ b ∈ acc, 1 ≤ b.ID ∧ b.ID ≤ o.boats.length
  cells : ∀ b ∈ acc, ∀ i : Nat, i < 4 →
    o.cell (b.spanCell (i : Int)) = some b.ID ∨ o.cell (b.spanCell (i : Int)) = some (b.ID + 100)
  owner : ∀ (k : Int) (v : Int), peek o.grid k = some v →
    v = 0 ∨ v = -1 ∨ ∃ b ∈ acc, ∃ i : Nat, i < 4 ∧ k = o.flat (b.spanCell (i : Int))
  slots : ∀ b ∈ acc, o.slot b.ID = some { b with hits := (o.hitCount b : Int) }
  sunk : o.stats.sunk = (acc.countP o.fullyHit : Nat)

/-- Counters and grid agree on a board whose vessel values are below 100: `misses`
is the number of grid slots holding -1, `hits` the number holding at least
101, and every grid slot holds 0, -1, a value in `[1, 99]` or in `[101, 199]`. -/
structure Tallied (o : Ocean) : Prop where
  misses : o.stats.misses = (o.grid.countP (fun v => decide (v = -1)) : Nat)
  hits : o.stats.hits = (o.grid.countP (fun v => decide (101 ≤ v)) : Nat)
  vals : ∀ (k : Int) (v : Int), peek o.grid k = some v →
    v = 0 ∨ v = -1 ∨ (1 ≤ v ∧ v ≤ 99) ∨ (101 ≤ v ∧ v ≤ 199)

/-- The board `ocean10` after two horizontal vessels with identifier 1 were placed at
`(0, 0)` and `(0, 1)` and the shots `(0,0)`, `(1,0)`, `(0,1)`, `(1,1)` were fired. -/
def reuseBoard : Ocean :=
  ⟨[101, 101, 1, 1, 0, 0, 0, 0, 0, 0, 101, 101, 1, 1] ++ List.replicate 86 0,
    [⟨4, 1, oHORIZONTAL, ⟨0, 1⟩⟩], ⟨10, 10⟩, ⟨4, 0, 0, 1⟩⟩

/-- The 1 x 1 board without vessel slots, as the constructor leaves it. -/
def tinyBoard : Ocean := ⟨[0], [], ⟨1, 1⟩, ⟨0, 0, 0, 0⟩⟩

/-- The board `tinyBoard` after one Miss at `(0, 0)`. -/
def tinyMissed : Ocean := ⟨[-1], [], ⟨1, 1⟩, ⟨0, 1, 0, 0⟩⟩

/-- The board `tinyBoard` after one Miss and 2147483647 Duplicate shots at `(0, 0)`:
`duplicates` is at the largest 32-bit value. -/
def tinyFull : Ocean := ⟨[-1], [], ⟨1, 1⟩, ⟨0, 1, 2147483647, 0⟩⟩

/-- The board `tinyFull` after one more Duplicate shot: `duplicates` has wrapped. -/
def tinyWrapped : Ocean := ⟨[-1], [], ⟨1, 1⟩, ⟨0, 1, -2147483648, 0⟩⟩

/-! ## Array access lemmas -/

theorem peek_some_bounds {α : Type} {mem : List α} {i : Int} {v : α}
    (h : peek mem i = some v) : 0 ≤ i ∧ i.toNat < mem.length := by
  unfold peek at h
  split at h
  · rename_i h0
    refine ⟨h0, ?_⟩
    by_contra hlt
    rw [List.getElem?_eq_none (by omega)] at h
    cases h
  · cases h

theorem load_of_peek {α : Type} {mem : List α} {i : Int} {v : α} (f : Fault)
    (h : peek mem i = some v) : load mem i f = .ok v := by
  simp [load, h]

theorem store_of_peek {α : Type} {mem : List α} {i : Int} {v : α} (w : α) (f : Fault)
    (h : peek mem i = some v) : store mem i w f = .ok (mem.set i.toNat w) := by
  have hb := peek_some_bounds h
  simp [store, hb.1, hb.2]

theorem peek_set_self {α : Type} {mem : List α} {i : Int} {v : α} (w : α)
    (h : peek mem i = some v) : peek (mem.set i.toNat w) i = some w := by
  have hb := peek_some_bounds h
  simp [peek, hb.1, hb.2]

theorem peek_set_other {α : Type} (mem : List α) {i j : Int} (w : α)
    (hi : 0 ≤ i) (hne : j ≠ i) : peek (mem.set i.toNat w) j = peek mem j := by
  unfold peek
  split
  · rename_i hj
    have : i.toNat ≠ j.toNat := by omega
    simp [List.getElem?_set_ne this]
  · rfl

theorem load_ok_iff {α : Type} {mem : List α} {i : Int} {f : Fault} {v : α} :
    load mem i f = .ok v ↔ peek mem i = some v := by
  unfold load
  cases h : peek mem i <;> simp

theorem store_ok {α : Type} {mem mem' : List α} {i : Int} {w : α} {f : Fault}
    (h : store mem i w f = .ok mem') : 0 ≤ i ∧ i.toNat < mem.length ∧ mem' = mem.set i.toNat w := by
  unfold store at h
  split at h
  · rename_i hb
    cases h
    exact ⟨hb.1, hb.2, rfl⟩
  · cases h

theorem IsValidCoordinate_iff (o : Ocean) (p : Point) :
    o.IsValidCoordinate p = true ↔
      (0 ≤ p.x ∧ p.x < o.location.x) ∧ (0 ≤ p.y ∧ p.y < o.location.y) := by
  simp [Ocean.IsValidCoordinate, and_assoc]

/-! ## TakeShot -/

theorem TakeShot_hit_eq (o : Ocean) (c : Point) (v : Int) (bt : Boat)
    (hvalid : o.IsValidCoordinate c = true)
    (hcell : peek o.grid (o.flat c) = some v) (hv : 0 < v ∧ v < HIT_OFFSET)
    (hslot : peek o.boats (v - 1) = some bt) :
    o.TakeShot c =
      .ok (if bt.hits + 1 ≥ BOAT_LENGTH then .srSUNK else .srHIT, hitState o c v bt) := by
  have hne0 : ¬ v = dtOK := by unfold dtOK; omega
  by_cases hs : bt.hits + 1 ≥ BOAT_LENGTH
  · simp only [Ocean.TakeShot, hvalid, load_of_peek _ hcell, hne0, hv,
      load_of_peek _ hslot, store_of_peek _ _ hslot, store_of_peek _ _ hcell, hs, hitState]
    simp
  · simp only [Ocean.TakeShot, hvalid, load_of_peek _ hcell, hne0, hv,
      load_of_peek _ hslot, store_of_peek _ _ hslot, store_of_peek _ _ hcell, hs, hitState]
    simp

theorem TakeShot_illegal_eq (o : Ocean) (c : Point) (h : o.IsValidCoordinate c = false) :
    o.TakeShot c = .ok (.srILLEGAL, o) := by
  simp [Ocean.TakeShot, h]

theorem TakeShot_miss_eq (o : Ocean) (c : Point) (hvalid : o.IsValidCoordinate c = true)
    (hcell : peek o.grid (o.flat c) = some 0) :
    o.TakeShot c = .ok (.srMISS, missState o c) := by
  simp only [Ocean.TakeShot, hvalid, load_of_peek _ hcell, store_of_peek _ _ hcell, missState]
  simp [dtOK]

theorem TakeShot_duplicate_eq (o : Ocean) (c : Point) (v : Int)
    (hvalid : o.IsValidCoordinate c = true)
    (hcell : peek o.grid (o.flat c) = some v) (hv0 : v ≠ 0) (hv : ¬ (0 < v ∧ v < HIT_OFFSET)) :
    o.TakeShot c = .ok (.srDUPLICATE, dupState o) := by
  have hne0 : ¬ v = dtOK := by unfold dtOK; exact hv0
  have hv' : ¬ (v > 0 ∧ v < HIT_OFFSET) := hv
  simp only [Ocean.TakeShot, hvalid, load_of_peek _ hcell, hne0, hv', dupState]
  simp

/-- Every returning execution of `TakeShot` is one of the four paths of the source. -/
theorem TakeShot_cases (o o' : Ocean) (c : Point) (r : ShotResult)
    (h : o.TakeShot c = .ok (r, o')) :
    (o.IsValidCoordinate c = false ∧ r = .srILLEGAL ∧ o' = o) ∨
    (o.IsValidCoordinate c = true ∧ peek o.grid (o.flat c) = some 0 ∧
      r = .srMISS ∧ o' = missState o c) ∨
    (o.IsValidCoordinate c = true ∧ ∃ (v : Int) (bt : Boat),
      peek o.grid (o.flat c) = some v ∧ (0 < v ∧ v < HIT_OFFSET) ∧
      peek o.boats (v - 1) = some bt ∧
      r = (if bt.hits + 1 ≥ BOAT_LENGTH then .srSUNK else .srHIT) ∧ o' = hitState o c v bt) ∨
    (o.IsValidCoordinate c = true ∧ ∃ v : Int,
      peek o.grid (o.flat c) = some v ∧ v ≠ 0 ∧ ¬ (0 < v ∧ v < HIT_OFFSET) ∧
      r = .srDUPLICATE ∧ o' = dupState o) := by
  cases hvalid : o.IsValidCoordinate c with
  | false =>
    rw [TakeShot_illegal_eq o c hvalid] at h
    simp only [Except.ok.injEq, Prod.mk.injEq] at h
    exact Or.inl ⟨rfl, h.1.symm, h.2.symm⟩
  | true =>
    right
    cases hcell : peek o.grid (o.flat c) with
    | none =>
      simp [Ocean.TakeShot, hvalid, load, hcell] at h
    | some v =>
      by_cases hv0 : v = 0
      · subst hv0
        rw [TakeShot_miss_eq o c hvalid hcell] at h
        simp only [Except.ok.injEq, Prod.mk.injEq] at h
        exact Or.inl ⟨rfl, rfl, h.1.symm, h.2.symm⟩
      · by_cases hv : 0 < v ∧ v < HIT_OFFSET
        · cases hslot : peek o.boats (v - 1) with
          | none =>
            have hne0 : ¬ v = dtOK := by unfold dtOK; exact hv0
            have hv' : v > 0 ∧ v < HIT_OFFSET := hv
            simp [Ocean.TakeShot, hvalid, load, hcell, hne0, hv', hslot] at h
          | some bt =>
            rw [TakeShot_hit_eq o c v bt hvalid hcell hv hslot] at h
            simp only [Except.ok.injEq, Prod.mk.injEq] at h
            exact Or.inr (Or.inl ⟨rfl, v, bt, rfl, hv, hslot, h.1.symm, h.2.symm⟩)
        · rw [TakeShot_duplicate_eq o c v hvalid hcell hv0 hv] at h
          simp only [Except.ok.injEq, Prod.mk.injEq] at h
          exact Or.inr (Or.inr ⟨rfl, v, rfl, hv0, hv, h.1.symm, h.2.symm⟩)

/-- C1. A shot at an in-bounds cell holding an unhit vessel value `v`
(`1 ≤ v < 100`, slot `v - 1` present with record `bt`) adds one to that vessel's
hit counter, turns the cell into `v + 100`, adds one to `hits`, keeps `misses`
and `duplicates`; the result is Sunk with `sunk + 1` when the new hit counter
has reached 4, else Hit with `sunk` unchanged.  Every other cell, every other
vessel slot, the dimensions and both array lengths are unchanged. -/
theorem TakeShot_unhit_vessel_cell (o : Ocean) (c : Point) (v : Int) (bt : Boat)
    (hx : 0 ≤ c.x ∧ c.x < o.location.x) (hy : 0 ≤ c.y ∧ c.y < o.location.y)
    (hcell : o.cell c = some v) (hv : 1 ≤ v ∧ v < 100)
    (hslot : o.slot v = some bt) :
    ∃ o' : Ocean,
      o.TakeShot c = .ok (if 4 ≤ bt.hits + 1 then .srSUNK else .srHIT, o') ∧
      o'.slot v = some { bt with hits := bt.hits + 1 } ∧
      o'.cell c = some (v + 100) ∧
      o'.stats.hits = o.stats.hits + 1 ∧
      o'.stats.misses = o.stats.misses ∧
      o'.stats.duplicates = o.stats.duplicates ∧
      o'.stats.sunk = (if 4 ≤ bt.hits + 1 then o.stats.sunk + 1 else o.stats.sunk) ∧
      (∀ i : Int, i ≠ o.flat c → peek o'.grid i = peek o.grid i) ∧
      (∀ id : Int, id ≠ v → o'.slot id = o.slot id) ∧
      o'.location = o.location ∧
      o'.grid.length = o.grid.length ∧ o'.boats.length = o.boats.length := by
  have hvalid : o.IsValidCoordinate c = true := (IsValidCoordinate_iff o c).2 ⟨hx, hy⟩
  have hcb := peek_some_bounds hcell
  have hsb := peek_some_bounds hslot
  have hrange : 0 < v ∧ v < HIT_OFFSET := by unfold HIT_OFFSET; omega
  have hframe : ∀ id : Int, id ≠ v → id - 1 ≠ v - 1 := by intro id h; omega
  unfold Ocean.cell at hcell
  unfold Ocean.slot at hslot
  refine ⟨hitState o c v bt, ?_, ?_, ?_, ?_, ?_, ?_, ?_, ?_, ?_, rfl, ?_, ?_⟩
  · rw [TakeShot_hit_eq o c v bt hvalid hcell hrange hslot]; rfl
  · exact peek_set_self _ hslot
  · exact peek_set_self _ hcell
  · simp only [hitState]; split <;> rfl
  · simp only [hitState]; split <;> rfl
  · simp only [hitState]; split <;> rfl
  · simp only [hitState, BOAT_LENGTH, ge_iff_le]; split <;> rfl
  · intro i hi; exact peek_set_other _ _ hcb.1 hi
  · intro id hid; exact peek_set_other _ _ hsb.1 (hframe id hid)
  · simp [hitState]
  · simp [hitState]

theorem TakeShot_unhit_vessel_cell_witness :
    ∃ o' : Ocean,
      demoBoard.TakeShot ⟨2, 0⟩ = .ok (.srHIT, o') ∧
      o'.slot 1 = some ⟨1, 1, oHORIZONTAL, ⟨0, 0⟩⟩ ∧
      o'.cell ⟨2, 0⟩ = some 101 ∧
      o'.stats.hits = 1 := by
  obtain ⟨o', h⟩ := TakeShot_unhit_vessel_cell demoBoard ⟨2, 0⟩ 1 ⟨0, 1, oHORIZONTAL, ⟨0, 0⟩⟩
    (by decide) (by decide) (by decide) (by decide) (by decide)
  exact ⟨o', h.1, h.2.1, h.2.2.1, h.2.2.2.1⟩


/-! ## PlaceBoat -/

theorem oVERTICAL_ne : oVERTICAL ≠ oHORIZONTAL := by decide

theorem gridIndex_spanStart (o : Ocean) (boat : Boat) (j : Int) :
    gridIndex o boat (boat.spanStart + j) = o.flat (boat.spanCell j) := by
  unfold gridIndex Boat.spanStart Ocean.flat Boat.spanCell
  split <;> simp

theorem scanLoop_true_iff (o : Ocean) (boat : Boat) :
    ∀ (n : Nat) (i : Int), scanLoop o boat i n = .ok true ↔
      ∀ j : Nat, j < n → peek o.grid (gridIndex o boat (i + j)) = some 0 := by
  intro n
  induction n with
  | zero => intro i; simp [scanLoop]
  | succ n ih =>
    intro i
    unfold scanLoop
    cases hp : peek o.grid (gridIndex o boat i) with
    | none =>
      simp only [load, hp]
      constructor
      · intro h; cases h
      · intro h
        have h0 := h 0 (Nat.succ_pos n)
        simp [hp] at h0
    | some v =>
      simp only [load, hp]
      by_cases hv : v = dtOK
      · simp only [hv, ne_eq, not_true_eq_false, if_false, ih]
        constructor
        · intro h j hj
          cases j with
          | zero => simpa [hv, dtOK] using hp
          | succ j =>
            have := h j (by omega)
            have e : i + 1 + (j : Int) = i + ((j + 1 : Nat) : Int) := by push_cast; ring
            rwa [e] at this
        · intro h j hj
          have := h (j + 1) (by omega)
          have e : i + 1 + (j : Int) = i + ((j + 1 : Nat) : Int) := by push_cast; ring
          rwa [e]
      · simp only [ne_eq, hv, not_false_eq_true, if_true]
        constructor
        · intro h; cases h
        · intro h
          have h0 := h 0 (Nat.succ_pos n)
          simp only [Nat.cast_zero, add_zero, hp, Option.some.injEq] at h0
          exact absurd h0 hv

theorem scanLoop_false_of (o : Ocean) (boat : Boat) :
    ∀ (n : Nat) (i : Int) (k : Nat), k < n →
      (∀ j : Nat, j < k → ∃ v, peek o.grid (gridIndex o boat (i + j)) = some v) →
      (∃ v, peek o.grid (gridIndex o boat (i + k)) = some v ∧ v ≠ 0) →
      scanLoop o boat i n = .ok false := by
  intro n
  induction n with
  | zero => intro i k hk; omega
  | succ n ih =>
    intro i k hk hread hnz
    unfold scanLoop
    cases k with
    | zero =>
      obtain ⟨v, hv, hv0⟩ := hnz
      simp only [Nat.cast_zero, add_zero] at hv
      simp [load, hv, dtOK, hv0]
    | succ k =>
      obtain ⟨v, hv⟩ := hread 0 (Nat.succ_pos k)
      simp only [Nat.cast_zero, add_zero] at hv
      simp only [load, hv]
      by_cases hv0 : v = dtOK
      · simp only [hv0, ne_eq, not_true_eq_false, if_false]
        apply ih (i + 1) k (by omega)
        · intro j hj
          have := hread (j + 1) (by omega)
          have e : i + 1 + (j : Int) = i + ((j + 1 : Nat) : Int) := by push_cast; ring
          rwa [e]
        · have e : i + 1 + (k : Int) = i + ((k + 1 : Nat) : Int) := by push_cast; ring
          rwa [e]
      · simp [hv0]

theorem fillLoop_spec (o : Ocean) (boat : Boat) :
    ∀ (n : Nat) (g : List Int) (i : Int),
      (∀ j : Nat, j < n → ∃ v, peek g (gridIndex o boat (i + j)) = some v) →
      ∃ g' : List Int, fillLoop o boat g i n = .ok g' ∧ g'.length = g.length ∧
        (∀ j : Nat, j < n → peek g' (gridIndex o boat (i + j)) = some boat.ID) ∧
        (∀ k : Int, (∀ j : Nat, j < n → k ≠ gridIndex o boat (i + j)) → peek g' k = peek g k) := by
  intro n
  induction n with
  | zero => intro g i _; exact ⟨g, rfl, rfl, by intro j hj; omega, by intro k _; rfl⟩
  | succ n ih =>
    intro g i hread
    obtain ⟨v0, hv0⟩ := hread 0 (Nat.succ_pos n)
    simp only [Nat.cast_zero, add_zero] at hv0
    have hb0 := peek_some_bounds hv0
    have shift : ∀ j : Nat, i + 1 + (j : Int) = i + ((j + 1 : Nat) : Int) := by
      intro j; push_cast; ring
    have hread' : ∀ j : Nat, j < n →
        ∃ v, peek (g.set (gridIndex o boat i).toNat boat.ID) (gridIndex o boat (i + 1 + j)) = some v := by
      intro j hj
      obtain ⟨v, hv⟩ := hread (j + 1) (by omega)
      rw [shift j]
      by_cases he : gridIndex o boat (i + ((j + 1 : Nat) : Int)) = gridIndex o boat i
      · rw [he]; exact ⟨_, peek_set_self _ hv0⟩
      · rw [peek_set_other _ _ hb0.1 he]; exact ⟨v, hv⟩
    obtain ⟨g', hg', hlen, hin, hout⟩ := ih (g.set (gridIndex o boat i).toNat boat.ID) (i + 1) hread'
    refine ⟨g', ?_, ?_, ?_, ?_⟩
    · unfold fillLoop
      simp only [store_of_peek _ _ hv0]
      exact hg'
    · simpa using hlen
    · intro j hj
      cases j with
      | zero =>
        simp only [Nat.cast_zero, add_zero]
        by_cases hex : ∃ j' : Nat, j' < n ∧ gridIndex o boat i = gridIndex o boat (i + 1 + j')
        · obtain ⟨j', hj', he⟩ := hex
          rw [he]; exact hin j' hj'
        · rw [hout _ (by intro j' hj' he; exact hex ⟨j', hj', he⟩)]
          exact peek_set_self _ hv0
      | succ j =>
        rw [← shift j]; exact hin j (by omega)
    · intro k hk
      rw [hout k (by intro j hj; rw [shift j]; exact hk (j + 1) (by omega))]
      have hk0 := hk 0 (Nat.succ_pos n)
      simp only [Nat.cast_zero, add_zero] at hk0
      exact peek_set_other _ _ hb0.1 hk0

theorem fillLoop_ok_length (o : Ocean) (boat : Boat) :
    ∀ (n : Nat) (g g' : List Int) (i : Int), fillLoop o boat g i n = .ok g' →
      g'.length = g.length := by
  intro n
  induction n with
  | zero => intro g g' i h; simp only [fillLoop, Except.ok.injEq] at h; rw [h]
  | succ n ih =>
    intro g g' i h
    unfold fillLoop at h
    cases hs : store g (gridIndex o boat i) boat.ID .gridOutOfRange with
    | error f => rw [hs] at h; cases h
    | ok g1 =>
      rw [hs] at h
      have := ih g1 g' (i + 1) h
      rw [this, (store_ok hs).2.2]; simp

/-- Reading of `PlaceBoat` before the loops: outside `spanFits` it rejects at once. -/
theorem PlaceBoat_not_fits (o : Ocean) (boat : Boat) (h : ¬ o.spanFits boat) :
    o.PlaceBoat boat = .ok (.bpREJECTED, o) := by
  unfold Ocean.PlaceBoat
  by_cases hv : o.IsValidCoordinate boat.position = true
  · have hv' := (IsValidCoordinate_iff o boat.position).1 hv
    simp only [hv, Bool.not_true, Bool.false_eq_true, if_false]
    by_cases hH : boat.orientation = oHORIZONTAL
    · simp only [hH, if_true]
      have : boat.position.x + BOAT_LENGTH > o.location.x := by
        unfold BOAT_LENGTH
        by_contra hc
        exact h ⟨hv', Or.inl ⟨hH, by omega⟩⟩
      simp [this]
    · simp only [hH, if_false]
      by_cases hV : boat.orientation = oVERTICAL
      · simp only [hV, if_true]
        have : boat.position.y + BOAT_LENGTH > o.location.y := by
          unfold BOAT_LENGTH
          by_contra hc
          exact h ⟨hv', Or.inr ⟨hV, by omega⟩⟩
        simp [this]
      · simp [hV]
  · simp [hv]

/-- Reading of `PlaceBoat` before the loops: inside `spanFits` both loops run over
the four cells that start at `spanStart`. -/
theorem PlaceBoat_fits (o : Ocean) (boat : Boat) (h : o.spanFits boat) :
    o.PlaceBoat boat = placeSpan o boat boat.spanStart (boat.spanStart + BOAT_LENGTH) := by
  obtain ⟨hv, hor⟩ := h
  have hv' := (IsValidCoordinate_iff o boat.position).2 hv
  unfold Ocean.PlaceBoat Boat.spanStart
  simp only [hv', Bool.not_true, Bool.false_eq_true, if_false]
  rcases hor with ⟨hH, hx⟩ | ⟨hV, hy⟩
  · have : ¬ boat.position.x + BOAT_LENGTH > o.location.x := by unfold BOAT_LENGTH; omega
    simp [hH, this]
  · have : ¬ boat.position.y + BOAT_LENGTH > o.location.y := by unfold BOAT_LENGTH; omega
    have hne : ¬ boat.orientation = oHORIZONTAL := by rw [hV]; exact oVERTICAL_ne
    simp [hV, this, oVERTICAL_ne]

theorem span_count (s : Int) : (s + BOAT_LENGTH - s).toNat = 4 := by
  unfold BOAT_LENGTH; simp

theorem spanClear_iff (o : Ocean) (boat : Boat) :
    o.spanClear boat ↔
      ∀ j : Nat, j < 4 → peek o.grid (gridIndex o boat (boat.spanStart + j)) = some 0 := by
  unfold Ocean.spanClear Ocean.cell
  constructor
  · intro h j hj
    rw [gridIndex_spanStart]
    exact h ⟨j, hj⟩
  · intro h i
    have := h i.val i.isLt
    rwa [gridIndex_spanStart] at this

/-- Lines 77-80 of `PlaceBoat` on a valid slot: the record is stored with `hits = 0`. -/
theorem recordBoat_ok (boats : List Boat) (boat : Boat)
    (hid : 1 ≤ boat.ID ∧ boat.ID ≤ boats.length) :
    recordBoat boats boat = .ok (boats.set (boat.ID - 1).toNat { boat with hits := 0 }) := by
  have h0 : 0 ≤ boat.ID - 1 := by omega
  have h1 : (boat.ID - 1).toNat < boats.length := by omega
  have hp : peek (boats.set (boat.ID - 1).toNat boat) (boat.ID - 1) = some boat := by
    simp only [peek, h0, if_true]
    rw [List.getElem?_set_self h1]
  simp only [recordBoat, store, h0, h1, and_self, if_true, load_of_peek _ hp, List.length_set,
    List.set_set]

/-- Lines 77-80 of `PlaceBoat` on an identifier without a slot: the first write
is outside the `boats` array. -/
theorem recordBoat_fault (boats : List Boat) (boat : Boat)
    (hid : ¬ (1 ≤ boat.ID ∧ boat.ID ≤ boats.length)) :
    recordBoat boats boat = .error .boatOutOfRange := by
  have h : ¬ (0 ≤ boat.ID - 1 ∧ (boat.ID - 1).toNat < boats.length) := by omega
  simp only [recordBoat, store, h, if_false]

/-- A span that fits and is clear: the placement is accepted when the identifier
has a slot, and leaves defined behaviour at the `boats` write otherwise. -/
theorem PlaceBoat_clear (o : Ocean) (boat : Boat) (hfits : o.spanFits boat)
    (hclear : o.spanClear boat) :
    ∃ g' : List Int, o.Filled boat g' ∧
      o.PlaceBoat boat =
        if 1 ≤ boat.ID ∧ boat.ID ≤ o.boats.length then .ok (.bpACCEPTED, placedState o boat g')
        else .error .boatOutOfRange := by
  have hc := (spanClear_iff o boat).1 hclear
  have hscan : scanLoop o boat boat.spanStart 4 = .ok true :=
    (scanLoop_true_iff o boat 4 boat.spanStart).2 hc
  obtain ⟨g', hg', hlen, hin, hout⟩ :=
    fillLoop_spec o boat 4 o.grid boat.spanStart (fun j hj => ⟨0, hc j hj⟩)
  refine ⟨g', ⟨hlen, ?_, ?_⟩, ?_⟩
  · intro j hj; rw [← gridIndex_spanStart]; exact hin j hj
  · intro k hk
    exact hout k (by intro j hj; rw [gridIndex_spanStart]; exact hk j hj)
  · rw [PlaceBoat_fits o boat hfits]
    unfold placeSpan
    simp only [span_count, hscan, hg']
    by_cases hid : 1 ≤ boat.ID ∧ boat.ID ≤ o.boats.length
    · rw [if_pos hid, recordBoat_ok o.boats boat hid]; rfl
    · rw [if_neg hid, recordBoat_fault o.boats boat hid]

/-- A span that fits, whose cells can all be read and are not all 0: rejected. -/
theorem PlaceBoat_occupied (o : Ocean) (boat : Boat) (hfits : o.spanFits boat) (k : Nat)
    (hk : k < 4)
    (hread : ∀ j : Nat, j < k → ∃ v, o.cell (boat.spanCell j) = some v)
    (hnz : ∃ v, o.cell (boat.spanCell k) = some v ∧ v ≠ 0) :
    o.PlaceBoat boat = .ok (.bpREJECTED, o) := by
  have hscan : scanLoop o boat boat.spanStart 4 = .ok false := by
    apply scanLoop_false_of o boat 4 boat.spanStart k hk
    · intro j hj; rw [gridIndex_spanStart]; exact hread j hj
    · rw [gridIndex_spanStart]; exact hnz
  rw [PlaceBoat_fits o boat hfits]
  unfold placeSpan
  simp only [span_count, hscan]

/-- Whatever `PlaceBoat` returns, it returns for the reason the source gives. -/
theorem PlaceBoat_result (o o' : Ocean) (boat : Boat) (r : BoatPlacement)
    (h : o.PlaceBoat boat = .ok (r, o')) :
    (r = .bpREJECTED ∧ o' = o ∧ ¬ (o.spanFits boat ∧ o.spanClear boat)) ∨
    (r = .bpACCEPTED ∧ o.spanFits boat ∧ o.spanClear boat ∧
      (1 ≤ boat.ID ∧ boat.ID ≤ o.boats.length) ∧
      ∃ g' : List Int, o.Filled boat g' ∧ o' = placedState o boat g') := by
  by_cases hfits : o.spanFits boat
  · by_cases hclear : o.spanClear boat
    · obtain ⟨g', hfill, heq⟩ := PlaceBoat_clear o boat hfits hclear
      rw [heq] at h
      by_cases hid : 1 ≤ boat.ID ∧ boat.ID ≤ o.boats.length
      · rw [if_pos hid] at h
        simp only [Except.ok.injEq, Prod.mk.injEq] at h
        exact Or.inr ⟨h.1.symm, hfits, hclear, hid, g', hfill, h.2.symm⟩
      · rw [if_neg hid] at h; cases h
    · left
      rw [PlaceBoat_fits o boat hfits] at h
      unfold placeSpan at h
      simp only [span_count] at h
      cases hs : scanLoop o boat boat.spanStart 4 with
      | error f => rw [hs] at h; cases h
      | ok b =>
        cases b with
        | false =>
          rw [hs] at h
          simp only [Except.ok.injEq, Prod.mk.injEq] at h
          exact ⟨h.1.symm, h.2.symm, fun hc => hclear hc.2⟩
        | true =>
          exact absurd ((spanClear_iff o boat).2
            ((scanLoop_true_iff o boat 4 boat.spanStart).1 hs)) hclear
  · rw [PlaceBoat_not_fits o boat hfits] at h
    simp only [Except.ok.injEq, Prod.mk.injEq] at h
    exact Or.inl ⟨h.1.symm, h.2.symm, fun hc => hfits hc.1⟩

/-! ## Geometry of the flat grid -/

theorem flat_nonneg (o : Ocean) (p : Point) (hx : 0 ≤ p.x ∧ p.x < o.location.x)
    (hy : 0 ≤ p.y) : 0 ≤ o.flat p := by
  unfold Ocean.flat
  have : 0 ≤ p.y * o.location.x := mul_nonneg hy (by omega)
  omega

theorem flat_lt (o : Ocean) (p : Point) (hx : 0 ≤ p.x ∧ p.x < o.location.x)
    (hy : 0 ≤ p.y ∧ p.y < o.location.y) : o.flat p < o.location.x * o.location.y := by
  unfold Ocean.flat
  have h1 : (p.y + 1) * o.location.x ≤ o.location.y * o.location.x :=
    mul_le_mul_of_nonneg_right (by omega) (by omega)
  nlinarith

/-- Two in-bounds coordinates with the same flat index are the same coordinate. -/
theorem flat_inj (o : Ocean) (p q : Point)
    (hp : 0 ≤ p.x ∧ p.x < o.location.x) (hq : 0 ≤ q.x ∧ q.x < o.location.x)
    (h : o.flat p = o.flat q) : p = q := by
  unfold Ocean.flat at h
  have hy : p.y = q.y := by
    rcases lt_trichotomy p.y q.y with hlt | heq | hgt
    · have : (p.y + 1) * o.location.x ≤ q.y * o.location.x :=
        mul_le_mul_of_nonneg_right (by omega) (by omega)
      nlinarith
    · exact heq
    · have : (q.y + 1) * o.location.x ≤ p.y * o.location.x :=
        mul_le_mul_of_nonneg_right (by omega) (by omega)
      nlinarith
  have hx : p.x = q.x := by rw [hy] at h; omega
  cases p; cases q; simp_all

theorem peek_of_bounds {α : Type} (mem : List α) (i : Int) (h0 : 0 ≤ i)
    (h1 : i.toNat < mem.length) : ∃ v, peek mem i = some v := by
  refine ⟨mem[i.toNat], ?_⟩
  simp [peek, h0, List.getElem?_eq_getElem h1]

/-- On a well-formed board every in-bounds coordinate names a cell of the grid. -/
theorem cell_readable (o : Ocean) (hwf : o.WellFormed) (p : Point)
    (hx : 0 ≤ p.x ∧ p.x < o.location.x) (hy : 0 ≤ p.y ∧ p.y < o.location.y) :
    ∃ v, o.cell p = some v := by
  have h0 := flat_nonneg o p hx hy.1
  have h1 := flat_lt o p hx hy
  unfold Ocean.WellFormed at hwf
  exact peek_of_bounds o.grid (o.flat p) h0 (by omega)

/-- The cells of a span that fits are in-bounds coordinates. -/
theorem spanCell_inside (o : Ocean) (boat : Boat) (hfits : o.spanFits boat) (j : Int)
    (hj : 0 ≤ j ∧ j < 4) :
    (0 ≤ (boat.spanCell j).x ∧ (boat.spanCell j).x < o.location.x) ∧
    (0 ≤ (boat.spanCell j).y ∧ (boat.spanCell j).y < o.location.y) := by
  obtain ⟨⟨hx, hy⟩, hor⟩ := hfits
  unfold Boat.spanCell
  rcases hor with ⟨hH, hh⟩ | ⟨hV, hh⟩
  · simp only [hH, if_true]; omega
  · simp only [hV, oVERTICAL_ne, if_false]; omega

theorem spanCell_inj (boat : Boat) (i j : Int) (h : boat.spanCell i = boat.spanCell j) :
    i = j := by
  unfold Boat.spanCell at h
  split at h
  · have := congrArg Point.x h; simp at this; exact this
  · have := congrArg Point.y h; simp at this; exact this

/-- Distinct cells of a span that fits have distinct flat indices. -/
theorem flat_spanCell_ne (o : Ocean) (boat : Boat) (hfits : o.spanFits boat) (i j : Int)
    (hi : 0 ≤ i ∧ i < 4) (hj : 0 ≤ j ∧ j < 4) (hne : i ≠ j) :
    o.flat (boat.spanCell i) ≠ o.flat (boat.spanCell j) := by
  intro h
  have := flat_inj o _ _ (spanCell_inside o boat hfits i hi).1 (spanCell_inside o boat hfits j hj).1 h
  exact hne (spanCell_inj boat i j this)

/-! ## Placement claims -/

theorem placeable_iff (o : Ocean) (boat : Boat) :
    o.Placeable boat ↔ o.spanFits boat ∧ o.spanClear boat := by
  unfold Ocean.Placeable Ocean.spanFits Ocean.spanClear
  rw [IsValidCoordinate_iff]
  constructor
  · rintro ⟨h1, h2, h3⟩
    exact ⟨⟨h1, h2⟩, fun i => h3 i.val (by omega) (by have := i.isLt; omega)⟩
  · rintro ⟨⟨h1, h2⟩, h3⟩
    refine ⟨h1, h2, fun i h0 h4 => ?_⟩
    have := h3 ⟨i.toNat, by omega⟩
    simpa [Int.toNat_of_nonneg h0] using this

theorem PlaceBoat_blocked (o : Ocean) (hwf : o.WellFormed) (boat : Boat)
    (h : ¬ (o.spanFits boat ∧ o.spanClear boat)) :
    o.PlaceBoat boat = .ok (.bpREJECTED, o) := by
  by_cases hfits : o.spanFits boat
  · have hclear : ¬ o.spanClear boat := fun hc => h ⟨hfits, hc⟩
    have hread : ∀ j : Nat, j < 4 → ∃ v, o.cell (boat.spanCell j) = some v := by
      intro j hj
      have hin := spanCell_inside o boat hfits j (by omega)
      exact cell_readable o hwf _ hin.1 hin.2
    have hex : ∃ k : Nat, k < 4 ∧ o.cell (boat.spanCell k) ≠ some 0 := by
      by_contra hno
      apply hclear
      intro i
      by_contra hi
      exact hno ⟨i.val, i.isLt, hi⟩
    obtain ⟨k, hk, hk0⟩ := hex
    obtain ⟨v, hv⟩ := hread k hk
    apply PlaceBoat_occupied o boat hfits k hk (fun j hj => hread j (by omega))
    refine ⟨v, hv, ?_⟩
    intro hv0
    rw [hv, hv0] at hk0
    exact hk0 rfl
  · exact PlaceBoat_not_fits o boat hfits

/-- C2. On a board whose grid has `width * height` cells and for a vessel whose
identifier names a slot of the vessel list (`1 ≤ ID ≤ vesselCapacity`, which the
specification requires of the caller), `PlaceBoat` returns Accepted if and only
if (1) the anchor is a valid coordinate, (2) the vessel is horizontal with
`anchor.x + 4 ≤ width` or vertical with `anchor.y + 4 ≤ height`, and (3) each of
the four cells of the span holds 0.  Whatever the identifier, it returns
Rejected (state untouched) exactly when one of (1)-(3) fails, and an Accepted
result implies (1)-(3).  The decision does not depend on identifier or `hits`:
changing them never changes a rejection, and among identifiers that name a
slot it never changes an acceptance. -/
theorem PlaceBoat_accepted_iff (o : Ocean) (hwf : o.WellFormed) (boat : Boat) :
    (o.HasSlot boat →
      ((∃ o', o.PlaceBoat boat = .ok (.bpACCEPTED, o')) ↔ o.Placeable boat)) ∧
    (o.PlaceBoat boat = .ok (.bpREJECTED, o) ↔ ¬ o.Placeable boat) ∧
    ((∃ o', o.PlaceBoat boat = .ok (.bpACCEPTED, o')) → o.Placeable boat) ∧
    (∀ id hits : Int,
      (o.PlaceBoat { boat with ID := id, hits := hits } = .ok (.bpREJECTED, o) ↔
        o.PlaceBoat boat = .ok (.bpREJECTED, o)) ∧
      (o.HasSlot boat → o.HasSlot { boat with ID := id, hits := hits } →
        ((∃ o', o.PlaceBoat { boat with ID := id, hits := hits } = .ok (.bpACCEPTED, o')) ↔
          ∃ o', o.PlaceBoat boat = .ok (.bpACCEPTED, o')))) := by
  have key : ∀ b : Boat,
      ((∃ o', o.PlaceBoat b = .ok (.bpACCEPTED, o')) → o.Placeable b) ∧
      (o.HasSlot b → o.Placeable b → ∃ o', o.PlaceBoat b = .ok (.bpACCEPTED, o')) ∧
      (o.PlaceBoat b = .ok (.bpREJECTED, o) ↔ ¬ o.Placeable b) := by
    intro b
    refine ⟨?_, ?_, ⟨?_, ?_⟩⟩
    · rintro ⟨o', h⟩
      rcases PlaceBoat_result o o' b _ h with ⟨hr, _⟩ | ⟨_, hf, hc, _, _⟩
      · cases hr
      · exact (placeable_iff o b).2 ⟨hf, hc⟩
    · intro hid hp
      obtain ⟨hf, hc⟩ := (placeable_iff o b).1 hp
      obtain ⟨g', _, heq⟩ := PlaceBoat_clear o b hf hc
      have hid' : 1 ≤ b.ID ∧ b.ID ≤ o.boats.length := hid
      exact ⟨_, by rw [heq, if_pos hid']⟩
    · intro h hp
      rcases PlaceBoat_result o o b _ h with ⟨_, _, hn⟩ | ⟨hr, _⟩
      · exact hn ((placeable_iff o b).1 hp)
      · cases hr
    · intro hn
      exact PlaceBoat_blocked o hwf b (fun hc => hn ((placeable_iff o b).2 hc))
  have same : ∀ id hits : Int,
      (o.Placeable { boat with ID := id, hits := hits } ↔ o.Placeable boat) := by
    intro id hits; rfl
  refine ⟨fun hs => ⟨(key boat).1, (key boat).2.1 hs⟩, (key boat).2.2, (key boat).1,
    fun id hits => ⟨?_, ?_⟩⟩
  · rw [(key _).2.2, (key boat).2.2, same]
  · intro h1 h2
    constructor
    · intro h
      exact (key boat).2.1 h1 ((same id hits).1 ((key _).1 h))
    · intro h
      exact (key _).2.1 h2 ((same id hits).2 ((key boat).1 h))

theorem PlaceBoat_accepted_iff_witness :
    emptyBoard.WellFormed ∧
    emptyBoard.HasSlot ⟨9, 1, oHORIZONTAL, ⟨0, 1⟩⟩ ∧
    ((∃ o', emptyBoard.PlaceBoat ⟨9, 1, oHORIZONTAL, ⟨0, 1⟩⟩ = .ok (.bpACCEPTED, o')) ↔
      emptyBoard.Placeable ⟨9, 1, oHORIZONTAL, ⟨0, 1⟩⟩) ∧
    emptyBoard.PlaceBoat ⟨9, 1, oHORIZONTAL, ⟨0, 1⟩⟩ = .ok (.bpACCEPTED,
      ⟨[0, 0, 0, 0, 1, 1, 1, 1], [⟨0, 1, oHORIZONTAL, ⟨0, 1⟩⟩], ⟨4, 2⟩, ⟨0, 0, 0, 0⟩⟩) ∧
    (demoBoard.PlaceBoat ⟨9, 1, oVERTICAL, ⟨3, 0⟩⟩ = .ok (.bpREJECTED, demoBoard) ↔
      ¬ demoBoard.Placeable ⟨9, 1, oVERTICAL, ⟨3, 0⟩⟩) ∧
    demoBoard.PlaceBoat ⟨9, 1, oVERTICAL, ⟨3, 0⟩⟩ = .ok (.bpREJECTED, demoBoard) :=
  ⟨by decide, by decide,
    (PlaceBoat_accepted_iff emptyBoard (by decide) ⟨9, 1, oHORIZONTAL, ⟨0, 1⟩⟩).1 (by decide),
    by decide,
    (PlaceBoat_accepted_iff demoBoard (by decide) ⟨9, 1, oVERTICAL, ⟨3, 0⟩⟩).2.1,
    by decide⟩

/-- C3. A rejected placement is atomic: whenever `PlaceBoat` returns Rejected the
state it leaves is the state before the call (same grid, same vessel list, same
counters, same dimensions); and a vessel whose span `anchor + 4` along its axis
exceeds the width (horizontal) or the height (vertical) is rejected in this way. -/
theorem PlaceBoat_rejected_atomic (o : Ocean) (boat : Boat) :
    (∀ o' : Ocean, o.PlaceBoat boat = .ok (.bpREJECTED, o') →
      o'.grid = o.grid ∧ o'.boats = o.boats ∧ o'.stats = o.stats ∧ o' = o) ∧
    ((boat.orientation = oHORIZONTAL ∧ boat.position.x + 4 > o.location.x) ∨
      (boat.orientation = oVERTICAL ∧ boat.position.y + 4 > o.location.y) →
      o.PlaceBoat boat = .ok (.bpREJECTED, o)) := by
  constructor
  · intro o' h
    rcases PlaceBoat_result o o' boat _ h with ⟨_, heq, _⟩ | ⟨hr, _⟩
    · subst heq; exact ⟨rfl, rfl, rfl, rfl⟩
    · cases hr
  · intro h
    apply PlaceBoat_not_fits
    rintro ⟨_, ⟨hH, hx⟩ | ⟨hV, hy⟩⟩
    · rcases h with ⟨_, h⟩ | ⟨hV, _⟩
      · omega
      · rw [hH] at hV; exact oVERTICAL_ne hV.symm
    · rcases h with ⟨hH, _⟩ | ⟨_, h⟩
      · rw [hV] at hH; exact oVERTICAL_ne hH
      · omega

theorem PlaceBoat_rejected_atomic_witness :
    demoBoard.PlaceBoat ⟨0, 1, oVERTICAL, ⟨1, 0⟩⟩ = .ok (.bpREJECTED, demoBoard) ∧
    demoBoard.PlaceBoat ⟨0, 1, oHORIZONTAL, ⟨1, 1⟩⟩ = .ok (.bpREJECTED, demoBoard) :=
  ⟨(PlaceBoat_rejected_atomic demoBoard ⟨0, 1, oVERTICAL, ⟨1, 0⟩⟩).2 (by decide),
    (PlaceBoat_rejected_atomic demoBoard ⟨0, 1, oHORIZONTAL, ⟨1, 1⟩⟩).2 (by decide)⟩

/-- C4. After an accepted placement each of the four cells of the span holds the
identifier; every grid slot that is not the flat index of a span cell (so every
in-bounds coordinate outside the span) has its previous value and the grid keeps
its length; slot `ID - 1` of the vessel list holds the given vessel with hit
counter 0, every other slot and the length of the list are unchanged; the four
counters and the dimensions are unchanged.  The identifier is then a slot of
the vessel list. -/
theorem PlaceBoat_accepted_post (o o' : Ocean) (boat : Boat)
    (h : o.PlaceBoat boat = .ok (.bpACCEPTED, o')) :
    (∀ i : Int, 0 ≤ i → i < 4 → o'.cell (boat.spanCell i) = some boat.ID) ∧
    (∀ k : Int, (∀ i : Int, 0 ≤ i → i < 4 → k ≠ o.flat (boat.spanCell i)) →
      peek o'.grid k = peek o.grid k) ∧
    (∀ p : Point, (0 ≤ p.x ∧ p.x < o.location.x) → (0 ≤ p.y ∧ p.y < o.location.y) →
      (∀ i : Int, 0 ≤ i → i < 4 → p ≠ boat.spanCell i) → o'.cell p = o.cell p) ∧
    o'.grid.length = o.grid.length ∧
    o'.slot boat.ID = some { boat with hits := 0 } ∧
    (∀ id : Int, id ≠ boat.ID → o'.slot id = o.slot id) ∧
    o'.boats.length = o.boats.length ∧
    o'.stats = o.stats ∧ o'.location = o.location ∧
    (1 ≤ boat.ID ∧ boat.ID ≤ o.boats.length) := by
  rcases PlaceBoat_result o o' boat _ h with ⟨hr, _⟩ | ⟨_, hfits, _, hid, g', ⟨hlen, hin, hout⟩, heq⟩
  · cases hr
  subst heq
  have h0 : 0 ≤ boat.ID - 1 := by omega
  have h1 : (boat.ID - 1).toNat < o.boats.length := by omega
  have hframe : ∀ k : Int, (∀ i : Int, 0 ≤ i → i < 4 → k ≠ o.flat (boat.spanCell i)) →
      peek g' k = peek o.grid k := fun k hk => hout k (fun j hj => hk j (by omega) (by omega))
  refine ⟨?_, hframe, ?_, hlen, ?_, ?_, ?_, rfl, rfl, hid⟩
  · intro i hi0 hi4
    have := hin i.toNat (by omega)
    rwa [Int.toNat_of_nonneg hi0] at this
  · intro p hpx hpy hp
    apply hframe
    intro i hi0 hi4 hflat
    exact hp i hi0 hi4
      (flat_inj o _ _ hpx (spanCell_inside o boat hfits i ⟨hi0, hi4⟩).1 hflat)
  · simp only [Ocean.slot, placedState, peek, h0, if_true]
    rw [List.getElem?_set_self h1]
  · intro id hid'
    exact peek_set_other _ _ h0 (by omega)
  · simp [placedState]

theorem PlaceBoat_accepted_post_witness :
    emptyBoard.PlaceBoat ⟨9, 1, oHORIZONTAL, ⟨0, 0⟩⟩ = .ok (.bpACCEPTED, demoBoard) ∧
    demoBoard.slot 1 = some ⟨0, 1, oHORIZONTAL, ⟨0, 0⟩⟩ ∧
    demoBoard.stats = emptyBoard.stats :=
  have h : emptyBoard.PlaceBoat ⟨9, 1, oHORIZONTAL, ⟨0, 0⟩⟩ = .ok (.bpACCEPTED, demoBoard) := by
    decide
  have post := PlaceBoat_accepted_post emptyBoard demoBoard ⟨9, 1, oHORIZONTAL, ⟨0, 0⟩⟩ h
  ⟨h, post.2.2.2.2.1, post.2.2.2.2.2.2.2.1⟩

/-! ## Shot claims -/

/-- C5. `IsValidCoordinate` is true exactly when `0 ≤ x < width` and
`0 ≤ y < height`; a shot outside that rectangle returns Illegal and leaves the
whole state (grid, vessel list, four counters) as it was; a shot inside it never
returns Illegal. -/
theorem TakeShot_out_of_bounds (o : Ocean) (c : Point) :
    (o.IsValidCoordinate c = true ↔
      (0 ≤ c.x ∧ c.x < o.location.x) ∧ (0 ≤ c.y ∧ c.y < o.location.y)) ∧
    (¬ ((0 ≤ c.x ∧ c.x < o.location.x) ∧ (0 ≤ c.y ∧ c.y < o.location.y)) →
      o.TakeShot c = .ok (.srILLEGAL, o)) ∧
    ((0 ≤ c.x ∧ c.x < o.location.x) ∧ (0 ≤ c.y ∧ c.y < o.location.y) →
      ∀ o' : Ocean, o.TakeShot c ≠ .ok (.srILLEGAL, o')) := by
  refine ⟨IsValidCoordinate_iff o c, ?_, ?_⟩
  · intro h
    have hv : o.IsValidCoordinate c = false := by
      cases hb : o.IsValidCoordinate c with
      | false => rfl
      | true => exact absurd ((IsValidCoordinate_iff o c).1 hb) h
    exact TakeShot_illegal_eq o c hv
  · intro h o' hshot
    have hv := (IsValidCoordinate_iff o c).2 h
    rcases TakeShot_cases o o' c _ hshot with ⟨hf, _⟩ | ⟨_, _, hr, _⟩ | ⟨_, v, bt, _, _, _, hr, _⟩ |
      ⟨_, v, _, _, _, hr, _⟩
    · rw [hv] at hf; cases hf
    · cases hr
    · split at hr <;> cases hr
    · cases hr

theorem TakeShot_out_of_bounds_witness :
    demoBoard.TakeShot ⟨-1, 0⟩ = .ok (.srILLEGAL, demoBoard) ∧
    demoBoard.TakeShot ⟨4, 0⟩ = .ok (.srILLEGAL, demoBoard) ∧
    demoBoard.TakeShot ⟨0, 2⟩ = .ok (.srILLEGAL, demoBoard) ∧
    demoBoard.TakeShot ⟨3, 1⟩ ≠ .ok (.srILLEGAL, demoBoard) :=
  ⟨(TakeShot_out_of_bounds demoBoard ⟨-1, 0⟩).2.1 (by decide),
    (TakeShot_out_of_bounds demoBoard ⟨4, 0⟩).2.1 (by decide),
    (TakeShot_out_of_bounds demoBoard ⟨0, 2⟩).2.1 (by decide),
    (TakeShot_out_of_bounds demoBoard ⟨3, 1⟩).2.2 (by decide) demoBoard⟩

/-- C6. A shot at an in-bounds cell holding 0 returns Miss, sets that cell to -1,
adds exactly one to `misses`, and leaves every other grid slot, the whole vessel
list, `hits`, `duplicates`, `sunk` and the dimensions unchanged. -/
theorem TakeShot_miss (o : Ocean) (c : Point)
    (hx : 0 ≤ c.x ∧ c.x < o.location.x) (hy : 0 ≤ c.y ∧ c.y < o.location.y)
    (hcell : o.cell c = some 0) :
    ∃ o' : Ocean,
      o.TakeShot c = .ok (.srMISS, o') ∧
      o'.cell c = some (-1) ∧
      o'.stats.misses = o.stats.misses + 1 ∧
      (∀ k : Int, k ≠ o.flat c → peek o'.grid k = peek o.grid k) ∧
      o'.grid.length = o.grid.length ∧
      o'.boats = o.boats ∧
      o'.stats.hits = o.stats.hits ∧
      o'.stats.duplicates = o.stats.duplicates ∧
      o'.stats.sunk = o.stats.sunk ∧
      o'.location = o.location := by
  have hvalid : o.IsValidCoordinate c = true := (IsValidCoordinate_iff o c).2 ⟨hx, hy⟩
  have hb := peek_some_bounds hcell
  refine ⟨missState o c, TakeShot_miss_eq o c hvalid hcell, ?_, rfl, ?_, ?_, rfl, rfl, rfl, rfl,
    rfl⟩
  · exact peek_set_self _ hcell
  · intro k hk; exact peek_set_other _ _ hb.1 hk
  · simp [missState]

theorem TakeShot_miss_witness :
    ∃ o' : Ocean, demoBoard.TakeShot ⟨2, 1⟩ = .ok (.srMISS, o') ∧
      o'.cell ⟨2, 1⟩ = some (-1) ∧ o'.stats.misses = 1 := by
  obtain ⟨o', h⟩ := TakeShot_miss demoBoard ⟨2, 1⟩ (by decide) (by decide) (by decide)
  exact ⟨o', h.1, h.2.1, h.2.2.1⟩

theorem wrapInt32_of_range (n : Int) (h0 : -2147483648 ≤ n) (h1 : n < 2147483648) :
    wrapInt32 n = n := by
  unfold wrapInt32; omega

theorem wrapInt32_succ (n : Int) : wrapInt32 (wrapInt32 n + 1) = wrapInt32 (n + 1) := by
  unfold wrapInt32; omega

theorem wrapInt32_range (n : Int) : -2147483648 ≤ wrapInt32 n ∧ wrapInt32 n < 2147483648 := by
  unfold wrapInt32; omega

/-- C7 (as amended). A shot at an in-bounds cell holding -1 or a value of at least
100 returns Duplicate and changes nothing but `duplicates`: grid, vessel list,
`hits`, `misses`, `sunk` and dimensions are unchanged.  The counter
`duplicates` is a 32-bit `int`: it goes up by exactly one as long as it is
below 2147483647, and from 2147483647 it wraps to -2147483648. -/
theorem TakeShot_duplicate (o : Ocean) (c : Point) (v : Int)
    (hx : 0 ≤ c.x ∧ c.x < o.location.x) (hy : 0 ≤ c.y ∧ c.y < o.location.y)
    (hcell : o.cell c = some v) (hv : v = -1 ∨ 100 ≤ v) :
    ∃ o' : Ocean,
      o.TakeShot c = .ok (.srDUPLICATE, o') ∧
      o'.stats.duplicates = wrapInt32 (o.stats.duplicates + 1) ∧
      (-2147483648 ≤ o.stats.duplicates → o.stats.duplicates < 2147483647 →
        o'.stats.duplicates = o.stats.duplicates + 1) ∧
      (o.stats.duplicates = 2147483647 → o'.stats.duplicates = -2147483648) ∧
      o'.grid = o.grid ∧
      o'.boats = o.boats ∧
      o'.stats.hits = o.stats.hits ∧
      o'.stats.misses = o.stats.misses ∧
      o'.stats.sunk = o.stats.sunk ∧
      o'.location = o.location := by
  have hvalid : o.IsValidCoordinate c = true := (IsValidCoordinate_iff o c).2 ⟨hx, hy⟩
  refine ⟨dupState o, ?_, rfl, ?_, ?_, rfl, rfl, rfl, rfl, rfl, rfl⟩
  · apply TakeShot_duplicate_eq o c v hvalid hcell
    · omega
    · unfold HIT_OFFSET; omega
  · intro h0 h1
    exact wrapInt32_of_range _ (by omega) (by omega)
  · intro h
    show wrapInt32 (o.stats.duplicates + 1) = -2147483648
    rw [h]; decide

theorem TakeShot_duplicate_witness :
    ∃ o' : Ocean,
      (⟨[101, 1, 1, 1, 0, -1, 0, 0], [⟨1, 1, oHORIZONTAL, ⟨0, 0⟩⟩], ⟨4, 2⟩, ⟨1, 1, 0, 0⟩⟩ : Ocean).TakeShot
          ⟨1, 1⟩ = .ok (.srDUPLICATE, o') ∧
      o'.stats.duplicates = 0 + 1 := by
  obtain ⟨o', h⟩ := TakeShot_duplicate
    ⟨[101, 1, 1, 1, 0, -1, 0, 0], [⟨1, 1, oHORIZONTAL, ⟨0, 0⟩⟩], ⟨4, 2⟩, ⟨1, 1, 0, 0⟩⟩ ⟨1, 1⟩ (-1)
    (by decide) (by decide) (by decide) (by decide)
  exact ⟨o', h.1, h.2.2.1 (by decide) (by decide)⟩

/-! ## Sequences of shots -/

theorem shootAll_cons (o o1 o2 : Ocean) (c : Point) (cs : List Point) (r : ShotResult)
    (rs : List ShotResult) (h1 : o.TakeShot c = .ok (r, o1))
    (h2 : shootAll o1 cs = .ok (rs, o2)) : shootAll o (c :: cs) = .ok (r :: rs, o2) := by
  simp only [shootAll, h1, h2]

theorem shootAll_cons_inv (o o2 : Ocean) (c : Point) (cs : List Point) (rs : List ShotResult)
    (h : shootAll o (c :: cs) = .ok (rs, o2)) :
    ∃ (r : ShotResult) (om : Ocean) (rs' : List ShotResult),
      o.TakeShot c = .ok (r, om) ∧ shootAll om cs = .ok (rs', o2) ∧ rs = r :: rs' := by
  unfold shootAll at h
  split at h
  · cases h
  · rename_i r om h1
    split at h
    · cases h
    · rename_i rs' o2' h2
      simp only [Except.ok.injEq, Prod.mk.injEq] at h
      exact ⟨r, om, rs', h1, by rw [h2, h.2], h.1.symm⟩

theorem shoot_span (boat : Boat) (hid : 0 < boat.ID ∧ boat.ID < HIT_OFFSET) :
    ∀ ks : List (Fin 4), ks.Nodup → ∀ (o : Ocean) (bt : Boat), o.spanFits boat →
      peek o.boats (boat.ID - 1) = some bt →
      (∀ k ∈ ks, peek o.grid (o.flat (boat.spanCell (k.val : Int))) = some boat.ID) →
      ∃ o' : Ocean,
        shootAll o (ks.map fun k => boat.spanCell (k.val : Int)) =
          .ok (outcomes bt.hits ks.length, o') ∧
        o'.stats.sunk = o.stats.sunk + ((outcomes bt.hits ks.length).count .srSUNK : Nat) ∧
        o'.stats.hits = o.stats.hits + (ks.length : Nat) := by
  intro ks
  induction ks with
  | nil => intro _ o bt _ _ _; exact ⟨o, rfl, by simp [outcomes], by simp⟩
  | cons k ks ih =>
    intro hnd o bt hfits hslot hcells
    have hkb : (0 : Int) ≤ (k.val : Int) ∧ (k.val : Int) < 4 := by have := k.isLt; omega
    have hin := spanCell_inside o boat hfits k.val hkb
    have hvalid := (IsValidCoordinate_iff o _).2 hin
    have hcell := hcells k (List.mem_cons_self k ks)
    have hcb := peek_some_bounds hcell
    have hstep := TakeShot_hit_eq o _ boat.ID bt hvalid hcell hid hslot
    have hslot1 : peek (hitState o (boat.spanCell (k.val : Int)) boat.ID bt).boats (boat.ID - 1) =
        some { bt with hits := bt.hits + 1 } := peek_set_self _ hslot
    have hcells1 : ∀ k' ∈ ks,
        peek (hitState o (boat.spanCell (k.val : Int)) boat.ID bt).grid
          ((hitState o (boat.spanCell (k.val : Int)) boat.ID bt).flat
            (boat.spanCell (k'.val : Int))) = some boat.ID := by
      intro k' hk'
      have hne : k' ≠ k := by
        intro he; rw [he] at hk'; exact (List.nodup_cons.1 hnd).1 hk'
      have hk'b : (0 : Int) ≤ (k'.val : Int) ∧ (k'.val : Int) < 4 := by
        have := k'.isLt; omega
      have hfl := flat_spanCell_ne o boat hfits k'.val k.val hk'b hkb
        (by intro he; apply hne; apply Fin.ext; omega)
      have := hcells k' (List.mem_cons_of_mem k hk')
      rw [← this]
      exact peek_set_other _ _ hcb.1 hfl
    obtain ⟨o', hrun, hsunk, hhits⟩ := ih (List.nodup_cons.1 hnd).2
      (hitState o (boat.spanCell (k.val : Int)) boat.ID bt) _ hfits hslot1 hcells1
    refine ⟨o', ?_, ?_, ?_⟩
    · simp only [List.map_cons, List.length_cons, outcomes]
      exact shootAll_cons _ _ _ _ _ _ _ hstep hrun
    · rw [hsunk]
      simp only [List.length_cons, outcomes, hitState]
      by_cases hs : bt.hits + 1 ≥ BOAT_LENGTH
      · simp only [hs, if_true, List.count_cons_self]; push_cast; ring
      · simp only [hs, if_false]
        rw [List.count_cons_of_ne (by decide)]
    · rw [hhits]
      simp only [List.length_cons, hitState]
      split <;> (push_cast; ring)

/-- C8 (as amended). For every board and every vessel with identifier below 100 for
which `PlaceBoat` returns Accepted (its identifier then lies in
`[1, vesselCapacity]`), shooting each of its four cells exactly once
immediately afterwards, in any of the 24 orders, returns Hit, Hit, Hit, Sunk;
the `sunk` counter ends exactly 1 above, and `hits` exactly 4 above, their
values before the sequence. -/
theorem sinking_sequence (o o1 : Ocean) (boat : Boat) (hid : boat.ID < 100)
    (h : o.PlaceBoat boat = .ok (.bpACCEPTED, o1))
    (ks : List (Fin 4)) (hnd : ks.Nodup) (hlen : ks.length = 4) :
    ∃ o2 : Ocean,
      shootAll o1 (ks.map fun k => boat.spanCell (k.val : Int)) =
        .ok ([.srHIT, .srHIT, .srHIT, .srSUNK], o2) ∧
      o2.stats.sunk = o1.stats.sunk + 1 ∧
      o2.stats.hits = o1.stats.hits + 4 := by
  rcases PlaceBoat_result o o1 boat _ h with ⟨hr, _⟩ | ⟨_, hfits, _, hslotid, g', ⟨_, hin, _⟩, heq⟩
  · cases hr
  subst heq
  have h0 : 0 ≤ boat.ID - 1 := by omega
  have h1 : (boat.ID - 1).toNat < o.boats.length := by omega
  have hslot : peek (placedState o boat g').boats (boat.ID - 1) = some { boat with hits := 0 } := by
    simp only [placedState, peek, h0, if_true]
    rw [List.getElem?_set_self h1]
  obtain ⟨o2, hrun, hsunk, hhits⟩ := shoot_span boat ⟨by omega, by unfold HIT_OFFSET; omega⟩ ks hnd
    (placedState o boat g') _ hfits hslot (fun k _ => hin k.val k.isLt)
  rw [hlen] at hrun hsunk hhits
  exact ⟨o2, hrun, hsunk, hhits⟩

theorem sinking_sequence_witness :
    Ocean.construct 1 10 10 = .ok ocean10 ∧
    ocean10.PlaceBoat ⟨0, 1, oHORIZONTAL, ⟨0, 0⟩⟩ = .ok (.bpACCEPTED, ocean10Placed) ∧
    (shootAll ocean10Placed [⟨0, 0⟩, ⟨1, 0⟩, ⟨2, 0⟩]).map (fun r => (r.1, r.2.stats.sunk)) =
      .ok ([.srHIT, .srHIT, .srHIT], 0) ∧
    shootAll ocean10Placed [⟨0, 0⟩, ⟨1, 0⟩, ⟨2, 0⟩, ⟨3, 0⟩] =
      .ok ([.srHIT, .srHIT, .srHIT, .srSUNK], ocean10Sunk) ∧
    ocean10Sunk.stats.sunk = 1 ∧
    (shootAll ocean10Sunk [⟨5, 5⟩, ⟨0, 0⟩, ⟨-1, 0⟩]).map (fun r => r.1) =
      .ok [.srMISS, .srDUPLICATE, .srILLEGAL] ∧
    (∃ o2 : Ocean, shootAll ocean10Placed [⟨3, 0⟩, ⟨1, 0⟩, ⟨0, 0⟩, ⟨2, 0⟩] =
        .ok ([.srHIT, .srHIT, .srHIT, .srSUNK], o2) ∧ o2.stats.sunk = 1) := by
  have hplace : ocean10.PlaceBoat ⟨0, 1, oHORIZONTAL, ⟨0, 0⟩⟩ = .ok (.bpACCEPTED, ocean10Placed) := by
    decide
  obtain ⟨o2, hrun, hs, _⟩ := sinking_sequence ocean10 ocean10Placed ⟨0, 1, oHORIZONTAL, ⟨0, 0⟩⟩
    (by decide) hplace [3, 1, 0, 2] (by decide) (by decide)
  exact ⟨by decide, hplace, by decide, by decide, by decide, by decide, o2, hrun, hs⟩

/-- C8 as stated fails for identifier 100: on the 4 x 1 board with one hundred
vessel slots the horizontal vessel 100 at `(0, 0)` is accepted, its cells hold
100, which is not below the hit offset, and the four shots at its cells all
return Duplicate with `sunk` still 0. -/
theorem sinking_sequence_counterexample :
    Ocean.construct 100 4 1 = .ok bigFleet ∧
    ((1 : Int) ≤ 100 ∧ (100 : Int) ≤ bigFleet.boats.length) ∧
    bigFleet.PlaceBoat ⟨0, 100, oHORIZONTAL, ⟨0, 0⟩⟩ =
      .ok (.bpACCEPTED,
        { bigFleet with
          grid := [100, 100, 100, 100]
          boats := bigFleet.boats.set 99 ⟨0, 100, oHORIZONTAL, ⟨0, 0⟩⟩ }) ∧
    shootAll
        { bigFleet with
          grid := [100, 100, 100, 100]
          boats := bigFleet.boats.set 99 ⟨0, 100, oHORIZONTAL, ⟨0, 0⟩⟩ }
        [⟨0, 0⟩, ⟨1, 0⟩, ⟨2, 0⟩, ⟨3, 0⟩] =
      .ok ([.srDUPLICATE, .srDUPLICATE, .srDUPLICATE, .srDUPLICATE],
        { bigFleet with
          grid := [100, 100, 100, 100]
          boats := bigFleet.boats.set 99 ⟨0, 100, oHORIZONTAL, ⟨0, 0⟩⟩
          stats := ⟨0, 0, 4, 0⟩ }) := by
  refine ⟨by decide, by decide, ?_, ?_⟩
  · decide
  · decide

/-! ## Overlap -/

/-- Effect of one returning `TakeShot` on an arbitrary grid slot `k`. -/
theorem TakeShot_cell_step (o o' : Ocean) (c : Point) (r : ShotResult)
    (h : o.TakeShot c = .ok (r, o')) :
    o'.location = o.location ∧ o'.grid.length = o.grid.length ∧
    ∀ (k : Int) (v : Int), peek o.grid k = some v →
      peek o'.grid k = some v ∨
      (k = o.flat c ∧ v = 0 ∧ peek o'.grid k = some (-1)) ∨
      (k = o.flat c ∧ (0 < v ∧ v < 100) ∧ peek o'.grid k = some (v + 100)) := by
  rcases TakeShot_cases o o' c r h with ⟨_, _, heq⟩ | ⟨_, hcell, _, heq⟩ |
    ⟨_, v, bt, hcell, hv, _, _, heq⟩ | ⟨_, v, _, _, _, _, heq⟩
  · subst heq; exact ⟨rfl, rfl, fun k v hk => Or.inl hk⟩
  · subst heq
    refine ⟨rfl, by simp [missState], fun k u hk => ?_⟩
    by_cases hkc : k = o.flat c
    · subst hkc
      rw [hcell] at hk
      simp only [Option.some.injEq] at hk
      exact Or.inr (Or.inl ⟨rfl, hk.symm, peek_set_self _ hcell⟩)
    · left
      rw [← hk]
      exact peek_set_other _ _ (peek_some_bounds hcell).1 hkc
  · subst heq
    refine ⟨rfl, by simp [hitState], fun k u hk => ?_⟩
    by_cases hkc : k = o.flat c
    · subst hkc
      rw [hcell] at hk
      simp only [Option.some.injEq] at hk
      subst hk
      exact Or.inr (Or.inr ⟨rfl, hv, peek_set_self _ hcell⟩)
    · left
      rw [← hk]
      exact peek_set_other _ _ (peek_some_bounds hcell).1 hkc
  · subst heq; exact ⟨rfl, rfl, fun k v hk => Or.inl hk⟩

/-- A grid slot that carries identifier `id ≥ 1`, unhit or hit, still does so
after any sequence of shots; dimensions and grid length are kept. -/
theorem shootAll_keeps (id : Int) (hid : 1 ≤ id) (k : Int) :
    ∀ (shots : List Point) (o1 o2 : Ocean) (rs : List ShotResult),
      shootAll o1 shots = .ok (rs, o2) →
      (peek o1.grid k = some id ∨ peek o1.grid k = some (id + 100)) →
      o2.location = o1.location ∧
      (peek o2.grid k = some id ∨ peek o2.grid k = some (id + 100)) := by
  intro shots
  induction shots with
  | nil =>
    intro o1 o2 rs h hk
    simp only [shootAll, Except.ok.injEq, Prod.mk.injEq] at h
    rw [← h.2]; exact ⟨rfl, hk⟩
  | cons c cs ih =>
    intro o1 o2 rs h hk
    obtain ⟨r, om, rs', h1, h2, _⟩ := shootAll_cons_inv o1 o2 c cs rs h
    have step : o2.location = o1.location ∧
        (peek o2.grid k = some id ∨ peek o2.grid k = some (id + 100)) := by
        obtain ⟨hloc, _, hstep⟩ := TakeShot_cell_step o1 om c r h1
        have hkm : peek om.grid k = some id ∨ peek om.grid k = some (id + 100) := by
          rcases hk with hk | hk
          · rcases hstep k id hk with h' | ⟨_, h0, _⟩ | ⟨_, _, h'⟩
            · exact Or.inl h'
            · omega
            · exact Or.inr h'
          · rcases hstep k (id + 100) hk with h' | ⟨_, h0, _⟩ | ⟨_, hr, _⟩
            · exact Or.inr h'
            · omega
            · omega
        obtain ⟨hloc2, hk2⟩ := ih om o2 rs' h2 hkm
        exact ⟨hloc2.trans hloc, hk2⟩
    exact step

/-- Along a span that fits, flat indices do not decrease. -/
theorem flat_spanCell_mono (o : Ocean) (boat : Boat) (hfits : o.spanFits boat) (i j : Int)
    (hij : i ≤ j) : o.flat (boat.spanCell i) ≤ o.flat (boat.spanCell j) := by
  have hw : 0 ≤ o.location.x := by
    have := hfits.1.1; omega
  unfold Ocean.flat Boat.spanCell
  split
  · simp only; omega
  · simp only
    have : (boat.position.y + i) * o.location.x ≤ (boat.position.y + j) * o.location.x :=
      mul_le_mul_of_nonneg_right (by omega) hw
    omega

/-- C9. If `PlaceBoat` accepts a first vessel (its identifier then lies in
`[1, vesselCapacity]`) and the span of a second vessel shares a cell with the
span of the first, then after any sequence of shots that follows the first
placement `PlaceBoat` of the second vessel returns Rejected and leaves the state
as it was, and each cell of the footprint of the first vessel holds the
identifier of the first vessel, unhit (`ID`) or hit (`ID + 100`). -/
theorem overlap_rejected (o o1 o2 : Ocean) (b1 b2 : Boat) (shots : List Point)
    (rs : List ShotResult)
    (h1 : o.PlaceBoat b1 = .ok (.bpACCEPTED, o1))
    (hshare : ∃ i j : Int, (0 ≤ i ∧ i < 4) ∧ (0 ≤ j ∧ j < 4) ∧ b2.spanCell i = b1.spanCell j)
    (hshots : shootAll o1 shots = .ok (rs, o2)) :
    o2.PlaceBoat b2 = .ok (.bpREJECTED, o2) ∧
    (∀ j : Int, 0 ≤ j → j < 4 →
      o2.cell (b1.spanCell j) = some b1.ID ∨ o2.cell (b1.spanCell j) = some (b1.ID + 100)) ∧
    (1 ≤ b1.ID ∧ b1.ID ≤ o.boats.length) := by
  rcases PlaceBoat_result o o1 b1 _ h1 with ⟨hr, _⟩ | ⟨_, _, _, hid, g', ⟨_, hin, _⟩, heq⟩
  · cases hr
  subst heq
  have hfoot : ∀ j : Int, 0 ≤ j → j < 4 →
      o2.location = o.location ∧
      (o2.cell (b1.spanCell j) = some b1.ID ∨ o2.cell (b1.spanCell j) = some (b1.ID + 100)) := by
    intro j hj0 hj4
    have hcell : peek (placedState o b1 g').grid (o.flat (b1.spanCell j)) = some b1.ID := by
      have := hin j.toNat (by omega)
      rwa [Int.toNat_of_nonneg hj0] at this
    obtain ⟨hloc, hk⟩ := shootAll_keeps b1.ID hid.1 (o.flat (b1.spanCell j)) shots _ o2 rs hshots
      (Or.inl hcell)
    have hloc' : o2.location = o.location := hloc
    have hfl : o2.flat (b1.spanCell j) = o.flat (b1.spanCell j) := by
      unfold Ocean.flat; rw [hloc']
    unfold Ocean.cell
    rw [hfl]
    exact ⟨hloc', hk⟩
  refine ⟨?_, fun j hj0 hj4 => (hfoot j hj0 hj4).2, hid⟩
  by_cases hfits : o2.spanFits b2
  · obtain ⟨i, j, hi, hj, hij⟩ := hshare
    have hnz : ∃ v, o2.cell (b2.spanCell i) = some v ∧ v ≠ 0 := by
      rw [hij]
      rcases (hfoot j hj.1 hj.2).2 with h | h
      · exact ⟨_, h, by omega⟩
      · exact ⟨_, h, by omega⟩
    obtain ⟨v, hv, hv0⟩ := hnz
    have hvb := peek_some_bounds hv
    have hread : ∀ m : Nat, m < i.toNat → ∃ u, o2.cell (b2.spanCell m) = some u := by
      intro m hm
      have hin2 := spanCell_inside o2 b2 hfits m (by omega)
      have h0 := flat_nonneg o2 _ hin2.1 hin2.2.1
      have hle := flat_spanCell_mono o2 b2 hfits m i (by omega)
      exact peek_of_bounds _ _ h0 (by omega)
    apply PlaceBoat_occupied o2 b2 hfits i.toNat (by omega) hread
    rw [Int.toNat_of_nonneg hi.1]
    exact ⟨v, hv, hv0⟩
  · exact PlaceBoat_not_fits o2 b2 hfits

theorem overlap_rejected_witness :
    (hitState demoBoard ⟨1, 0⟩ 1 ⟨0, 1, oHORIZONTAL, ⟨0, 0⟩⟩).PlaceBoat
        ⟨0, 1, oVERTICAL, ⟨1, 0⟩⟩ =
      .ok (.bpREJECTED, hitState demoBoard ⟨1, 0⟩ 1 ⟨0, 1, oHORIZONTAL, ⟨0, 0⟩⟩) :=
  (overlap_rejected emptyBoard demoBoard
    (hitState demoBoard ⟨1, 0⟩ 1 ⟨0, 1, oHORIZONTAL, ⟨0, 0⟩⟩)
    ⟨9, 1, oHORIZONTAL, ⟨0, 0⟩⟩ ⟨0, 1, oVERTICAL, ⟨1, 0⟩⟩ [⟨1, 0⟩] [.srHIT]
    (by decide) ⟨0, 1, by decide, by decide, by decide⟩ (by decide)).1

/-- C10. For every board and every coordinate inside the grid: whatever a first
`TakeShot` at that coordinate returned (it is Miss, Hit, Sunk or Duplicate), a
second `TakeShot` at the same coordinate right after it returns Duplicate and
leaves the grid and the vessel list (so every hit counter) as the first call
left them.  The first call does return when the cell is in the grid and, in
case it holds an unhit vessel value, that value names a slot. -/
theorem TakeShot_repeat (o : Ocean) (c : Point)
    (hx : 0 ≤ c.x ∧ c.x < o.location.x) (hy : 0 ≤ c.y ∧ c.y < o.location.y) :
    (∀ (r1 : ShotResult) (o1 : Ocean), o.TakeShot c = .ok (r1, o1) →
      (r1 = .srMISS ∨ r1 = .srHIT ∨ r1 = .srSUNK ∨ r1 = .srDUPLICATE) ∧
      ∃ o2 : Ocean, o1.TakeShot c = .ok (.srDUPLICATE, o2) ∧
        o2.grid = o1.grid ∧ o2.boats = o1.boats) ∧
    (∀ v : Int, o.cell c = some v → (0 < v → v < 100 → ∃ bt, o.slot v = some bt) →
      ∃ (r1 : ShotResult) (o1 : Ocean), o.TakeShot c = .ok (r1, o1)) := by
  have hvalid : o.IsValidCoordinate c = true := (IsValidCoordinate_iff o c).2 ⟨hx, hy⟩
  constructor
  · intro r1 o1 h
    have second : ∀ (o1 : Ocean) (u : Int), o1.location = o.location →
        peek o1.grid (o.flat c) = some u → u ≠ 0 → ¬ (0 < u ∧ u < HIT_OFFSET) →
        ∃ o2 : Ocean, o1.TakeShot c = .ok (.srDUPLICATE, o2) ∧
          o2.grid = o1.grid ∧ o2.boats = o1.boats := by
      intro o1 u hloc hu hu0 hur
      have hv1 : o1.IsValidCoordinate c = true := by
        rw [IsValidCoordinate_iff, hloc]; exact ⟨hx, hy⟩
      have hfl : o1.flat c = o.flat c := by unfold Ocean.flat; rw [hloc]
      exact ⟨dupState o1,
        TakeShot_duplicate_eq o1 c u hv1 (by rw [hfl]; exact hu) hu0 hur, rfl, rfl⟩
    rcases TakeShot_cases o o1 c r1 h with ⟨hf, _⟩ | ⟨_, hcell, hr, heq⟩ |
      ⟨_, v, bt, hcell, hv, _, hr, heq⟩ | ⟨_, v, hcell, hv0, hv, hr, heq⟩
    · rw [hvalid] at hf; cases hf
    · subst heq
      refine ⟨Or.inl hr, second _ dtBLOWNUP rfl (peek_set_self _ hcell) (by decide) (by decide)⟩
    · subst heq
      refine ⟨?_, second _ (v + HIT_OFFSET) rfl (peek_set_self _ hcell) ?_ ?_⟩
      · rw [hr]; split
        · exact Or.inr (Or.inr (Or.inl rfl))
        · exact Or.inr (Or.inl rfl)
      · unfold HIT_OFFSET at *; omega
      · unfold HIT_OFFSET at *; omega
    · subst heq
      exact ⟨Or.inr (Or.inr (Or.inr hr)), second _ v rfl hcell hv0 hv⟩
  · intro v hcell hslot
    by_cases hv0 : v = 0
    · subst hv0; exact ⟨_, _, TakeShot_miss_eq o c hvalid hcell⟩
    · by_cases hv : 0 < v ∧ v < HIT_OFFSET
      · obtain ⟨bt, hbt⟩ := hslot hv.1 (by unfold HIT_OFFSET at hv; exact hv.2)
        exact ⟨_, _, TakeShot_hit_eq o c v bt hvalid hcell hv hbt⟩
      · exact ⟨_, _, TakeShot_duplicate_eq o c v hvalid hcell hv0 hv⟩

theorem TakeShot_repeat_witness :
    ∃ o2 : Ocean,
      (hitState demoBoard ⟨1, 0⟩ 1 ⟨0, 1, oHORIZONTAL, ⟨0, 0⟩⟩).TakeShot ⟨1, 0⟩ =
        .ok (.srDUPLICATE, o2) ∧
      o2.grid = [1, 101, 1, 1, 0, 0, 0, 0] :=
  have first : demoBoard.TakeShot ⟨1, 0⟩ =
      .ok (.srHIT, hitState demoBoard ⟨1, 0⟩ 1 ⟨0, 1, oHORIZONTAL, ⟨0, 0⟩⟩) := by decide
  have h := ((TakeShot_repeat demoBoard ⟨1, 0⟩ (by decide) (by decide)).1 _ _ first).2
  h.elim fun o2 h2 => ⟨o2, h2.1, h2.2.1.trans (by decide)⟩

/-! ## Sequences of calls -/

theorem step_place_inv (o o' : Ocean) (boat : Boat) (e : Event)
    (h : step o (.place boat) = .ok (e, o')) :
    ∃ r : BoatPlacement, o.PlaceBoat boat = .ok (r, o') ∧ e = .placed boat r := by
  cases hp : o.PlaceBoat boat with
  | error f => simp [step, hp] at h
  | ok res =>
    obtain ⟨r, om⟩ := res
    simp only [step, hp, Except.ok.injEq, Prod.mk.injEq] at h
    exact ⟨r, by rw [h.2], h.1.symm⟩

theorem step_shoot_inv (o o' : Ocean) (c : Point) (e : Event)
    (h : step o (.shoot c) = .ok (e, o')) :
    ∃ r : ShotResult, o.TakeShot c = .ok (r, o') ∧ e = .shot c r := by
  cases hp : o.TakeShot c with
  | error f => simp [step, hp] at h
  | ok res =>
    obtain ⟨r, om⟩ := res
    simp only [step, hp, Except.ok.injEq, Prod.mk.injEq] at h
    exact ⟨r, by rw [h.2], h.1.symm⟩

theorem step_place_eq (o o' : Ocean) (boat : Boat) (r : BoatPlacement)
    (h : o.PlaceBoat boat = .ok (r, o')) : step o (.place boat) = .ok (.placed boat r, o') := by
  simp only [step, h]

theorem step_shoot_eq (o o' : Ocean) (c : Point) (r : ShotResult)
    (h : o.TakeShot c = .ok (r, o')) : step o (.shoot c) = .ok (.shot c r, o') := by
  simp only [step, h]

theorem runOps_cons_eq (o o1 o2 : Ocean) (op : Op) (ops : List Op) (e : Event)
    (es : List Event) (h1 : step o op = .ok (e, o1)) (h2 : runOps o1 ops = .ok (es, o2)) :
    runOps o (op :: ops) = .ok (e :: es, o2) := by
  simp only [runOps, h1, h2]

theorem runOps_cons_inv (o o2 : Ocean) (op : Op) (ops : List Op) (log : List Event)
    (h : runOps o (op :: ops) = .ok (log, o2)) :
    ∃ (e : Event) (o1 : Ocean) (es : List Event),
      step o op = .ok (e, o1) ∧ runOps o1 ops = .ok (es, o2) ∧ log = e :: es := by
  unfold runOps at h
  split at h
  · cases h
  · rename_i e o1 h1
    split at h
    · cases h
    · rename_i es o2' h2
      simp only [Except.ok.injEq, Prod.mk.injEq] at h
      exact ⟨e, o1, es, h1, by rw [h2, h.2], h.1.symm⟩

/-- Induction along a returning run: a property of (log so far, state) that every
returning call preserves holds at the end of the run. -/
theorem runOps_invariant (Inv : List Event → Ocean → Prop)
    (hstep : ∀ (log : List Event) (o o' : Ocean) (op : Op) (e : Event),
      Inv log o → step o op = .ok (e, o') → Inv (log ++ [e]) o') :
    ∀ (ops : List Op) (log : List Event) (o o' : Ocean) (es : List Event),
      Inv log o → runOps o ops = .ok (es, o') → Inv (log ++ es) o' := by
  intro ops
  induction ops with
  | nil =>
    intro log o o' es hinv h
    simp only [runOps, Except.ok.injEq, Prod.mk.injEq] at h
    rw [← h.1, ← h.2, List.append_nil]; exact hinv
  | cons op ops ih =>
    intro log o o' es hinv h
    obtain ⟨e, o1, es', h1, h2, heq⟩ := runOps_cons_inv o o' op ops es h
    have := ih (log ++ [e]) o1 o' es' (hstep log o o1 op e hinv h1) h2
    rw [heq]
    simpa using this

/-- A returning run over `ops1 ++ ops2` is a returning run over `ops1` followed by
a returning run over `ops2`. -/
theorem runOps_append_inv :
    ∀ (ops1 ops2 : List Op) (o o' : Ocean) (log : List Event),
      runOps o (ops1 ++ ops2) = .ok (log, o') →
      ∃ (log1 : List Event) (o1 : Ocean) (log2 : List Event),
        runOps o ops1 = .ok (log1, o1) ∧ runOps o1 ops2 = .ok (log2, o') ∧
        log = log1 ++ log2 := by
  intro ops1
  induction ops1 with
  | nil => intro ops2 o o' log h; exact ⟨[], o, log, rfl, h, rfl⟩
  | cons op ops1 ih =>
    intro ops2 o o' log h
    rw [List.cons_append] at h
    obtain ⟨e, om, es, h1, h2, heq⟩ := runOps_cons_inv o o' op (ops1 ++ ops2) log h
    obtain ⟨log1, o1, log2, h3, h4, heq2⟩ := ih ops2 om o' es h2
    exact ⟨e :: log1, o1, log2, runOps_cons_eq _ _ _ _ _ _ _ h1 h3, h4, by rw [heq, heq2]; rfl⟩

/-! ## Cell transitions -/

/-- A returning `PlaceBoat` keeps dimensions and grid length, and leaves every
grid slot that holds a non-zero value as it is. -/
theorem PlaceBoat_cell_step (o o' : Ocean) (boat : Boat) (r : BoatPlacement)
    (h : o.PlaceBoat boat = .ok (r, o')) :
    o'.location = o.location ∧ o'.grid.length = o.grid.length ∧
    ∀ (k : Int) (v : Int), peek o.grid k = some v → v ≠ 0 → peek o'.grid k = some v := by
  rcases PlaceBoat_result o o' boat r h with ⟨_, heq, _⟩ |
    ⟨_, _, hclear, _, g', ⟨hlen, _, hout⟩, heq⟩
  · subst heq; exact ⟨rfl, rfl, fun k v hk _ => hk⟩
  · subst heq
    refine ⟨rfl, hlen, fun k v hk hv => ?_⟩
    have hframe : peek g' k = peek o.grid k := by
      apply hout
      intro j hj hkj
      have h0 := hclear ⟨j, hj⟩
      unfold Ocean.cell at h0
      simp only at h0
      rw [← hkj, hk] at h0
      simp only [Option.some.injEq] at h0
      exact hv h0
    show peek g' k = some v
    rw [hframe, hk]

/-- Effect of one returning call on a grid slot that holds a non-zero value. -/
theorem step_cell (o o' : Ocean) (op : Op) (e : Event) (h : step o op = .ok (e, o'))
    (k : Int) (v : Int) (hk : peek o.grid k = some v) (hv : v ≠ 0) :
    peek o'.grid k = some v ∨
    (peek o'.grid k = some (v + 100) ∧ (1 ≤ v ∧ v < 100) ∧
      ∃ c : Point, op = .shoot c ∧ o.IsValidCoordinate c = true ∧ k = o.flat c) := by
  cases op with
  | place boat =>
    obtain ⟨r, hp, _⟩ := step_place_inv o o' boat e h
    exact Or.inl ((PlaceBoat_cell_step o o' boat r hp).2.2 k v hk hv)
  | shoot c =>
    obtain ⟨r, hs, _⟩ := step_shoot_inv o o' c e h
    rcases TakeShot_cases o o' c r hs with ⟨_, _, heq⟩ | ⟨_, hcell, _, heq⟩ |
      ⟨hvalid, u, bt, hcell, hu, _, _, heq⟩ | ⟨_, u, _, _, _, _, heq⟩
    · subst heq; exact Or.inl hk
    · subst heq
      left
      have hkc : k ≠ o.flat c := by
        intro hkc; rw [hkc, hcell] at hk
        simp only [Option.some.injEq] at hk
        exact hv hk.symm
      show peek (o.grid.set (o.flat c).toNat dtBLOWNUP) k = some v
      rw [peek_set_other _ _ (peek_some_bounds hcell).1 hkc, hk]
    · subst heq
      by_cases hkc : k = o.flat c
      · right
        rw [hkc, hcell] at hk
        simp only [Option.some.injEq] at hk
        subst hk
        refine ⟨?_, ?_, c, rfl, hvalid, hkc⟩
        · rw [hkc]; exact peek_set_self _ hcell
        · unfold HIT_OFFSET at hu; omega
      · left
        show peek (o.grid.set (o.flat c).toNat (u + HIT_OFFSET)) k = some v
        rw [peek_set_other _ _ (peek_some_bounds hcell).1 hkc, hk]
    · subst heq; exact Or.inl hk

/-- C12. For every board and every single returning call (`PlaceBoat` with any
vessel, `TakeShot` at any coordinate), a grid slot whose value before the call
is `v ≠ 0` afterwards holds `v` or `v + 100`, the latter only when
`1 ≤ v < 100` and the call was a `TakeShot` at the valid coordinate of that
slot.  Over any returning sequence of calls the slot holds `v`, or `v + 100`
with `1 ≤ v < 100`: a slot holding -1 keeps -1, a non-zero slot never returns
to 0, and a slot holding identifier `v` (unhit or hit) never shows another
identifier. -/
theorem cell_transition (o : Ocean) (k : Int) (v : Int) (hk : peek o.grid k = some v)
    (hv : v ≠ 0) :
    (∀ (op : Op) (e : Event) (o' : Ocean), step o op = .ok (e, o') →
      peek o'.grid k = some v ∨
      (peek o'.grid k = some (v + 100) ∧ (1 ≤ v ∧ v < 100) ∧
        ∃ c : Point, op = .shoot c ∧ o.IsValidCoordinate c = true ∧ k = o.flat c)) ∧
    (∀ (ops : List Op) (log : List Event) (o' : Ocean), runOps o ops = .ok (log, o') →
      (peek o'.grid k = some v ∨ (peek o'.grid k = some (v + 100) ∧ (1 ≤ v ∧ v < 100))) ∧
      (v = -1 → peek o'.grid k = some (-1)) ∧
      peek o'.grid k ≠ some 0) := by
  refine ⟨fun op e o' h => step_cell o o' op e h k v hk hv, ?_⟩
  intro ops log o' hrun
  have main : peek o'.grid k = some v ∨ (peek o'.grid k = some (v + 100) ∧ (1 ≤ v ∧ v < 100)) := by
    have := runOps_invariant
      (fun _ s => peek s.grid k = some v ∨ (peek s.grid k = some (v + 100) ∧ (1 ≤ v ∧ v < 100)))
      (by
        intro _ s s' op e hinv hs
        rcases hinv with h1 | ⟨h1, hr⟩
        · rcases step_cell s s' op e hs k v h1 hv with h2 | ⟨h2, hr, _⟩
          · exact Or.inl h2
          · exact Or.inr ⟨h2, hr⟩
        · rcases step_cell s s' op e hs k (v + 100) h1 (by omega) with h2 | ⟨_, hr', _⟩
          · exact Or.inr ⟨h2, hr⟩
          · omega)
      ops [] o o' log (Or.inl hk) hrun
    exact this
  refine ⟨main, ?_, ?_⟩
  · intro hm
    rcases main with h | ⟨_, hr⟩
    · rw [← hm]; exact h
    · omega
  · intro h0
    rcases main with h | ⟨h, hr⟩
    · rw [h] at h0; simp only [Option.some.injEq] at h0; exact hv h0
    · rw [h] at h0; simp only [Option.some.injEq] at h0; omega

theorem cell_transition_witness :
    (∀ (op : Op) (e : Event) (o' : Ocean), step demoBoard op = .ok (e, o') →
      peek o'.grid 2 = some 1 ∨
      (peek o'.grid 2 = some (1 + 100) ∧ ((1 : Int) ≤ 1 ∧ (1 : Int) < 100) ∧
        ∃ c : Point, op = .shoot c ∧ demoBoard.IsValidCoordinate c = true ∧
          2 = demoBoard.flat c)) ∧
    step demoBoard (.shoot ⟨2, 0⟩) =
      .ok (.shot ⟨2, 0⟩ .srHIT, hitState demoBoard ⟨2, 0⟩ 1 ⟨0, 1, oHORIZONTAL, ⟨0, 0⟩⟩) ∧
    peek (hitState demoBoard ⟨2, 0⟩ 1 ⟨0, 1, oHORIZONTAL, ⟨0, 0⟩⟩).grid 2 = some 101 :=
  ⟨(cell_transition demoBoard 2 1 (by decide) (by decide)).1, by decide, by decide⟩

/-! ## Grid accesses stay inside the allocation -/

theorem TakeShot_returns_or_boat_fault (o : Ocean) (hwf : o.WellFormed) (c : Point) :
    (∃ (r : ShotResult) (o' : Ocean), o.TakeShot c = .ok (r, o')) ∨
    o.TakeShot c = .error .boatOutOfRange := by
  cases hvalid : o.IsValidCoordinate c with
  | false => exact Or.inl ⟨_, _, TakeShot_illegal_eq o c hvalid⟩
  | true =>
    have hin := (IsValidCoordinate_iff o c).1 hvalid
    obtain ⟨v, hcell⟩ := cell_readable o hwf c hin.1 hin.2
    unfold Ocean.cell at hcell
    by_cases hv0 : v = 0
    · subst hv0; exact Or.inl ⟨_, _, TakeShot_miss_eq o c hvalid hcell⟩
    · by_cases hv : 0 < v ∧ v < HIT_OFFSET
      · cases hslot : peek o.boats (v - 1) with
        | none =>
          right
          have hne0 : ¬ v = dtOK := by unfold dtOK; exact hv0
          have hv' : v > 0 ∧ v < HIT_OFFSET := hv
          simp [Ocean.TakeShot, hvalid, load, hcell, hne0, hv', hslot]
        | some bt => exact Or.inl ⟨_, _, TakeShot_hit_eq o c v bt hvalid hcell hv hslot⟩
      · exact Or.inl ⟨_, _, TakeShot_duplicate_eq o c v hvalid hcell hv0 hv⟩

theorem PlaceBoat_returns_or_boat_fault (o : Ocean) (hwf : o.WellFormed) (boat : Boat) :
    (∃ (r : BoatPlacement) (o' : Ocean), o.PlaceBoat boat = .ok (r, o')) ∨
    o.PlaceBoat boat = .error .boatOutOfRange := by
  by_cases hc : o.spanFits boat ∧ o.spanClear boat
  · obtain ⟨g', _, heq⟩ := PlaceBoat_clear o boat hc.1 hc.2
    rw [heq]
    split
    · exact Or.inl ⟨_, _, rfl⟩
    · exact Or.inr rfl
  · exact Or.inl ⟨_, _, PlaceBoat_blocked o hwf boat hc⟩

/-- C15. On a board whose grid has `width * height` cells, no grid subscript of
`PlaceBoat` (any vessel) or of `TakeShot` (any coordinate) leaves the
allocation: neither call ever ends in the out-of-range branch of a grid
access.  The indices themselves: for a vessel that passes the anchor and
span-end checks each loop index `i + anchor.y * width` (horizontal) or
`anchor.x + i * width` (vertical), `i = start .. start + 3`, and for a valid
coordinate the index `x + y * width`, lie in `[0, width * height)`. -/
theorem grid_index_in_bounds (o : Ocean) (hwf : o.WellFormed) :
    (∀ boat : Boat, o.PlaceBoat boat ≠ .error .gridOutOfRange) ∧
    (∀ c : Point, o.TakeShot c ≠ .error .gridOutOfRange) ∧
    (∀ (boat : Boat) (j : Int), o.spanFits boat → 0 ≤ j → j < 4 →
      0 ≤ gridIndex o boat (boat.spanStart + j) ∧
      gridIndex o boat (boat.spanStart + j) < o.location.x * o.location.y ∧
      (gridIndex o boat (boat.spanStart + j)).toNat < o.grid.length) ∧
    (∀ c : Point, o.IsValidCoordinate c = true →
      0 ≤ c.x + c.y * o.location.x ∧ c.x + c.y * o.location.x < o.location.x * o.location.y ∧
      (c.x + c.y * o.location.x).toNat < o.grid.length) := by
  have hlen : o.grid.length = (o.location.x * o.location.y).toNat := hwf
  refine ⟨?_, ?_, ?_, ?_⟩
  · intro boat h
    rcases PlaceBoat_returns_or_boat_fault o hwf boat with ⟨r, o', h'⟩ | h'
    · rw [h'] at h; cases h
    · rw [h'] at h; cases h
  · intro c h
    rcases TakeShot_returns_or_boat_fault o hwf c with ⟨r, o', h'⟩ | h'
    · rw [h'] at h; cases h
    · rw [h'] at h; cases h
  · intro boat j hfits hj0 hj4
    have hin := spanCell_inside o boat hfits j ⟨hj0, hj4⟩
    have h0 := flat_nonneg o _ hin.1 hin.2.1
    have h1 := flat_lt o _ hin.1 hin.2
    rw [gridIndex_spanStart]
    exact ⟨h0, h1, by omega⟩
  · intro c hvalid
    have hin := (IsValidCoordinate_iff o c).1 hvalid
    have h0 := flat_nonneg o c hin.1 hin.2.1
    have h1 := flat_lt o c hin.1 hin.2
    unfold Ocean.flat at h0 h1
    exact ⟨h0, h1, by omega⟩

theorem grid_index_in_bounds_witness :
    emptyBoard.WellFormed ∧
    emptyBoard.PlaceBoat ⟨0, 1, oVERTICAL, ⟨3, 1⟩⟩ ≠ .error .gridOutOfRange ∧
    emptyBoard.TakeShot ⟨3, 1⟩ ≠ .error .gridOutOfRange ∧
    emptyBoard.TakeShot ⟨4, 1⟩ ≠ .error .gridOutOfRange :=
  ⟨by decide,
    (grid_index_in_bounds emptyBoard (by decide)).1 ⟨0, 1, oVERTICAL, ⟨3, 1⟩⟩,
    (grid_index_in_bounds emptyBoard (by decide)).2.1 ⟨3, 1⟩,
    (grid_index_in_bounds emptyBoard (by decide)).2.1 ⟨4, 1⟩⟩

/-! ## Cell encoding along runs -/

theorem peek_mem {α : Type} {mem : List α} {i : Int} {v : α} (h : peek mem i = some v) :
    v ∈ mem := by
  unfold peek at h
  split at h
  · exact List.getElem?_mem h
  · cases h

theorem construct_fields (N w h : Int) (o0 : Ocean) (hc : Ocean.construct N w h = .ok o0) :
    (0 ≤ w * h ∧ 0 ≤ N) ∧
    o0 = ⟨List.replicate (w * h).toNat 0, List.replicate N.toNat Boat.zero, ⟨w, h⟩,
      ⟨0, 0, 0, 0⟩⟩ := by
  unfold Ocean.construct at hc
  split at hc
  · cases hc
  · rename_i hneg
    simp only [Except.ok.injEq] at hc
    exact ⟨by omega, hc.symm⟩

theorem construct_encoded (N w h : Int) (o0 : Ocean)
    (hc : Ocean.construct N w h = .ok o0) : Encoded N o0 := by
  obtain ⟨⟨_, hN⟩, heq⟩ := construct_fields N w h o0 hc
  subst heq
  refine ⟨?_, ?_, ?_⟩
  · simp [Ocean.WellFormed]
  · simp [Int.toNat_of_nonneg hN]
  · intro k v hk
    have := peek_mem hk
    simp only [List.mem_replicate] at this
    exact Or.inl this.2

theorem step_encoded (N : Int) (o o' : Ocean) (op : Op) (e : Event) (henc : Encoded N o)
    (h : step o op = .ok (e, o')) : Encoded N o' := by
  obtain ⟨hwf, hcap, hv⟩ := henc
  cases op with
  | place boat =>
    obtain ⟨r, hp, _⟩ := step_place_inv o o' boat e h
    rcases PlaceBoat_result o o' boat r hp with ⟨_, heq, _⟩ |
      ⟨_, _, _, hid, g', ⟨hlen, hin, hout⟩, heq⟩
    · subst heq; exact ⟨hwf, hcap, hv⟩
    · subst heq
      refine ⟨?_, ?_, ?_⟩
      · show g'.length = _
        rw [hlen]; exact hwf
      · show ((o.boats.set _ _).length : Int) = N
        rw [List.length_set]; exact hcap
      · intro k v hk
        have hk' : peek g' k = some v := hk
        by_cases hex : ∃ j : Nat, j < 4 ∧ k = o.flat (boat.spanCell j)
        · obtain ⟨j, hj, hkj⟩ := hex
          rw [hkj, hin j hj] at hk'
          simp only [Option.some.injEq] at hk'
          right; right; left
          omega
        · rw [hout k (fun j hj hkj => hex ⟨j, hj, hkj⟩)] at hk'
          exact hv k v hk'
  | shoot c =>
    obtain ⟨r, hs, _⟩ := step_shoot_inv o o' c e h
    rcases TakeShot_cases o o' c r hs with ⟨_, _, heq⟩ | ⟨_, hcell, _, heq⟩ |
      ⟨_, u, bt, hcell, hu, _, _, heq⟩ | ⟨_, u, _, _, _, _, heq⟩
    · subst heq; exact ⟨hwf, hcap, hv⟩
    · subst heq
      refine ⟨?_, hcap, ?_⟩
      · show (o.grid.set _ _).length = _
        rw [List.length_set]; exact hwf
      · intro k v hk
        have hk' : peek (o.grid.set (o.flat c).toNat dtBLOWNUP) k = some v := hk
        by_cases hkc : k = o.flat c
        · rw [hkc, peek_set_self _ hcell] at hk'
          simp only [Option.some.injEq, dtBLOWNUP] at hk'
          exact Or.inr (Or.inl hk'.symm)
        · rw [peek_set_other _ _ (peek_some_bounds hcell).1 hkc] at hk'
          exact hv k v hk'
    · subst heq
      refine ⟨?_, ?_, ?_⟩
      · show (o.grid.set _ _).length = _
        rw [List.length_set]; exact hwf
      · show ((o.boats.set _ _).length : Int) = N
        rw [List.length_set]; exact hcap
      · intro k v hk
        have hk' : peek (o.grid.set (o.flat c).toNat (u + HIT_OFFSET)) k = some v := hk
        by_cases hkc : k = o.flat c
        · rw [hkc, peek_set_self _ hcell] at hk'
          simp only [Option.some.injEq] at hk'
          have hu' := hv _ u hcell
          unfold HIT_OFFSET at hu hk'
          right; right; right
          omega
        · rw [peek_set_other _ _ (peek_some_bounds hcell).1 hkc] at hk'
          exact hv k v hk'
    · subst heq; exact ⟨hwf, hcap, hv⟩

/-- With the encoding in force every unhit vessel value read by `TakeShot` names a slot. -/
theorem encoded_slot (N : Int) (o : Ocean) (henc : Encoded N o) (k : Int) (v : Int)
    (hk : peek o.grid k = some v) (hv : 0 < v ∧ v < 100) :
    (0 ≤ v - 1 ∧ v - 1 < N) ∧ ∃ bt : Boat, peek o.boats (v - 1) = some bt := by
  have hc := henc.cap
  have h := henc.enc k v hk
  have hb : 0 ≤ v - 1 ∧ v - 1 < N := by omega
  exact ⟨hb, peek_of_bounds o.boats (v - 1) hb.1 (by omega)⟩

theorem step_total (N : Int) (o : Ocean) (op : Op) (henc : Encoded N o)
    (hid : ∀ b : Boat, op = .place b → 1 ≤ b.ID ∧ b.ID ≤ N) :
    ∃ (e : Event) (o' : Ocean), step o op = .ok (e, o') := by
  cases op with
  | place boat =>
    have hslot : 1 ≤ boat.ID ∧ boat.ID ≤ o.boats.length := by
      have := hid boat rfl
      have hc := henc.cap
      omega
    by_cases hc : o.spanFits boat ∧ o.spanClear boat
    · obtain ⟨g', _, heq⟩ := PlaceBoat_clear o boat hc.1 hc.2
      rw [if_pos hslot] at heq
      exact ⟨_, _, step_place_eq _ _ _ _ heq⟩
    · have := PlaceBoat_blocked o henc.wf boat hc
      exact ⟨_, _, step_place_eq _ _ _ _ this⟩
  | shoot c =>
    cases hvalid : o.IsValidCoordinate c with
    | false => exact ⟨_, _, step_shoot_eq _ _ _ _ (TakeShot_illegal_eq o c hvalid)⟩
    | true =>
      have hin := (IsValidCoordinate_iff o c).1 hvalid
      obtain ⟨v, hcell⟩ := cell_readable o henc.wf c hin.1 hin.2
      unfold Ocean.cell at hcell
      by_cases hv0 : v = 0
      · subst hv0
        exact ⟨_, _, step_shoot_eq _ _ _ _ (TakeShot_miss_eq o c hvalid hcell)⟩
      · by_cases hv : 0 < v ∧ v < HIT_OFFSET
        · obtain ⟨_, bt, hbt⟩ := encoded_slot N o henc _ v hcell
            (by unfold HIT_OFFSET at hv; exact hv)
          exact ⟨_, _, step_shoot_eq _ _ _ _ (TakeShot_hit_eq o c v bt hvalid hcell hv hbt)⟩
        · exact ⟨_, _, step_shoot_eq _ _ _ _ (TakeShot_duplicate_eq o c v hvalid hcell hv0 hv)⟩

theorem runOps_total (N : Int) :
    ∀ (ops : List Op) (o : Ocean), Encoded N o →
      (∀ b : Boat, Op.place b ∈ ops → 1 ≤ b.ID ∧ b.ID ≤ N) →
      ∃ (log : List Event) (o' : Ocean), runOps o ops = .ok (log, o') ∧ Encoded N o' := by
  intro ops
  induction ops with
  | nil => intro o henc _; exact ⟨[], o, rfl, henc⟩
  | cons op ops ih =>
    intro o henc hids
    obtain ⟨e, o1, h1⟩ := step_total N o op henc
      (fun b hb => hids b (by rw [hb]; exact List.mem_cons_self _ _))
    obtain ⟨log, o2, h2, henc2⟩ := ih o1 (step_encoded N o o1 op e henc h1)
      (fun b hb => hids b (List.mem_cons_of_mem _ hb))
    exact ⟨e :: log, o2, runOps_cons_eq _ _ _ _ _ _ _ h1 h2, henc2⟩

/-- C11. From a freshly constructed board with `N` vessel slots, every sequence
of `TakeShot` calls (any coordinates) and `PlaceBoat` calls whose vessels have
identifiers in `[1, N]` runs to its end, and in the state it reaches every grid
slot holds 0, -1, a value in `[1, N]` or a value in `[101, 100 + N]`;
consequently the vessel-list index `value - 1` that `TakeShot` uses for a cell
holding `0 < value < 100` lies in `[0, N)` and names a slot, so the next
`TakeShot` returns at every coordinate. -/
theorem cell_encoding_invariant (N w h : Int) (o0 : Ocean) (ops : List Op)
    (hc : Ocean.construct N w h = .ok o0)
    (hids : ∀ b : Boat, Op.place b ∈ ops → 1 ≤ b.ID ∧ b.ID ≤ N) :
    ∃ (log : List Event) (o : Ocean), runOps o0 ops = .ok (log, o) ∧
      (∀ (k : Int) (v : Int), peek o.grid k = some v →
        v = 0 ∨ v = -1 ∨ (1 ≤ v ∧ v ≤ N) ∨ (101 ≤ v ∧ v ≤ 100 + N)) ∧
      (∀ (c : Point) (v : Int), o.cell c = some v → 0 < v → v < 100 →
        (0 ≤ v - 1 ∧ v - 1 < N) ∧ ∃ bt : Boat, o.slot v = some bt) ∧
      (∀ c : Point, ∃ (r : ShotResult) (o' : Ocean), o.TakeShot c = .ok (r, o')) := by
  obtain ⟨log, o, hrun, henc⟩ := runOps_total N ops o0 (construct_encoded N w h o0 hc) hids
  refine ⟨log, o, hrun, henc.enc, ?_, ?_⟩
  · intro c v hcell h0 h100
    exact encoded_slot N o henc _ v hcell ⟨h0, h100⟩
  · intro c
    obtain ⟨e, o', hs⟩ := step_total N o (.shoot c) henc (fun b hb => by cases hb)
    obtain ⟨r, hr, _⟩ := step_shoot_inv o o' c e hs
    exact ⟨r, o', hr⟩

theorem cell_encoding_invariant_witness :
    ∃ (log : List Event) (o : Ocean),
      runOps emptyBoard
        [.place ⟨0, 1, oHORIZONTAL, ⟨0, 0⟩⟩, .shoot ⟨1, 0⟩, .shoot ⟨1, 1⟩, .shoot ⟨9, 9⟩,
          .place ⟨0, 1, oVERTICAL, ⟨0, 0⟩⟩] = .ok (log, o) ∧
      (∀ (k : Int) (v : Int), peek o.grid k = some v →
        v = 0 ∨ v = -1 ∨ (1 ≤ v ∧ v ≤ 1) ∨ (101 ≤ v ∧ v ≤ 100 + 1)) := by
  obtain ⟨log, o, h⟩ := cell_encoding_invariant 1 4 2 emptyBoard
    [.place ⟨0, 1, oHORIZONTAL, ⟨0, 0⟩⟩, .shoot ⟨1, 0⟩, .shoot ⟨1, 1⟩, .shoot ⟨9, 9⟩,
      .place ⟨0, 1, oVERTICAL, ⟨0, 0⟩⟩] (by decide)
    (by
      intro b hb
      simp only [List.mem_cons, Op.place.injEq, List.mem_singleton, reduceCtorEq, false_or,
        or_false, List.not_mem_nil] at hb
      rcases hb with hb | hb <;> subst hb <;> decide)
  exact ⟨log, o, h.1, h.2.1⟩

/-! ## Statistics -/

theorem shotCount_snoc (r : ShotResult) (log : List Event) (e : Event) :
    shotCount r (log ++ [e]) = shotCount r log + (if e.isShot r = true then 1 else 0) := by
  simp [shotCount, List.countP_append, List.countP_cons, List.countP_nil]

theorem legalShots_snoc (log : List Event) (e : Event) :
    legalShots (log ++ [e]) = legalShots log + (if e.isLegalShot = true then 1 else 0) := by
  simp [legalShots, List.countP_append, List.countP_cons, List.countP_nil]

/-- Counters of the state after one returning call, in terms of the event. -/
theorem step_stats (o o' : Ocean) (op : Op) (e : Event) (h : step o op = .ok (e, o')) :
    o'.stats.misses = o.stats.misses + (if e.isShot .srMISS = true then 1 else 0) ∧
    o'.stats.duplicates =
      (if e.isShot .srDUPLICATE = true then wrapInt32 (o.stats.duplicates + 1)
        else o.stats.duplicates) ∧
    o'.stats.hits = o.stats.hits + (if e.isShot .srHIT = true then 1 else 0)
      + (if e.isShot .srSUNK = true then 1 else 0) ∧
    o'.stats.sunk = o.stats.sunk + (if e.isShot .srSUNK = true then 1 else 0) ∧
    ((if e.isLegalShot = true then 1 else 0) : Nat) =
      (if e.isShot .srMISS = true then 1 else 0) + (if e.isShot .srDUPLICATE = true then 1 else 0)
      + (if e.isShot .srHIT = true then 1 else 0) + (if e.isShot .srSUNK = true then 1 else 0) := by
  cases op with
  | place boat =>
    obtain ⟨r, hp, he⟩ := step_place_inv o o' boat e h
    subst he
    rcases PlaceBoat_result o o' boat r hp with ⟨_, heq, _⟩ | ⟨_, _, _, _, g', _, heq⟩
    · subst heq; simp [Event.isShot, Event.isLegalShot]
    · subst heq; simp [Event.isShot, Event.isLegalShot, placedState]
  | shoot c =>
    obtain ⟨r, hs, he⟩ := step_shoot_inv o o' c e h
    subst he
    rcases TakeShot_cases o o' c r hs with ⟨_, hr, heq⟩ | ⟨_, _, hr, heq⟩ |
      ⟨_, u, bt, _, _, _, hr, heq⟩ | ⟨_, u, _, _, _, hr, heq⟩
    · subst heq; subst hr; simp [Event.isShot, Event.isLegalShot]
    · subst heq; subst hr; simp [Event.isShot, Event.isLegalShot, missState]
    · subst heq; subst hr
      by_cases hs4 : bt.hits + 1 ≥ BOAT_LENGTH
      · simp [Event.isShot, Event.isLegalShot, hitState, hs4]
      · simp [Event.isShot, Event.isLegalShot, hitState, hs4]
    · subst heq; subst hr; simp [Event.isShot, Event.isLegalShot, dupState]

theorem step_statsMatch (log : List Event) (o o' : Ocean) (op : Op) (e : Event)
    (hinv : o.StatsMatch log) (h : step o op = .ok (e, o')) : o'.StatsMatch (log ++ [e]) := by
  obtain ⟨h1, h2, h3, h4, h5⟩ := step_stats o o' op e h
  obtain ⟨i1, i2, i3, i4, i5⟩ := hinv
  unfold Ocean.GetShotStats at i1 i2 i3 i4
  unfold Ocean.StatsMatch Ocean.GetShotStats
  simp only [shotCount_snoc, legalShots_snoc]
  refine ⟨?_, ?_, ?_, ?_, ?_⟩
  · push_cast; omega
  · rw [h2, i2]
    by_cases hd : e.isShot .srDUPLICATE = true
    · rw [if_pos hd, if_pos hd]
      push_cast
      exact wrapInt32_succ _
    · rw [if_neg hd, if_neg hd]
      simp
  · push_cast; omega
  · push_cast; omega
  · omega

/-- C13 (as amended). After any returning sequence of `PlaceBoat` and `TakeShot`
calls on a freshly constructed board, `GetShotStats` gives `misses` = number of
shots that returned Miss, `hits` = number that returned Hit or Sunk, `sunk` =
number that returned Sunk, and `duplicates` = number that returned Duplicate as
a 32-bit `int` holds it; so `sunk ≤ hits`, and as long as fewer than 2147483648
shots returned Duplicate, `duplicates` is that number and
`hits + misses + duplicates` is the number of shots that were not Illegal.
Along the run no counter ever decreases as long as fewer than 2147483648 shots
returned Duplicate (`hits`, `misses` and `sunk` never do); and no returning
call, on any board, lowers `hits`, `misses` or `sunk`, nor `duplicates` while it
is below 2147483647. -/
theorem stats_track_outcomes (N w h : Int) (o0 o : Ocean) (ops : List Op) (log : List Event)
    (hc : Ocean.construct N w h = .ok o0) (hrun : runOps o0 ops = .ok (log, o)) :
    (o.GetShotStats.misses = shotCount .srMISS log ∧
      o.GetShotStats.duplicates = wrapInt32 (shotCount .srDUPLICATE log) ∧
      o.GetShotStats.hits = shotCount .srHIT log + shotCount .srSUNK log ∧
      o.GetShotStats.sunk = shotCount .srSUNK log) ∧
    (shotCount .srDUPLICATE log < 2147483648 →
      o.GetShotStats.duplicates = shotCount .srDUPLICATE log ∧
      o.GetShotStats.hits + o.GetShotStats.misses + o.GetShotStats.duplicates =
        legalShots log) ∧
    o.GetShotStats.hits + o.GetShotStats.misses + (shotCount .srDUPLICATE log : Int) =
      legalShots log ∧
    o.GetShotStats.sunk ≤ o.GetShotStats.hits ∧
    (∀ (ops1 ops2 : List Op) (log1 : List Event) (o1 : Ocean), ops = ops1 ++ ops2 →
      runOps o0 ops1 = .ok (log1, o1) →
      o1.GetShotStats.hits ≤ o.GetShotStats.hits ∧
      o1.GetShotStats.misses ≤ o.GetShotStats.misses ∧
      o1.GetShotStats.sunk ≤ o.GetShotStats.sunk ∧
      (shotCount .srDUPLICATE log < 2147483648 →
        o1.GetShotStats.duplicates ≤ o.GetShotStats.duplicates)) ∧
    (∀ (s s' : Ocean) (op : Op) (e : Event), step s op = .ok (e, s') →
      s.GetShotStats.hits ≤ s'.GetShotStats.hits ∧
      s.GetShotStats.misses ≤ s'.GetShotStats.misses ∧
      s.GetShotStats.sunk ≤ s'.GetShotStats.sunk ∧
      (-2147483648 ≤ s.GetShotStats.duplicates → s.GetShotStats.duplicates < 2147483647 →
        s.GetShotStats.duplicates ≤ s'.GetShotStats.duplicates)) := by
  have h0 : o0.StatsMatch [] := by
    obtain ⟨_, heq⟩ := construct_fields N w h o0 hc
    subst heq
    refine ⟨rfl, ?_, rfl, rfl, rfl⟩
    show (0 : Int) = wrapInt32 ((0 : Nat) : Int)
    decide
  have hm := runOps_invariant (fun l s => s.StatsMatch l) step_statsMatch ops [] o0 o log h0 hrun
  simp only [List.nil_append] at hm
  obtain ⟨i1, i2, i3, i4, i5⟩ := hm
  refine ⟨⟨i1, i2, i3, i4⟩, ?_, by omega, by omega, ?_, ?_⟩
  · intro hlt
    have hd : o.GetShotStats.duplicates = shotCount .srDUPLICATE log := by
      rw [i2]
      exact wrapInt32_of_range _ (by omega) (by omega)
    exact ⟨hd, by omega⟩
  · intro ops1 ops2 log1 o1 hops hrun1
    subst hops
    obtain ⟨log1', o1', log2, hr1, _, hlog⟩ := runOps_append_inv ops1 ops2 o0 o log hrun
    rw [hrun1] at hr1
    simp only [Except.ok.injEq, Prod.mk.injEq] at hr1
    obtain ⟨hl, ho⟩ := hr1
    subst hl; subst ho
    have hm1 := runOps_invariant (fun l s => s.StatsMatch l) step_statsMatch ops1 [] o0 o1 log1
      h0 hrun1
    simp only [List.nil_append] at hm1
    obtain ⟨j1, j2, j3, j4, _⟩ := hm1
    have happ : ∀ r : ShotResult, shotCount r log = shotCount r log1 + shotCount r log2 := by
      intro r; rw [hlog]; unfold shotCount; rw [List.countP_append]
    have a1 := happ .srMISS
    have a2 := happ .srDUPLICATE
    have a3 := happ .srHIT
    have a4 := happ .srSUNK
    refine ⟨by omega, by omega, by omega, ?_⟩
    intro hlt
    rw [i2, j2, wrapInt32_of_range _ (by omega) (by omega),
      wrapInt32_of_range _ (by omega) (by omega)]
    omega
  · intro s s' op e hs
    obtain ⟨h1, h2, h3, h4, _⟩ := step_stats s s' op e hs
    unfold Ocean.GetShotStats
    refine ⟨?_, ?_, ?_, ?_⟩
    · rw [h3]; split <;> split <;> omega
    · rw [h1]; split <;> omega
    · rw [h4]; split <;> omega
    · intro hlo hhi
      rw [h2]
      split
      · rw [wrapInt32_of_range _ (by omega) (by omega)]; omega
      · exact le_refl _

theorem stats_track_outcomes_witness :
    ∃ (log : List Event) (o : Ocean),
      runOps emptyBoard
        [.place ⟨0, 1, oHORIZONTAL, ⟨0, 0⟩⟩, .shoot ⟨1, 0⟩, .shoot ⟨1, 1⟩, .shoot ⟨9, 9⟩,
          .shoot ⟨1, 0⟩, .shoot ⟨0, 0⟩, .shoot ⟨2, 0⟩, .shoot ⟨3, 0⟩] = .ok (log, o) ∧
      o.GetShotStats = ⟨4, 1, 1, 1⟩ ∧
      shotCount .srMISS log = 1 ∧ shotCount .srDUPLICATE log = 1 ∧
      shotCount .srHIT log = 3 ∧ shotCount .srSUNK log = 1 ∧ legalShots log = 6 ∧
      o.GetShotStats.hits = shotCount .srHIT log + shotCount .srSUNK log ∧
      o.GetShotStats.duplicates = shotCount .srDUPLICATE log := by
  have hrun : runOps emptyBoard
      [.place ⟨0, 1, oHORIZONTAL, ⟨0, 0⟩⟩, .shoot ⟨1, 0⟩, .shoot ⟨1, 1⟩, .shoot ⟨9, 9⟩,
        .shoot ⟨1, 0⟩, .shoot ⟨0, 0⟩, .shoot ⟨2, 0⟩, .shoot ⟨3, 0⟩] =
      .ok ([.placed ⟨0, 1, oHORIZONTAL, ⟨0, 0⟩⟩ .bpACCEPTED, .shot ⟨1, 0⟩ .srHIT,
          .shot ⟨1, 1⟩ .srMISS, .shot ⟨9, 9⟩ .srILLEGAL, .shot ⟨1, 0⟩ .srDUPLICATE,
          .shot ⟨0, 0⟩ .srHIT, .shot ⟨2, 0⟩ .srHIT, .shot ⟨3, 0⟩ .srSUNK],
        ⟨[101, 101, 101, 101, 0, -1, 0, 0], [⟨4, 1, oHORIZONTAL, ⟨0, 0⟩⟩], ⟨4, 2⟩,
          ⟨4, 1, 1, 1⟩⟩) := by decide
  have h := stats_track_outcomes 1 4 2 emptyBoard _ _ _ (by decide) hrun
  exact ⟨_, _, hrun, by decide, by decide, by decide, by decide, by decide, by decide,
    h.1.2.2.1, (h.2.1 (by decide)).1⟩

/-! ## The duplicates counter at the 32-bit limit -/

theorem shotCount_cons (r : ShotResult) (e : Event) (log : List Event) :
    shotCount r (e :: log) = shotCount r log + (if e.isShot r = true then 1 else 0) := by
  unfold shotCount
  rw [List.countP_cons]

theorem shotCount_replicate (r : ShotResult) (c : Point) (n : Nat) :
    shotCount r (List.replicate n (.shot c r)) = n := by
  unfold shotCount
  rw [List.countP_replicate]
  simp [Event.isShot]

/-- Shooting `n` times at a cell that gives Duplicate: every shot returns
Duplicate and only `duplicates` moves, by `n` steps of the 32-bit counter. -/
theorem duplicate_run (o : Ocean) (c : Point) (v : Int)
    (hvalid : o.IsValidCoordinate c = true) (hcell : peek o.grid (o.flat c) = some v)
    (hv0 : v ≠ 0) (hv : ¬ (0 < v ∧ v < HIT_OFFSET)) :
    ∀ (n : Nat) (d : Int),
      runOps { o with stats := { o.stats with duplicates := wrapInt32 d } }
          (List.replicate n (.shoot c)) =
        .ok (List.replicate n (.shot c .srDUPLICATE),
          { o with stats := { o.stats with duplicates := wrapInt32 (d + n) } }) := by
  intro n
  induction n with
  | zero => intro d; simp [runOps]
  | succ n ih =>
    intro d
    have hstep := TakeShot_duplicate_eq
      { o with stats := { o.stats with duplicates := wrapInt32 d } } c v hvalid hcell hv0 hv
    have hnext : dupState { o with stats := { o.stats with duplicates := wrapInt32 d } } =
        { o with stats := { o.stats with duplicates := wrapInt32 (d + 1) } } := by
      simp only [dupState, wrapInt32_succ]
    rw [hnext] at hstep
    have hrest := ih (d + 1)
    have hcast : d + 1 + (n : Int) = d + ((n + 1 : Nat) : Int) := by push_cast; ring
    rw [hcast] at hrest
    rw [List.replicate_succ, List.replicate_succ]
    exact runOps_cons_eq _ _ _ _ _ _ _ (step_shoot_eq _ _ _ _ hstep) hrest

/-- The state `tinyFull` is reached from the constructed 1 x 1 board by one Miss
and 2147483647 Duplicate shots at `(0, 0)`. -/
theorem tinyFull_reached :
    runOps tinyBoard (.shoot ⟨0, 0⟩ :: List.replicate 2147483647 (.shoot ⟨0, 0⟩)) =
      .ok (.shot ⟨0, 0⟩ .srMISS :: List.replicate 2147483647 (.shot ⟨0, 0⟩ .srDUPLICATE),
        tinyFull) := by
  have hmiss : step tinyBoard (.shoot ⟨0, 0⟩) = .ok (.shot ⟨0, 0⟩ .srMISS, tinyMissed) := by
    decide
  have hrun := duplicate_run tinyMissed ⟨0, 0⟩ (-1) (by decide) (by decide) (by decide)
    (by decide) 2147483647 0
  have e1 : ({ tinyMissed with
      stats := { tinyMissed.stats with duplicates := wrapInt32 0 } } : Ocean) = tinyMissed := by
    decide
  have e2 : ({ tinyMissed with
      stats := { tinyMissed.stats with
        duplicates := wrapInt32 (0 + ((2147483647 : Nat) : Int)) } } : Ocean) = tinyFull := by
    decide
  rw [e1, e2] at hrun
  exact runOps_cons_eq _ _ _ _ _ _ _ hmiss hrun

/-- The state `tinyWrapped` is reached from the constructed 1 x 1 board by one Miss
and 2147483648 Duplicate shots at `(0, 0)`. -/
theorem tinyWrapped_reached :
    runOps tinyBoard (.shoot ⟨0, 0⟩ :: List.replicate 2147483648 (.shoot ⟨0, 0⟩)) =
      .ok (.shot ⟨0, 0⟩ .srMISS :: List.replicate 2147483648 (.shot ⟨0, 0⟩ .srDUPLICATE),
        tinyWrapped) := by
  have hmiss : step tinyBoard (.shoot ⟨0, 0⟩) = .ok (.shot ⟨0, 0⟩ .srMISS, tinyMissed) := by
    decide
  have hrun := duplicate_run tinyMissed ⟨0, 0⟩ (-1) (by decide) (by decide) (by decide)
    (by decide) 2147483648 0
  have e1 : ({ tinyMissed with
      stats := { tinyMissed.stats with duplicates := wrapInt32 0 } } : Ocean) = tinyMissed := by
    decide
  have e2 : ({ tinyMissed with
      stats := { tinyMissed.stats with
        duplicates := wrapInt32 (0 + ((2147483648 : Nat) : Int)) } } : Ocean) =
      tinyWrapped := by
    decide
  rw [e1, e2] at hrun
  exact runOps_cons_eq _ _ _ _ _ _ _ hmiss hrun

/-- C7 as stated fails at the 32-bit limit: on the 1 x 1 board, after one Miss and
2147483647 Duplicate shots at `(0, 0)` the counter `duplicates` is 2147483647;
the next shot at the cell (which holds -1) returns Duplicate and leaves
`duplicates` at -2147483648, not at 2147483648. -/
theorem TakeShot_duplicate_counterexample :
    Ocean.construct 0 1 1 = .ok tinyBoard ∧
    runOps tinyBoard (.shoot ⟨0, 0⟩ :: List.replicate 2147483647 (.shoot ⟨0, 0⟩)) =
      .ok (.shot ⟨0, 0⟩ .srMISS :: List.replicate 2147483647 (.shot ⟨0, 0⟩ .srDUPLICATE),
        tinyFull) ∧
    tinyFull.IsValidCoordinate ⟨0, 0⟩ = true ∧
    tinyFull.cell ⟨0, 0⟩ = some (-1) ∧
    tinyFull.stats.duplicates = 2147483647 ∧
    tinyFull.TakeShot ⟨0, 0⟩ = .ok (.srDUPLICATE, tinyWrapped) ∧
    tinyWrapped.stats.duplicates = -2147483648 ∧
    tinyWrapped.stats.duplicates ≠ tinyFull.stats.duplicates + 1 :=
  ⟨by decide, tinyFull_reached, by decide, by decide, by decide, by decide, by decide,
    by decide⟩

/-- C13 as stated fails at the 32-bit limit: on the 1 x 1 board, after one Miss and
2147483648 Duplicate shots at `(0, 0)`, 2147483648 shots have returned
Duplicate but `GetShotStats` gives `duplicates` = -2147483648; the last of
these calls lowered the counter from 2147483647. -/
theorem stats_track_outcomes_counterexample :
    Ocean.construct 0 1 1 = .ok tinyBoard ∧
    runOps tinyBoard (.shoot ⟨0, 0⟩ :: List.replicate 2147483648 (.shoot ⟨0, 0⟩)) =
      .ok (.shot ⟨0, 0⟩ .srMISS :: List.replicate 2147483648 (.shot ⟨0, 0⟩ .srDUPLICATE),
        tinyWrapped) ∧
    shotCount .srDUPLICATE
        (.shot ⟨0, 0⟩ .srMISS :: List.replicate 2147483648 (.shot ⟨0, 0⟩ .srDUPLICATE)) =
      2147483648 ∧
    tinyWrapped.GetShotStats.duplicates = -2147483648 ∧
    step tinyFull (.shoot ⟨0, 0⟩) = .ok (.shot ⟨0, 0⟩ .srDUPLICATE, tinyWrapped) ∧
    tinyWrapped.GetShotStats.duplicates < tinyFull.GetShotStats.duplicates := by
  refine ⟨by decide, tinyWrapped_reached, ?_, by decide, by decide, by decide⟩
  rw [shotCount_cons, shotCount_replicate]
  rfl

/-! ## Dump -/

theorem shown_eq (showboats : Bool) (v : Int) :
    shown showboats v = if showboats = false ∧ 0 < v ∧ v < 100 then 0 else v := by
  unfold shown HIT_OFFSET
  cases showboats <;> simp

theorem printedValues_append (a b : List Printed) :
    printedValues (a ++ b) = printedValues a ++ printedValues b := by
  simp [printedValues, List.filterMap_append]

theorem length_flatMap_const {α β : Type} (f : α → List β) (m : Nat)
    (h : ∀ a, (f a).length = m) : ∀ l : List α, (l.flatMap f).length = l.length * m := by
  intro l
  induction l with
  | nil => simp
  | cons a l ih =>
    rw [List.flatMap_cons, List.length_append, ih, h a, List.length_cons]
    ring

theorem dumpRow_spec (o : Ocean) (hwf : o.WellFormed) (fw : Int) (sb : Bool) (y : Int)
    (hy : 0 ≤ y ∧ y < o.location.y) :
    ∀ (n : Nat) (x : Int), 0 ≤ x → (∀ j : Nat, j < n → x + j < o.location.x) →
      ∃ row : List Printed, dumpRow o fw sb y x n = .ok row ∧
        (printedValues row).map some =
          (List.range n).map fun (j : Nat) => (o.cell ⟨x + (j : Int), y⟩).map (shown sb) := by
  intro n
  induction n with
  | zero => intro x _ _; exact ⟨[], rfl, rfl⟩
  | succ n ih =>
    intro x hx0 hxn
    have hxw : x < o.location.x := by
      have := hxn 0 (Nat.succ_pos n); simpa using this
    obtain ⟨v, hv⟩ := cell_readable o hwf ⟨x, y⟩ ⟨hx0, hxw⟩ hy
    have hidx : y * o.location.x + x = o.flat ⟨x, y⟩ := by unfold Ocean.flat; ring
    obtain ⟨rest, hrest, hvals⟩ := ih (x + 1) (by omega) (by
      intro j hj
      have := hxn (j + 1) (by omega)
      push_cast at this; omega)
    refine ⟨.number fw (shown sb v) :: rest, ?_, ?_⟩
    · unfold dumpRow
      rw [hidx, load_of_peek _ hv, hrest]
    · have hcons : printedValues (.number fw (shown sb v) :: rest) =
          shown sb v :: printedValues rest := rfl
      rw [hcons, List.map_cons, hvals, List.range_succ_eq_map, List.map_cons, List.map_map]
      congr 1
      · rw [Nat.cast_zero, add_zero, hv]; rfl
      · apply List.map_congr_left
        intro j _
        simp only [Function.comp, Nat.succ_eq_add_one, Nat.cast_add, Nat.cast_one]
        have e : x + 1 + (j : Int) = x + ((j : Int) + 1) := by ring
        rw [e]

theorem dumpRows_spec (o : Ocean) (hwf : o.WellFormed) (fw : Int) (el sb : Bool) :
    ∀ (n : Nat) (y : Int), 0 ≤ y → (∀ i : Nat, i < n → y + i < o.location.y) →
      ∃ out : List Printed, dumpRows o fw el sb y n = .ok out ∧
        (printedValues out).map some =
          (List.range n).flatMap fun (i : Nat) =>
            (List.range o.location.x.toNat).map fun (x : Nat) =>
              (o.cell ⟨(x : Int), y + (i : Int)⟩).map (shown sb) := by
  intro n
  induction n with
  | zero => intro y _ _; exact ⟨[], rfl, rfl⟩
  | succ n ih =>
    intro y hy0 hyn
    have hyh : y < o.location.y := by
      have := hyn 0 (Nat.succ_pos n); simpa using this
    obtain ⟨row, hrow, hrv⟩ := dumpRow_spec o hwf fw sb y ⟨hy0, hyh⟩
      o.location.x.toNat 0 (le_refl 0) (by intro j hj; omega)
    obtain ⟨rest, hrest, hvals⟩ := ih (y + 1) (by omega) (by
      intro i hi
      have := hyn (i + 1) (by omega)
      push_cast at this; omega)
    refine ⟨row ++ (Printed.newline :: (if el then [Printed.newline] else [])) ++ rest, ?_, ?_⟩
    · unfold dumpRows
      rw [hrow, hrest]
    · have hnl : printedValues (Printed.newline :: (if el then [Printed.newline] else [])) = [] := by
        cases el <;> rfl
      rw [printedValues_append, printedValues_append, hnl, List.append_nil, List.map_append,
        hrv, hvals, List.range_succ_eq_map, List.flatMap_cons, List.flatMap_map]
      congr 1
      · apply List.map_congr_left
        intro j _
        simp
      · apply List.flatMap_congr
        intro i _
        apply List.map_congr_left
        intro x _
        simp only [Nat.succ_eq_add_one, Nat.cast_add, Nat.cast_one]
        have e : y + 1 + (i : Int) = y + ((i : Int) + 1) := by ring
        rw [e]

/-- C14. On a board whose grid has `width * height` cells `Dump` returns, and the
numbers it prints are, row after row (`y = 0 .. height - 1`) and within a row
column after column (`x = 0 .. width - 1`), one per cell: 0 for a cell holding
`v` with `0 < v < 100` when `showboats` is false, and `v` itself in every other
case.  So with `showboats = false` no printed number is positive and below
100, with `showboats = true` every cell value is printed as it is, and -1 and
values of at least 100 are shown as they are whatever `showboats` is. -/
theorem Dump_masking (o : Ocean) (hwf : o.WellFormed) (fw : Int) (el sb : Bool) :
    ∃ out : List Printed, o.Dump fw el sb = .ok out ∧
      (printedValues out).map some = o.dumpSpec sb ∧
      (printedValues out).length = o.location.y.toNat * o.location.x.toNat ∧
      (sb = false → ∀ n ∈ printedValues out, ¬ (0 < n ∧ n < 100)) ∧
      (sb = true → (printedValues out).map some =
        (List.range o.location.y.toNat).flatMap fun (y : Nat) =>
          (List.range o.location.x.toNat).map fun (x : Nat) => o.cell ⟨(x : Int), (y : Int)⟩) ∧
      (∀ v : Int, (v = -1 ∨ 100 ≤ v) → shown sb v = v) := by
  obtain ⟨out, hout, hvals⟩ := dumpRows_spec o hwf fw el sb o.location.y.toNat 0 (le_refl 0)
    (by intro i hi; omega)
  have hspec : (printedValues out).map some = o.dumpSpec sb := by
    rw [hvals]
    unfold Ocean.dumpSpec
    apply List.flatMap_congr
    intro y _
    apply List.map_congr_left
    intro x _
    rw [zero_add]
    congr 1
    funext v
    exact shown_eq sb v
  refine ⟨out, hout, hspec, ?_, ?_, ?_, ?_⟩
  · have := congrArg List.length hspec
    rw [List.length_map] at this
    rw [this]
    unfold Ocean.dumpSpec
    rw [length_flatMap_const _ o.location.x.toNat (by intro y; simp)]
    simp
  · intro hsb n hn
    have hmem : some n ∈ (printedValues out).map some := List.mem_map_of_mem some hn
    rw [hspec] at hmem
    unfold Ocean.dumpSpec at hmem
    simp only [List.mem_flatMap, List.mem_map, List.mem_range] at hmem
    obtain ⟨y, _, x, _, hx⟩ := hmem
    cases hc : o.cell ⟨(x : Int), (y : Int)⟩ with
    | none => rw [hc] at hx; cases hx
    | some v =>
      rw [hc] at hx
      simp only [Option.map_some', Option.some.injEq] at hx
      rw [← hx]
      by_cases hv : 0 < v ∧ v < 100
      · simp [hsb, hv]
      · simp [hsb, hv]
  · intro hsb
    rw [hspec]
    unfold Ocean.dumpSpec
    apply List.flatMap_congr
    intro y _
    apply List.map_congr_left
    intro x _
    cases hc : o.cell ⟨(x : Int), (y : Int)⟩ with
    | none => rfl
    | some v => simp [hsb]
  · intro v hv
    rw [shown_eq]
    split <;> omega

theorem Dump_masking_witness :
    (⟨[101, 1, 1, 1, 0, -1, 0, 0], [⟨1, 1, oHORIZONTAL, ⟨0, 0⟩⟩], ⟨4, 2⟩, ⟨1, 1, 0, 0⟩⟩ : Ocean).Dump
        4 false false =
      .ok [.number 4 101, .number 4 0, .number 4 0, .number 4 0, .newline,
        .number 4 0, .number 4 (-1), .number 4 0, .number 4 0, .newline] ∧
    (⟨[101, 1, 1, 1, 0, -1, 0, 0], [⟨1, 1, oHORIZONTAL, ⟨0, 0⟩⟩], ⟨4, 2⟩, ⟨1, 1, 0, 0⟩⟩ : Ocean).Dump
        4 true true =
      .ok [.number 4 101, .number 4 1, .number 4 1, .number 4 1, .newline, .newline,
        .number 4 0, .number 4 (-1), .number 4 0, .number 4 0, .newline, .newline] ∧
    ∃ out : List Printed,
      (⟨[101, 1, 1, 1, 0, -1, 0, 0], [⟨1, 1, oHORIZONTAL, ⟨0, 0⟩⟩], ⟨4, 2⟩, ⟨1, 1, 0, 0⟩⟩ :
        Ocean).Dump 4 false false = .ok out ∧
      (printedValues out).length = 2 * 4 := by
  refine ⟨by decide, by decide, ?_⟩
  obtain ⟨out, h⟩ := Dump_masking
    ⟨[101, 1, 1, 1, 0, -1, 0, 0], [⟨1, 1, oHORIZONTAL, ⟨0, 0⟩⟩], ⟨4, 2⟩, ⟨1, 1, 0, 0⟩⟩ (by decide)
    4 false false
  exact ⟨out, h.1, h.2.2.1⟩

/-! ## Identifier reuse -/

/-- C19. On the 10 x 10 board with one vessel slot, the horizontal vessels with
identifier 1 at `(0, 0)` and identifier 1 at `(0, 1)` are both Accepted, and the
shots `(0,0)`, `(1,0)`, `(0,1)`, `(1,1)` return Hit, Hit, Hit, Sunk: `sunk` is 0
after the third shot and 1 after the fourth, although afterwards each of the two
vessels has only two of its four cells hit (the cells `(2,0)`, `(3,0)`, `(2,1)`,
`(3,1)` still hold 1). -/
theorem identifier_reuse_breaks_sinking :
    Ocean.construct 1 10 10 = .ok ocean10 ∧
    (runOps ocean10
        [.place ⟨0, 1, oHORIZONTAL, ⟨0, 0⟩⟩, .place ⟨0, 1, oHORIZONTAL, ⟨0, 1⟩⟩,
          .shoot ⟨0, 0⟩, .shoot ⟨1, 0⟩, .shoot ⟨0, 1⟩]).map
        (fun r => (r.1, r.2.GetShotStats.sunk)) =
      .ok ([.placed ⟨0, 1, oHORIZONTAL, ⟨0, 0⟩⟩ .bpACCEPTED,
          .placed ⟨0, 1, oHORIZONTAL, ⟨0, 1⟩⟩ .bpACCEPTED,
          .shot ⟨0, 0⟩ .srHIT, .shot ⟨1, 0⟩ .srHIT, .shot ⟨0, 1⟩ .srHIT], 0) ∧
    runOps ocean10
        [.place ⟨0, 1, oHORIZONTAL, ⟨0, 0⟩⟩, .place ⟨0, 1, oHORIZONTAL, ⟨0, 1⟩⟩,
          .shoot ⟨0, 0⟩, .shoot ⟨1, 0⟩, .shoot ⟨0, 1⟩, .shoot ⟨1, 1⟩] =
      .ok ([.placed ⟨0, 1, oHORIZONTAL, ⟨0, 0⟩⟩ .bpACCEPTED,
          .placed ⟨0, 1, oHORIZONTAL, ⟨0, 1⟩⟩ .bpACCEPTED,
          .shot ⟨0, 0⟩ .srHIT, .shot ⟨1, 0⟩ .srHIT, .shot ⟨0, 1⟩ .srHIT, .shot ⟨1, 1⟩ .srSUNK],
        reuseBoard) ∧
    reuseBoard.GetShotStats.sunk = 1 ∧
    (reuseBoard.hitCount ⟨0, 1, oHORIZONTAL, ⟨0, 0⟩⟩ = 2 ∧
      reuseBoard.fullyHit ⟨0, 1, oHORIZONTAL, ⟨0, 0⟩⟩ = false ∧
      reuseBoard.cell ⟨2, 0⟩ = some 1 ∧ reuseBoard.cell ⟨3, 0⟩ = some 1) ∧
    (reuseBoard.hitCount ⟨0, 1, oHORIZONTAL, ⟨0, 1⟩⟩ = 2 ∧
      reuseBoard.fullyHit ⟨0, 1, oHORIZONTAL, ⟨0, 1⟩⟩ = false ∧
      reuseBoard.cell ⟨2, 1⟩ = some 1 ∧ reuseBoard.cell ⟨3, 1⟩ = some 1) := by
  refine ⟨by decide, by decide, by decide, by decide, by decide, by decide⟩

/-! ## Counting grid values -/

theorem peek_cons_zero {α : Type} (a : α) (l : List α) : peek (a :: l) 0 = some a := by
  simp [peek]

theorem peek_cons_succ {α : Type} (a : α) (l : List α) (k : Int) (hk : 0 ≤ k) :
    peek (a :: l) (k + 1) = peek l k := by
  have h1 : (0 : Int) ≤ k + 1 := by omega
  have h2 : (k + 1).toNat = k.toNat + 1 := by omega
  simp [peek, hk, h1, h2]

/-- Two grids of the same length whose values agree on `p` slot by slot have the
same number of values satisfying `p`. -/
theorem countP_eq_of_peek (p : Int → Bool) :
    ∀ l l' : List Int, l.length = l'.length →
      (∀ (k : Int) (u u' : Int), peek l k = some u → peek l' k = some u' → p u = p u') →
      l.countP p = l'.countP p := by
  intro l
  induction l with
  | nil =>
    intro l' hlen _
    cases l' with
    | nil => rfl
    | cons _ _ => simp at hlen
  | cons a l ih =>
    intro l' hlen h
    cases l' with
    | nil => simp at hlen
    | cons a' l' =>
      have ha : p a = p a' := h 0 a a' (peek_cons_zero a l) (peek_cons_zero a' l')
      have hrest := ih l' (by simpa using hlen) (by
        intro k u u' hu hu'
        have hk := (peek_some_bounds hu).1
        exact h (k + 1) u u' (by rw [peek_cons_succ _ _ _ hk]; exact hu)
          (by rw [peek_cons_succ _ _ _ hk]; exact hu'))
      rw [List.countP_cons, List.countP_cons, ha, hrest]

/-- Writing `w` over a slot that held `u` changes the number of values satisfying
`p` by what `w` adds and `u` removes. -/
theorem countP_set_peek (p : Int → Bool) :
    ∀ (l : List Int) (k : Int) (u w : Int), peek l k = some u →
      (l.set k.toNat w).countP p + (if p u = true then 1 else 0) =
        l.countP p + (if p w = true then 1 else 0) := by
  intro l
  induction l with
  | nil =>
    intro k u w h
    have := peek_some_bounds h
    simp at this
  | cons a l ih =>
    intro k u w h
    have hk := (peek_some_bounds h).1
    by_cases hk0 : k = 0
    · subst hk0
      rw [peek_cons_zero] at h
      simp only [Option.some.injEq] at h
      subst h
      simp only [Int.toNat_zero, List.set_cons_zero, List.countP_cons]
      omega
    · have hk1 : 0 ≤ k - 1 := by omega
      have hks : k = (k - 1) + 1 := by ring
      rw [hks, peek_cons_succ _ _ _ hk1] at h
      have hnat : k.toNat = (k - 1).toNat + 1 := by omega
      have := ih (k - 1) u w h
      rw [hnat, List.set_cons_succ, List.countP_cons, List.countP_cons]
      omega

/-! ## Counters and grid -/

theorem step_event_op (o o' : Ocean) (op : Op) (e : Event) (h : step o op = .ok (e, o')) :
    e.op = op := by
  cases op with
  | place boat =>
    obtain ⟨r, _, he⟩ := step_place_inv o o' boat e h
    rw [he]; rfl
  | shoot c =>
    obtain ⟨r, _, he⟩ := step_shoot_inv o o' c e h
    rw [he]; rfl

/-- The log of a returning run lists the calls that were made, in order. -/
theorem runOps_log_ops :
    ∀ (ops : List Op) (o o' : Ocean) (log : List Event),
      runOps o ops = .ok (log, o') → log.map Event.op = ops := by
  intro ops
  induction ops with
  | nil =>
    intro o o' log h
    simp only [runOps, Except.ok.injEq, Prod.mk.injEq] at h
    rw [← h.1]; rfl
  | cons op ops ih =>
    intro o o' log h
    obtain ⟨e, o1, es, h1, h2, heq⟩ := runOps_cons_inv o o' op ops log h
    rw [heq, List.map_cons, step_event_op o o1 op e h1, ih o1 o' es h2]

theorem construct_tallied (N w h : Int) (o0 : Ocean)
    (hc : Ocean.construct N w h = .ok o0) : Tallied o0 := by
  obtain ⟨_, heq⟩ := construct_fields N w h o0 hc
  subst heq
  refine ⟨?_, ?_, ?_⟩
  · show (0 : Int) = ((List.replicate (w * h).toNat (0 : Int)).countP _ : Nat)
    rw [List.countP_eq_zero.2 (by intro a ha; rw [(List.mem_replicate.1 ha).2]; decide)]
    rfl
  · show (0 : Int) = ((List.replicate (w * h).toNat (0 : Int)).countP _ : Nat)
    rw [List.countP_eq_zero.2 (by intro a ha; rw [(List.mem_replicate.1 ha).2]; decide)]
    rfl
  · intro k v hk
    have := peek_mem hk
    simp only [List.mem_replicate] at this
    exact Or.inl this.2

theorem step_tallied (o o' : Ocean) (op : Op) (e : Event) (ht : Tallied o)
    (hid : ∀ b : Boat, op = .place b → 1 ≤ b.ID ∧ b.ID ≤ 99)
    (h : step o op = .ok (e, o')) : Tallied o' := by
  obtain ⟨hm, hh, hv⟩ := ht
  cases op with
  | place boat =>
    obtain ⟨r, hp, _⟩ := step_place_inv o o' boat e h
    have hb := hid boat rfl
    rcases PlaceBoat_result o o' boat r hp with ⟨_, heq, _⟩ |
      ⟨_, _, hclear, _, g', ⟨hlen, hin, hout⟩, heq⟩
    · subst heq; exact ⟨hm, hh, hv⟩
    · subst heq
      have hsame : ∀ p : Int → Bool, p 0 = p boat.ID → o.grid.countP p = g'.countP p := by
        intro p hp0
        apply countP_eq_of_peek p o.grid g' hlen.symm
        intro k u u' hu hu'
        by_cases hex : ∃ j : Nat, j < 4 ∧ k = o.flat (boat.spanCell j)
        · obtain ⟨j, hj, hkj⟩ := hex
          have h0 := hclear ⟨j, hj⟩
          unfold Ocean.cell at h0
          simp only at h0
          rw [hkj, h0] at hu
          rw [hkj, hin j hj] at hu'
          simp only [Option.some.injEq] at hu hu'
          rw [← hu, ← hu']; exact hp0
        · rw [hout k (fun j hj hkj => hex ⟨j, hj, hkj⟩), hu] at hu'
          simp only [Option.some.injEq] at hu'
          rw [hu']
      refine ⟨?_, ?_, ?_⟩
      · show o.stats.misses = ((g'.countP _ : Nat) : Int)
        rw [← hsame _ (by
          have : ¬ boat.ID = -1 := by omega
          simp [this])]
        exact hm
      · show o.stats.hits = ((g'.countP _ : Nat) : Int)
        rw [← hsame _ (by
          have : ¬ 101 ≤ boat.ID := by omega
          simp [this])]
        exact hh
      · intro k v hk
        have hk' : peek g' k = some v := hk
        by_cases hex : ∃ j : Nat, j < 4 ∧ k = o.flat (boat.spanCell j)
        · obtain ⟨j, hj, hkj⟩ := hex
          rw [hkj, hin j hj] at hk'
          simp only [Option.some.injEq] at hk'
          right; right; left
          omega
        · rw [hout k (fun j hj hkj => hex ⟨j, hj, hkj⟩)] at hk'
          exact hv k v hk'
  | shoot c =>
    obtain ⟨r, hs, _⟩ := step_shoot_inv o o' c e h
    rcases TakeShot_cases o o' c r hs with ⟨_, _, heq⟩ | ⟨_, hcell, _, heq⟩ |
      ⟨_, u, bt, hcell, hu, _, _, heq⟩ | ⟨_, u, _, _, _, _, heq⟩
    · subst heq; exact ⟨hm, hh, hv⟩
    · subst heq
      have c1 := countP_set_peek (fun v => decide (v = -1)) o.grid (o.flat c) 0 dtBLOWNUP hcell
      have c2 := countP_set_peek (fun v => decide (101 ≤ v)) o.grid (o.flat c) 0 dtBLOWNUP hcell
      simp only [dtBLOWNUP] at c1 c2
      refine ⟨?_, ?_, ?_⟩
      · show o.stats.misses + 1 = ((List.countP _ (o.grid.set (o.flat c).toNat dtBLOWNUP) : Nat) : Int)
        simp only [dtBLOWNUP]
        simp at c1
        omega
      · show o.stats.hits = ((List.countP _ (o.grid.set (o.flat c).toNat dtBLOWNUP) : Nat) : Int)
        simp only [dtBLOWNUP]
        simp at c2
        omega
      · intro k v hk
        have hk' : peek (o.grid.set (o.flat c).toNat dtBLOWNUP) k = some v := hk
        by_cases hkc : k = o.flat c
        · rw [hkc, peek_set_self _ hcell] at hk'
          simp only [Option.some.injEq, dtBLOWNUP] at hk'
          exact Or.inr (Or.inl hk'.symm)
        · rw [peek_set_other _ _ (peek_some_bounds hcell).1 hkc] at hk'
          exact hv k v hk'
    · subst heq
      have hu' := hv _ u hcell
      unfold HIT_OFFSET at hu
      have hu99 : 1 ≤ u ∧ u ≤ 99 := by omega
      have c1 := countP_set_peek (fun v => decide (v = -1)) o.grid (o.flat c) u (u + 100) hcell
      have c2 := countP_set_peek (fun v => decide (101 ≤ v)) o.grid (o.flat c) u (u + 100) hcell
      have e1 : ¬ u = -1 := by omega
      have e2 : ¬ u + 100 = -1 := by omega
      have e3 : ¬ 101 ≤ u := by omega
      have e4 : 101 ≤ u + 100 := by omega
      simp only [e1, e2, e3, e4, decide_True, decide_False, if_true, if_false, add_zero,
        Bool.false_eq_true] at c1 c2
      refine ⟨?_, ?_, ?_⟩
      · show (hitState o c u bt).stats.misses =
          ((List.countP _ (o.grid.set (o.flat c).toNat (u + HIT_OFFSET)) : Nat) : Int)
        have : (hitState o c u bt).stats.misses = o.stats.misses := by
          simp only [hitState]; split <;> rfl
        rw [this]
        unfold HIT_OFFSET
        rw [c1]; exact hm
      · show (hitState o c u bt).stats.hits =
          ((List.countP _ (o.grid.set (o.flat c).toNat (u + HIT_OFFSET)) : Nat) : Int)
        have : (hitState o c u bt).stats.hits = o.stats.hits + 1 := by
          simp only [hitState]; split <;> rfl
        rw [this]
        unfold HIT_OFFSET
        rw [c2]; push_cast; omega
      · intro k v hk
        have hk' : peek (o.grid.set (o.flat c).toNat (u + 100)) k = some v := hk
        by_cases hkc : k = o.flat c
        · rw [hkc, peek_set_self _ hcell] at hk'
          simp only [Option.some.injEq] at hk'
          right; right; right
          omega
        · rw [peek_set_other _ _ (peek_some_bounds hcell).1 hkc] at hk'
          exact hv k v hk'
    · subst heq; exact ⟨hm, hh, hv⟩

/-- C18. In every state reached from a freshly constructed board by a returning
sequence of `TakeShot` calls and `PlaceBoat` calls whose vessels have
identifiers in `[1, 99]`, `misses` is the number of grid cells holding -1 and
`hits` is the number of grid cells holding a value of at least 101. -/
theorem counters_match_grid (N w h : Int) (o0 o : Ocean) (ops : List Op) (log : List Event)
    (hc : Ocean.construct N w h = .ok o0) (hrun : runOps o0 ops = .ok (log, o))
    (hids : ∀ b : Boat, Op.place b ∈ ops → 1 ≤ b.ID ∧ b.ID ≤ 99) :
    o.GetShotStats.misses = (o.GetGrid.countP (fun v => decide (v = -1)) : Nat) ∧
    o.GetShotStats.hits = (o.GetGrid.countP (fun v => decide (101 ≤ v)) : Nat) := by
  have hlog := runOps_log_ops ops o0 o log hrun
  have hinv := runOps_invariant
    (fun l s => (∀ ev ∈ l, ∀ b : Boat, ev.op = .place b → 1 ≤ b.ID ∧ b.ID ≤ 99) → Tallied s)
    (by
      intro l s s' op e hinv hs hall
      have ht := hinv (fun ev hev => hall ev (List.mem_append_left _ hev))
      apply step_tallied s s' op e ht _ hs
      intro b hb
      apply hall e (List.mem_append_right _ (List.mem_singleton_self e)) b
      rw [step_event_op s s' op e hs, hb])
    ops [] o0 o log (fun _ => construct_tallied N w h o0 hc) hrun
  have ht : Tallied o := by
    apply hinv
    intro ev hev b hb
    apply hids b
    rw [← hlog, ← hb]
    exact List.mem_map_of_mem Event.op (by simpa using hev)
  exact ⟨ht.misses, ht.hits⟩

theorem counters_match_grid_witness :
    ∃ (log : List Event) (o : Ocean),
      runOps emptyBoard
        [.place ⟨0, 1, oHORIZONTAL, ⟨0, 0⟩⟩, .shoot ⟨1, 0⟩, .shoot ⟨1, 1⟩, .shoot ⟨9, 9⟩,
          .shoot ⟨1, 0⟩, .shoot ⟨0, 1⟩] = .ok (log, o) ∧
      o.GetGrid = [1, 101, 1, 1, -1, -1, 0, 0] ∧
      o.GetShotStats.misses = 2 ∧ o.GetShotStats.hits = 1 ∧
      o.GetShotStats.misses = (o.GetGrid.countP (fun v => decide (v = -1)) : Nat) ∧
      o.GetShotStats.hits = (o.GetGrid.countP (fun v => decide (101 ≤ v)) : Nat) := by
  have hrun : runOps emptyBoard
      [.place ⟨0, 1, oHORIZONTAL, ⟨0, 0⟩⟩, .shoot ⟨1, 0⟩, .shoot ⟨1, 1⟩, .shoot ⟨9, 9⟩,
        .shoot ⟨1, 0⟩, .shoot ⟨0, 1⟩] =
      .ok ([.placed ⟨0, 1, oHORIZONTAL, ⟨0, 0⟩⟩ .bpACCEPTED, .shot ⟨1, 0⟩ .srHIT,
          .shot ⟨1, 1⟩ .srMISS, .shot ⟨9, 9⟩ .srILLEGAL, .shot ⟨1, 0⟩ .srDUPLICATE,
          .shot ⟨0, 1⟩ .srMISS],
        ⟨[1, 101, 1, 1, -1, -1, 0, 0], [⟨1, 1, oHORIZONTAL, ⟨0, 0⟩⟩], ⟨4, 2⟩,
          ⟨1, 2, 1, 0⟩⟩) := by decide
  have h := counters_match_grid 1 4 2 emptyBoard _ _ _ (by decide) hrun
    (by
      intro b hb
      simp only [List.mem_cons, Op.place.injEq, reduceCtorEq, false_or, or_false,
        List.not_mem_nil] at hb
      subst hb
      decide)
  exact ⟨_, _, hrun, by decide, by decide, by decide, h.1, h.2⟩

/-! ## Bookkeeping of accepted vessels -/

/-- Changing a predicate at one element of a duplicate-free list, from false,
changes the count by what the new value adds there. -/
theorem countP_flip {α : Type} [DecidableEq α] (p q : α → Bool) (a0 : α) :
    ∀ l : List α, l.Nodup → a0 ∈ l → (∀ a ∈ l, a ≠ a0 → q a = p a) → p a0 = false →
      l.countP q = l.countP p + (if q a0 = true then 1 else 0) := by
  intro l
  induction l with
  | nil => intro _ hmem; cases hmem
  | cons x xs ih =>
    intro hnd hmem hsame hp
    obtain ⟨hx, hxs⟩ := List.nodup_cons.1 hnd
    rw [List.countP_cons, List.countP_cons]
    by_cases hxa : x = a0
    · subst hxa
      have hrest : xs.countP q = xs.countP p := by
        apply List.countP_congr
        intro a ha
        have hne : a ≠ x := by intro h; rw [h] at ha; exact hx ha
        rw [hsame a (List.mem_cons_of_mem _ ha) hne]
      rw [hrest, hp]
      simp
    · have hin : a0 ∈ xs := by
        rcases List.mem_cons.1 hmem with h | h
        · exact absurd h.symm hxa
        · exact h
      have := ih hxs hin (fun a ha hne => hsame a (List.mem_cons_of_mem _ ha) hne) hp
      rw [this, hsame x (List.mem_cons_self _ _) hxa]
      omega

theorem hitCount_congr (o o' : Ocean) (b : Boat)
    (h : ∀ i : Nat, i < 4 → o'.cell (b.spanCell (i : Int)) = o.cell (b.spanCell (i : Int))) :
    o'.hitCount b = o.hitCount b ∧ o'.fullyHit b = o.fullyHit b := by
  have hc : o'.hitCount b = o.hitCount b := by
    unfold Ocean.hitCount
    apply List.countP_congr
    intro i hi
    rw [h i (List.mem_range.1 hi)]
  exact ⟨hc, by unfold Ocean.fullyHit; rw [hc]⟩

theorem hitCount_le (o : Ocean) (b : Boat) : o.hitCount b ≤ 4 := by
  unfold Ocean.hitCount
  have := @List.countP_le_length _
    (fun (i : Nat) => decide (o.cell (b.spanCell (i : Int)) = some (b.ID + 100))) (List.range 4)
  simpa using this

theorem hitCount_zero (o : Ocean) (b : Boat)
    (h : ∀ i : Nat, i < 4 → o.cell (b.spanCell (i : Int)) = some b.ID) : o.hitCount b = 0 := by
  unfold Ocean.hitCount
  rw [List.countP_eq_zero]
  intro i hi
  rw [h i (List.mem_range.1 hi)]
  simp

/-- One more cell of the span hit, the others as before: the count goes up by one. -/
theorem hitCount_flip (o o' : Ocean) (b : Boat) (i0 : Nat) (hi0 : i0 < 4)
    (hother : ∀ i : Nat, i < 4 → i ≠ i0 →
      o'.cell (b.spanCell (i : Int)) = o.cell (b.spanCell (i : Int)))
    (hold : o.cell (b.spanCell (i0 : Int)) = some b.ID)
    (hnew : o'.cell (b.spanCell (i0 : Int)) = some (b.ID + 100)) :
    o'.hitCount b = o.hitCount b + 1 := by
  unfold Ocean.hitCount
  have := countP_flip
    (fun (i : Nat) => decide (o.cell (b.spanCell (i : Int)) = some (b.ID + 100)))
    (fun (i : Nat) => decide (o'.cell (b.spanCell (i : Int)) = some (b.ID + 100)))
    i0 (List.range 4) (List.nodup_range 4) (List.mem_range.2 hi0)
    (by
      intro i hi hne
      simp only
      rw [hother i (List.mem_range.1 hi) hne])
    (by simp [hold])
  rw [this]
  simp [hnew]

/-- The span cells of an accepted vessel hold a value that is neither 0 nor -1. -/
theorem tracked_cell_value (acc : List Boat) (o : Ocean) (ht : Tracked acc o) (b : Boat)
    (hb : b ∈ acc) (i : Nat) (hi : i < 4) :
    ∃ v : Int, peek o.grid (o.flat (b.spanCell (i : Int))) = some v ∧
      (v = b.ID ∨ v = b.ID + 100) ∧ 1 ≤ b.ID ∧ b.ID ≤ 99 := by
  have hid := ht.ids b hb
  have hcap := ht.cap
  rcases ht.cells b hb i hi with h | h
  · exact ⟨_, h, Or.inl rfl, by omega, by omega⟩
  · exact ⟨_, h, Or.inr rfl, by omega, by omega⟩

theorem tracked_same (acc : List Boat) (o : Ocean) (st : ShotStats) (ht : Tracked acc o)
    (hs : st.sunk = o.stats.sunk) : Tracked acc { o with stats := st } :=
  ⟨ht.cap, ht.fits, ht.ids, ht.cells, ht.owner, ht.slots, hs.trans ht.sunk⟩

theorem tracked_miss (acc : List Boat) (o : Ocean) (c : Point) (ht : Tracked acc o)
    (hcell : peek o.grid (o.flat c) = some 0) : Tracked acc (missState o c) := by
  have hcb := peek_some_bounds hcell
  have hcells : ∀ b ∈ acc, ∀ i : Nat, i < 4 →
      (missState o c).cell (b.spanCell (i : Int)) = o.cell (b.spanCell (i : Int)) := by
    intro b hb i hi
    obtain ⟨v, hv, hvv, hid⟩ := tracked_cell_value acc o ht b hb i hi
    have hne : o.flat (b.spanCell (i : Int)) ≠ o.flat c := by
      intro he
      rw [he, hcell] at hv
      simp only [Option.some.injEq] at hv
      omega
    exact peek_set_other _ _ hcb.1 hne
  refine ⟨ht.cap, ht.fits, ht.ids, ?_, ?_, ?_, ?_⟩
  · intro b hb i hi
    rw [hcells b hb i hi]
    exact ht.cells b hb i hi
  · intro k v hk
    have hk' : peek (o.grid.set (o.flat c).toNat dtBLOWNUP) k = some v := hk
    by_cases hkc : k = o.flat c
    · rw [hkc, peek_set_self _ hcell] at hk'
      simp only [Option.some.injEq, dtBLOWNUP] at hk'
      exact Or.inr (Or.inl hk'.symm)
    · rw [peek_set_other _ _ hcb.1 hkc] at hk'
      exact ht.owner k v hk'
  · intro b hb
    rw [(hitCount_congr o (missState o c) b (hcells b hb)).1]
    exact ht.slots b hb
  · have : acc.countP (missState o c).fullyHit = acc.countP o.fullyHit := by
      apply List.countP_congr
      intro b hb
      rw [(hitCount_congr o (missState o c) b (hcells b hb)).2]
    rw [this]
    exact ht.sunk

/-- An unhit vessel value in the grid belongs to an accepted vessel: the slot is a
cell of its span, the value is its identifier, and its record sits in the slot
that `TakeShot` reads. -/
theorem tracked_owner (acc : List Boat) (o : Ocean) (ht : Tracked acc o) (k : Int) (u : Int)
    (hk : peek o.grid k = some u) (hu : 0 < u ∧ u < 100) :
    ∃ b0 ∈ acc, ∃ i0 : Nat, i0 < 4 ∧ k = o.flat (b0.spanCell (i0 : Int)) ∧ u = b0.ID ∧
      o.cell (b0.spanCell (i0 : Int)) = some b0.ID ∧
      peek o.boats (u - 1) = some { b0 with hits := (o.hitCount b0 : Int) } := by
  rcases ht.owner k u hk with h | h | ⟨b0, hb0, i0, hi0, hki⟩
  · omega
  · omega
  · obtain ⟨v, hv, hvv, hid⟩ := tracked_cell_value acc o ht b0 hb0 i0 hi0
    rw [← hki, hk] at hv
    simp only [Option.some.injEq] at hv
    have hub : u = b0.ID := by omega
    refine ⟨b0, hb0, i0, hi0, hki, hub, ?_, ?_⟩
    · unfold Ocean.cell
      rw [← hki, hk, hub]
    · rw [hub]; exact ht.slots b0 hb0

theorem tracked_hit (acc : List Boat) (o : Ocean) (c : Point) (u : Int) (bt : Boat)
    (ht : Tracked acc o) (hnd : (acc.map Boat.ID).Nodup)
    (hcell : peek o.grid (o.flat c) = some u) (hu : 0 < u ∧ u < HIT_OFFSET)
    (hslot : peek o.boats (u - 1) = some bt) : Tracked acc (hitState o c u bt) := by
  have hu' : 0 < u ∧ u < 100 := by unfold HIT_OFFSET at hu; exact hu
  obtain ⟨b0, hb0, i0, hi0, hki, hub, hold, hrec⟩ := tracked_owner acc o ht _ u hcell hu'
  have hcb := peek_some_bounds hcell
  have hsb := peek_some_bounds hslot
  have hbt : bt = { b0 with hits := (o.hitCount b0 : Int) } := by
    rw [hslot] at hrec
    simp only [Option.some.injEq] at hrec
    exact hrec
  have hinj : ∀ b ∈ acc, b.ID = b0.ID → b = b0 := fun b hb h =>
    List.inj_on_of_nodup_map hnd hb hb0 h
  have hother : ∀ b ∈ acc, ∀ i : Nat, i < 4 → ¬ (b = b0 ∧ i = i0) →
      (hitState o c u bt).cell (b.spanCell (i : Int)) = o.cell (b.spanCell (i : Int)) := by
    intro b hb i hi hnot
    have hne : o.flat (b.spanCell (i : Int)) ≠ o.flat c := by
      intro he
      obtain ⟨v, hv, hvv, hid⟩ := tracked_cell_value acc o ht b hb i hi
      rw [he, hcell] at hv
      simp only [Option.some.injEq] at hv
      obtain ⟨_, _, _, hid0⟩ := tracked_cell_value acc o ht b0 hb0 i0 hi0
      have hbb : b = b0 := hinj b hb (by omega)
      subst hbb
      have hii : i ≠ i0 := fun h => hnot ⟨rfl, h⟩
      exact flat_spanCell_ne o b (ht.fits b hb) i i0 (by omega) (by omega)
        (by intro h; apply hii; omega) (he.trans hki)
    exact peek_set_other _ _ hcb.1 hne
  have hnew : (hitState o c u bt).cell (b0.spanCell (i0 : Int)) = some (b0.ID + 100) := by
    show peek (o.grid.set (o.flat c).toNat (u + HIT_OFFSET)) (o.flat (b0.spanCell (i0 : Int))) = _
    rw [← hki, peek_set_self _ hcell, hub]
    rfl
  have hcount0 : (hitState o c u bt).hitCount b0 = o.hitCount b0 + 1 :=
    hitCount_flip o _ b0 i0 hi0 (fun i hi hne => hother b0 hb0 i hi (fun h => hne h.2)) hold hnew
  have hle := hitCount_le (hitState o c u bt) b0
  have hcong : ∀ b ∈ acc, b ≠ b0 →
      (hitState o c u bt).hitCount b = o.hitCount b ∧
      (hitState o c u bt).fullyHit b = o.fullyHit b := fun b hb hne =>
    hitCount_congr o _ b (fun i hi => hother b hb i hi (fun h => hne h.1))
  refine ⟨?_, ht.fits, ?_, ?_, ?_, ?_, ?_⟩
  · show (o.boats.set _ _).length ≤ 99
    rw [List.length_set]; exact ht.cap
  · intro b hb
    show 1 ≤ b.ID ∧ b.ID ≤ ((o.boats.set _ _).length : Int)
    rw [List.length_set]; exact ht.ids b hb
  · intro b hb i hi
    by_cases hbi : b = b0 ∧ i = i0
    · obtain ⟨h1, h2⟩ := hbi
      subst h1; subst h2
      exact Or.inr hnew
    · rw [hother b hb i hi hbi]
      exact ht.cells b hb i hi
  · intro k v hk
    have hk' : peek (o.grid.set (o.flat c).toNat (u + HIT_OFFSET)) k = some v := hk
    by_cases hkc : k = o.flat c
    · exact Or.inr (Or.inr ⟨b0, hb0, i0, hi0, hkc.trans hki⟩)
    · rw [peek_set_other _ _ hcb.1 hkc] at hk'
      exact ht.owner k v hk'
  · intro b hb
    show peek (o.boats.set (u - 1).toNat { bt with hits := bt.hits + 1 }) (b.ID - 1) = _
    by_cases hbb : b = b0
    · subst hbb
      have hidx : b.ID - 1 = u - 1 := by omega
      rw [hidx, peek_set_self _ hslot, hcount0, hbt]
      simp
    · have hidne : b.ID ≠ b0.ID := fun h => hbb (hinj b hb h)
      rw [peek_set_other _ _ hsb.1 (by omega), (hcong b hb hbb).1]
      exact ht.slots b hb
  · have hflip := countP_flip o.fullyHit (hitState o c u bt).fullyHit b0 acc
      (List.Nodup.of_map Boat.ID hnd) hb0 (fun b hb hne => (hcong b hb hne).2)
      (by unfold Ocean.fullyHit; simp; omega)
    have hs := ht.sunk
    have hbh : bt.hits = (o.hitCount b0 : Int) := by rw [hbt]
    have hf0 : (hitState o c u bt).fullyHit b0 = decide (o.hitCount b0 + 1 = 4) := by
      unfold Ocean.fullyHit; rw [hcount0]
    have hsunk : (hitState o c u bt).stats.sunk =
        o.stats.sunk + (if bt.hits + 1 ≥ 4 then 1 else 0) := by
      simp only [hitState, BOAT_LENGTH]; split <;> simp
    rw [hflip, hsunk, hf0, hs]
    by_cases h4 : o.hitCount b0 + 1 = 4
    · have : bt.hits + 1 ≥ 4 := by omega
      simp [this, h4]
    · have : ¬ bt.hits + 1 ≥ 4 := by omega
      simp [this, h4]

theorem tracked_place (acc : List Boat) (o : Ocean) (bn : Boat) (g' : List Int)
    (ht : Tracked acc o) (hfresh : bn.ID ∉ acc.map Boat.ID) (hfits : o.spanFits bn)
    (hclear : o.spanClear bn) (hid : 1 ≤ bn.ID ∧ bn.ID ≤ o.boats.length)
    (hfill : o.Filled bn g') : Tracked (acc ++ [bn]) (placedState o bn g') := by
  obtain ⟨hlen, hin, hout⟩ := hfill
  have h0 : 0 ≤ bn.ID - 1 := by omega
  have h1 : (bn.ID - 1).toNat < o.boats.length := by omega
  have hold : ∀ b ∈ acc, ∀ i : Nat, i < 4 →
      (placedState o bn g').cell (b.spanCell (i : Int)) = o.cell (b.spanCell (i : Int)) := by
    intro b hb i hi
    show peek g' (o.flat (b.spanCell (i : Int))) = peek o.grid (o.flat (b.spanCell (i : Int)))
    apply hout
    intro j hj he
    obtain ⟨v, hv, hvv, hidb⟩ := tracked_cell_value acc o ht b hb i hi
    have hz := hclear ⟨j, hj⟩
    unfold Ocean.cell at hz
    simp only at hz
    rw [he, hz] at hv
    simp only [Option.some.injEq] at hv
    omega
  have hnewc : ∀ j : Nat, j < 4 →
      (placedState o bn g').cell (bn.spanCell (j : Int)) = some bn.ID := fun j hj => hin j hj
  have hcount : (placedState o bn g').hitCount bn = 0 := hitCount_zero _ bn hnewc
  have hmem : ∀ b, b ∈ acc ++ [bn] → b ∈ acc ∨ b = bn := by
    intro b hb
    rcases List.mem_append.1 hb with h | h
    · exact Or.inl h
    · exact Or.inr (List.mem_singleton.1 h)
  refine ⟨?_, ?_, ?_, ?_, ?_, ?_, ?_⟩
  · show (o.boats.set _ _).length ≤ 99
    rw [List.length_set]; exact ht.cap
  · intro b hb
    rcases hmem b hb with h | h
    · exact ht.fits b h
    · rw [h]; exact hfits
  · intro b hb
    show 1 ≤ b.ID ∧ b.ID ≤ ((o.boats.set _ _).length : Int)
    rw [List.length_set]
    rcases hmem b hb with h | h
    · exact ht.ids b h
    · rw [h]; exact hid
  · intro b hb i hi
    rcases hmem b hb with h | h
    · rw [hold b h i hi]; exact ht.cells b h i hi
    · rw [h]; exact Or.inl (hnewc i hi)
  · intro k v hk
    have hk' : peek g' k = some v := hk
    by_cases hex : ∃ j : Nat, j < 4 ∧ k = o.flat (bn.spanCell (j : Int))
    · obtain ⟨j, hj, hkj⟩ := hex
      exact Or.inr (Or.inr ⟨bn, List.mem_append_right _ (List.mem_singleton_self bn), j, hj, hkj⟩)
    · rw [hout k (fun j hj hkj => hex ⟨j, hj, hkj⟩)] at hk'
      rcases ht.owner k v hk' with h | h | ⟨b, hb, i, hi, hki⟩
      · exact Or.inl h
      · exact Or.inr (Or.inl h)
      · exact Or.inr (Or.inr ⟨b, List.mem_append_left _ hb, i, hi, hki⟩)
  · intro b hb
    show peek (o.boats.set (bn.ID - 1).toNat { bn with hits := 0 }) (b.ID - 1) = _
    rcases hmem b hb with h | h
    · have hne : b.ID ≠ bn.ID := by
        intro he
        exact hfresh (he ▸ List.mem_map_of_mem Boat.ID h)
      rw [peek_set_other _ _ h0 (by omega), (hitCount_congr o _ b (hold b h)).1]
      exact ht.slots b h
    · rw [h, hcount]
      obtain ⟨old, hpk⟩ := peek_of_bounds o.boats (bn.ID - 1) h0 h1
      rw [peek_set_self _ hpk]
      simp
  · show o.stats.sunk = _
    rw [List.countP_append]
    have hacc : acc.countP (placedState o bn g').fullyHit = acc.countP o.fullyHit := by
      apply List.countP_congr
      intro b hb
      rw [(hitCount_congr o _ b (hold b hb)).2]
    have hbn : [bn].countP (placedState o bn g').fullyHit = 0 := by
      rw [List.countP_eq_zero]
      intro b hb
      rw [List.mem_singleton.1 hb]
      unfold Ocean.fullyHit
      rw [hcount]
      simp
    rw [hacc, hbn, Nat.add_zero]
    exact ht.sunk

theorem construct_tracked (N w h : Int) (o0 : Ocean) (hc : Ocean.construct N w h = .ok o0)
    (hN : N ≤ 99) : Tracked [] o0 := by
  obtain ⟨⟨_, hN0⟩, heq⟩ := construct_fields N w h o0 hc
  subst heq
  refine ⟨?_, ?_, ?_, ?_, ?_, ?_, ?_⟩
  · show (List.replicate N.toNat Boat.zero).length ≤ 99
    rw [List.length_replicate]; omega
  · intro b hb; cases hb
  · intro b hb; cases hb
  · intro b hb; cases hb
  · intro k v hk
    have := peek_mem hk
    simp only [List.mem_replicate] at this
    exact Or.inl this.2
  · intro b hb; cases hb
  · rfl

theorem accepted_snoc (log : List Event) (e : Event) :
    accepted (log ++ [e]) = accepted log ++ (match e.accepted? with | some b => [b] | none => []) := by
  unfold accepted
  rw [List.filterMap_append]
  congr 1
  cases h : e.accepted? <;> simp [List.filterMap_cons, h]

/-- One returning call keeps the bookkeeping, as long as the identifiers of the
accepted vessels stay pairwise distinct. -/
theorem step_tracked (log : List Event) (o o' : Ocean) (op : Op) (e : Event)
    (hinv : ((accepted log).map Boat.ID).Nodup → Tracked (accepted log) o)
    (h : step o op = .ok (e, o'))
    (hnd : ((accepted (log ++ [e])).map Boat.ID).Nodup) : Tracked (accepted (log ++ [e])) o' := by
  rw [accepted_snoc] at hnd ⊢
  have hnd0 : ((accepted log).map Boat.ID).Nodup := by
    rw [List.map_append] at hnd
    exact (List.nodup_append.1 hnd).1
  have ht := hinv hnd0
  cases op with
  | place boat =>
    obtain ⟨r, hp, he⟩ := step_place_inv o o' boat e h
    subst he
    rcases PlaceBoat_result o o' boat r hp with ⟨hr, heq, _⟩ |
      ⟨hr, hfits, hclear, hid, g', hfill, heq⟩
    · subst heq; subst hr
      simpa [Event.accepted?] using ht
    · subst heq; subst hr
      have hfresh : boat.ID ∉ (accepted log).map Boat.ID := by
        simp only [Event.accepted?, List.map_append, List.map_cons, List.map_nil] at hnd
        intro hmem
        exact (List.disjoint_of_nodup_append hnd) hmem (List.mem_singleton_self _)
      exact tracked_place (accepted log) o boat g' ht hfresh hfits hclear hid hfill
  | shoot c =>
    obtain ⟨r, hs, he⟩ := step_shoot_inv o o' c e h
    subst he
    simp only [Event.accepted?, List.append_nil]
    rcases TakeShot_cases o o' c r hs with ⟨_, _, heq⟩ | ⟨_, hcell, _, heq⟩ |
      ⟨_, u, bt, hcell, hu, hslot, _, heq⟩ | ⟨_, u, _, _, _, _, heq⟩
    · subst heq; exact ht
    · subst heq; exact tracked_miss _ o c ht hcell
    · subst heq; exact tracked_hit _ o c u bt ht hnd0 hcell hu hslot
    · subst heq; exact tracked_same _ o _ ht rfl

/-- The bookkeeping holds in every state reached from a fresh board with at most
99 slots by a returning run whose accepted vessels have distinct identifiers. -/
theorem tracked_run (N w h : Int) (o0 o : Ocean) (ops : List Op) (log : List Event)
    (hc : Ocean.construct N w h = .ok o0) (hN : N ≤ 99)
    (hrun : runOps o0 ops = .ok (log, o))
    (hdist : ((accepted log).map Boat.ID).Nodup) : Tracked (accepted log) o := by
  have := runOps_invariant
    (fun l s => ((accepted l).map Boat.ID).Nodup → Tracked (accepted l) s)
    (fun l s s' op e hinv hs => step_tracked l s s' op e hinv hs)
    ops [] o0 o log (fun _ => construct_tracked N w h o0 hc hN) hrun
  simp only [List.nil_append] at this
  exact this hdist

theorem fullyHit_iff (o : Ocean) (b : Boat) :
    o.fullyHit b = true ↔
      ∀ i : Nat, i < 4 → o.cell (b.spanCell (i : Int)) = some (b.ID + 100) := by
  have hall := @List.countP_eq_length _ (List.range 4)
    (fun (i : Nat) => decide (o.cell (b.spanCell (i : Int)) = some (b.ID + 100)))
  have hlen : (List.range 4).length = 4 := List.length_range 4
  rw [hlen] at hall
  unfold Ocean.fullyHit Ocean.hitCount
  rw [decide_eq_true_eq, hall]
  simp only [List.mem_range, decide_eq_true_eq]

/-- With cell `i0` of the span unhit, the count of hit cells reaches 3 exactly when
the other three cells are hit. -/
theorem hitCount_last (o : Ocean) (b : Boat) (i0 : Nat) (hi0 : i0 < 4)
    (hunhit : o.cell (b.spanCell (i0 : Int)) = some b.ID) :
    4 ≤ o.hitCount b + 1 ↔
      ∀ j : Nat, j < 4 → j ≠ i0 → o.cell (b.spanCell (j : Int)) = some (b.ID + 100) := by
  have hflip := countP_flip
    (fun (i : Nat) => decide (o.cell (b.spanCell (i : Int)) = some (b.ID + 100)))
    (fun (i : Nat) => decide (i = i0) || decide (o.cell (b.spanCell (i : Int)) = some (b.ID + 100)))
    i0 (List.range 4) (List.nodup_range 4) (List.mem_range.2 hi0)
    (by intro i _ hne; simp [hne])
    (by simp [hunhit])
  simp only [decide_True, Bool.true_or, if_true] at hflip
  have hlen : (List.range 4).length = 4 := List.length_range 4
  have hle := @List.countP_le_length _
    (fun (i : Nat) => decide (i = i0) || decide (o.cell (b.spanCell (i : Int)) = some (b.ID + 100)))
    (List.range 4)
  have hall := @List.countP_eq_length _ (List.range 4)
    (fun (i : Nat) => decide (i = i0) || decide (o.cell (b.spanCell (i : Int)) = some (b.ID + 100)))
  unfold Ocean.hitCount
  constructor
  · intro h4 j hj hne
    have heq : List.countP
        (fun (i : Nat) => decide (i = i0) ||
          decide (o.cell (b.spanCell (i : Int)) = some (b.ID + 100))) (List.range 4) =
        (List.range 4).length := by omega
    have := hall.1 heq j (List.mem_range.2 hj)
    simpa [hne] using this
  · intro hoth
    have heq := hall.2 (by
      intro j hj
      by_cases hje : j = i0
      · simp [hje]
      · simp [hje, hoth j (List.mem_range.1 hj) hje])
    omega

/-- C16. In every state reached from a freshly constructed board with
`vesselCapacity ≤ 99` by a returning interleaving of `TakeShot` and `PlaceBoat`
calls whose accepted vessels have pairwise distinct identifiers (they lie in
`[1, vesselCapacity]`), the hit counter stored for each accepted vessel equals
the number of cells of its span that hold its identifier plus 100, so it is
between 0 and 4; and `TakeShot` returns Sunk exactly when the shot is at a
still-unhit cell of an accepted vessel whose other three cells are hit. -/
theorem hit_counter_matches_grid (N w h : Int) (o0 o : Ocean) (ops : List Op)
    (log : List Event) (hc : Ocean.construct N w h = .ok o0) (hN : N ≤ 99)
    (hrun : runOps o0 ops = .ok (log, o))
    (hdist : ((accepted log).map Boat.ID).Nodup) :
    (∀ b ∈ accepted log, (1 ≤ b.ID ∧ b.ID ≤ N) ∧
      ∃ bt : Boat, o.slot b.ID = some bt ∧ bt.hits = (o.hitCount b : Int) ∧
        0 ≤ bt.hits ∧ bt.hits ≤ 4) ∧
    (∀ (c : Point) (r : ShotResult) (o' : Ocean), o.TakeShot c = .ok (r, o') →
      (r = .srSUNK ↔
        ∃ b ∈ accepted log, ∃ i : Nat, i < 4 ∧ c = b.spanCell (i : Int) ∧
          o.cell c = some b.ID ∧
          ∀ j : Nat, j < 4 → j ≠ i → o.cell (b.spanCell (j : Int)) = some (b.ID + 100))) := by
  have ht := tracked_run N w h o0 o ops log hc hN hrun hdist
  have henc : Encoded N o := by
    have := runOps_invariant (fun _ s => Encoded N s)
      (fun _ s s' op e hinv hs => step_encoded N s s' op e hinv hs)
      ops [] o0 o log (construct_encoded N w h o0 hc) hrun
    exact this
  constructor
  · intro b hb
    have hid := ht.ids b hb
    have hcap := henc.cap
    have hle := hitCount_le o b
    exact ⟨⟨hid.1, by omega⟩, _, ht.slots b hb, rfl, by simp, by simp only; omega⟩
  · intro c r o' hshot
    constructor
    · intro hr
      subst hr
      rcases TakeShot_cases o o' c _ hshot with ⟨_, hr, _⟩ | ⟨_, _, hr, _⟩ |
        ⟨hvalid, u, bt, hcell, hu, hslot, hr, _⟩ | ⟨_, u, _, _, _, hr, _⟩
      · cases hr
      · cases hr
      · have hu' : 0 < u ∧ u < 100 := by unfold HIT_OFFSET at hu; exact hu
        obtain ⟨b0, hb0, i0, hi0, hki, hub, hold, hrec⟩ := tracked_owner _ o ht _ u hcell hu'
        have hin := (IsValidCoordinate_iff o c).1 hvalid
        have hsp := spanCell_inside o b0 (ht.fits b0 hb0) i0 (by omega)
        have hceq : c = b0.spanCell (i0 : Int) := flat_inj o _ _ hin.1 hsp.1 hki
        have hbt : bt.hits = (o.hitCount b0 : Int) := by
          rw [hslot] at hrec
          simp only [Option.some.injEq] at hrec
          rw [hrec]
        have h4 : bt.hits + 1 ≥ BOAT_LENGTH := by
          by_contra hn
          rw [if_neg hn] at hr
          cases hr
        unfold BOAT_LENGTH at h4
        refine ⟨b0, hb0, i0, hi0, hceq, ?_, (hitCount_last o b0 i0 hi0 hold).1 (by omega)⟩
        rw [hceq]; exact hold
      · cases hr
    · rintro ⟨b, hb, i, hi, hceq, hcell, hoth⟩
      have hid := ht.ids b hb
      have hcap := ht.cap
      have hsp := spanCell_inside o b (ht.fits b hb) i (by omega)
      have hvalid : o.IsValidCoordinate c = true := by
        rw [hceq]; exact (IsValidCoordinate_iff o _).2 hsp
      have hold : o.cell (b.spanCell (i : Int)) = some b.ID := by rw [← hceq]; exact hcell
      have h4 := (hitCount_last o b i hi hold).2 hoth
      have hstep := TakeShot_hit_eq o c b.ID _ hvalid hcell
        (by unfold HIT_OFFSET; omega) (ht.slots b hb)
      rw [hstep] at hshot
      simp only [Except.ok.injEq, Prod.mk.injEq] at hshot
      rw [← hshot.1]
      have : (o.hitCount b : Int) + 1 ≥ BOAT_LENGTH := by unfold BOAT_LENGTH; omega
      simp only [this, if_true]

theorem hit_counter_matches_grid_witness :
    runOps emptyBoard
        [.place ⟨0, 1, oHORIZONTAL, ⟨0, 0⟩⟩, .shoot ⟨0, 0⟩, .shoot ⟨2, 1⟩, .shoot ⟨1, 0⟩,
          .shoot ⟨2, 0⟩] =
      .ok ([.placed ⟨0, 1, oHORIZONTAL, ⟨0, 0⟩⟩ .bpACCEPTED, .shot ⟨0, 0⟩ .srHIT,
          .shot ⟨2, 1⟩ .srMISS, .shot ⟨1, 0⟩ .srHIT, .shot ⟨2, 0⟩ .srHIT],
        ⟨[101, 101, 101, 1, 0, 0, -1, 0], [⟨3, 1, oHORIZONTAL, ⟨0, 0⟩⟩], ⟨4, 2⟩,
          ⟨3, 1, 0, 0⟩⟩) ∧
    (∃ bt : Boat,
      (⟨[101, 101, 101, 1, 0, 0, -1, 0], [⟨3, 1, oHORIZONTAL, ⟨0, 0⟩⟩], ⟨4, 2⟩,
          ⟨3, 1, 0, 0⟩⟩ : Ocean).slot 1 = some bt ∧
      bt.hits =
        ((⟨[101, 101, 101, 1, 0, 0, -1, 0], [⟨3, 1, oHORIZONTAL, ⟨0, 0⟩⟩], ⟨4, 2⟩,
          ⟨3, 1, 0, 0⟩⟩ : Ocean).hitCount ⟨0, 1, oHORIZONTAL, ⟨0, 0⟩⟩ : Int) ∧
      0 ≤ bt.hits ∧ bt.hits ≤ 4) ∧
    (⟨[101, 101, 101, 1, 0, 0, -1, 0], [⟨3, 1, oHORIZONTAL, ⟨0, 0⟩⟩], ⟨4, 2⟩,
        ⟨3, 1, 0, 0⟩⟩ : Ocean).hitCount ⟨0, 1, oHORIZONTAL, ⟨0, 0⟩⟩ = 3 := by
  have hrun : runOps emptyBoard
      [.place ⟨0, 1, oHORIZONTAL, ⟨0, 0⟩⟩, .shoot ⟨0, 0⟩, .shoot ⟨2, 1⟩, .shoot ⟨1, 0⟩,
        .shoot ⟨2, 0⟩] =
      .ok ([.placed ⟨0, 1, oHORIZONTAL, ⟨0, 0⟩⟩ .bpACCEPTED, .shot ⟨0, 0⟩ .srHIT,
          .shot ⟨2, 1⟩ .srMISS, .shot ⟨1, 0⟩ .srHIT, .shot ⟨2, 0⟩ .srHIT],
        ⟨[101, 101, 101, 1, 0, 0, -1, 0], [⟨3, 1, oHORIZONTAL, ⟨0, 0⟩⟩], ⟨4, 2⟩,
          ⟨3, 1, 0, 0⟩⟩) := by decide
  have h := hit_counter_matches_grid 1 4 2 emptyBoard _ _ _ (by decide) (by decide) hrun
    (by decide)
  exact ⟨hrun, (h.1 ⟨0, 1, oHORIZONTAL, ⟨0, 0⟩⟩ (by decide)).2, by decide⟩

/-- C17. In every state reached from a freshly constructed board with
`vesselCapacity ≤ 99` by a returning interleaving of `TakeShot` and `PlaceBoat`
calls whose accepted vessels have pairwise distinct identifiers, `sunk` equals
the number of accepted vessels all four of whose cells are hit (hold the
identifier plus 100), and so never exceeds the number of accepted vessels. -/
theorem sunk_counts_sunk_vessels (N w h : Int) (o0 o : Ocean) (ops : List Op)
    (log : List Event) (hc : Ocean.construct N w h = .ok o0) (hN : N ≤ 99)
    (hrun : runOps o0 ops = .ok (log, o))
    (hdist : ((accepted log).map Boat.ID).Nodup) :
    o.GetShotStats.sunk = ((accepted log).countP o.fullyHit : Nat) ∧
    o.GetShotStats.sunk ≤ ((accepted log).length : Nat) ∧
    (∀ b : Boat, o.fullyHit b = true ↔
      ∀ i : Nat, i < 4 → o.cell (b.spanCell (i : Int)) = some (b.ID + 100)) := by
  have ht := tracked_run N w h o0 o ops log hc hN hrun hdist
  have hle := @List.countP_le_length _ o.fullyHit (accepted log)
  refine ⟨ht.sunk, ?_, fullyHit_iff o⟩
  have := ht.sunk
  unfold Ocean.GetShotStats
  omega

theorem sunk_counts_sunk_vessels_witness :
    runOps emptyBoard
        [.place ⟨0, 1, oHORIZONTAL, ⟨0, 0⟩⟩, .shoot ⟨0, 0⟩, .shoot ⟨3, 0⟩, .shoot ⟨1, 0⟩,
          .shoot ⟨2, 0⟩] =
      .ok ([.placed ⟨0, 1, oHORIZONTAL, ⟨0, 0⟩⟩ .bpACCEPTED, .shot ⟨0, 0⟩ .srHIT,
          .shot ⟨3, 0⟩ .srHIT, .shot ⟨1, 0⟩ .srHIT, .shot ⟨2, 0⟩ .srSUNK],
        ⟨[101, 101, 101, 101, 0, 0, 0, 0], [⟨4, 1, oHORIZONTAL, ⟨0, 0⟩⟩], ⟨4, 2⟩,
          ⟨4, 0, 0, 1⟩⟩) ∧
    (⟨[101, 101, 101, 101, 0, 0, 0, 0], [⟨4, 1, oHORIZONTAL, ⟨0, 0⟩⟩], ⟨4, 2⟩,
        ⟨4, 0, 0, 1⟩⟩ : Ocean).GetShotStats.sunk =
      (([⟨0, 1, oHORIZONTAL, ⟨0, 0⟩⟩] : List Boat).countP
        (⟨[101, 101, 101, 101, 0, 0, 0, 0], [⟨4, 1, oHORIZONTAL, ⟨0, 0⟩⟩], ⟨4, 2⟩,
          ⟨4, 0, 0, 1⟩⟩ : Ocean).fullyHit : Nat) := by
  have hrun : runOps emptyBoard
      [.place ⟨0, 1, oHORIZONTAL, ⟨0, 0⟩⟩, .shoot ⟨0, 0⟩, .shoot ⟨3, 0⟩, .shoot ⟨1, 0⟩,
        .shoot ⟨2, 0⟩] =
      .ok ([.placed ⟨0, 1, oHORIZONTAL, ⟨0, 0⟩⟩ .bpACCEPTED, .shot ⟨0, 0⟩ .srHIT,
          .shot ⟨3, 0⟩ .srHIT, .shot ⟨1, 0⟩ .srHIT, .shot ⟨2, 0⟩ .srSUNK],
        ⟨[101, 101, 101, 101, 0, 0, 0, 0], [⟨4, 1, oHORIZONTAL, ⟨0, 0⟩⟩], ⟨4, 2⟩,
          ⟨4, 0, 0, 1⟩⟩) := by decide
  have h := sunk_counts_sunk_vessels 1 4 2 emptyBoard _ _ _ (by decide) (by decide) hrun
    (by decide)
  exact ⟨hrun, h.1⟩

end HLP2.WarBoats
